import Mathlib

/-!
# A verification development for `grub2/grub2.go`

The Go program keeps a model of a GRUB2 boot menu: `parseEntries` rebuilds the
entry collection from the text of `grub.cfg`, `parseSettings` rebuilds the
settings map from the text of `/etc/default/grub`.

Conventions of the embedding.

* A Go `string` is a `List Char` (`Str`); only texts that are valid UTF-8 are
  represented.  Byte lengths are computed with `Char.utf8Size`.
* The receiver `grub *Grub2` is threaded explicitly: a method returns the new
  value of the receiver together with what Go returns.
* A Go run-time panic (index out of range) is an explicit outcome.
* `*Entry` values stored in `parentSubMenu` are addresses of per-iteration
  copies of the entry that was just appended to `grub.entries`; the address is
  represented by the position of that entry in `grub.entries`, `nil` by `none`.
-/

namespace GrubModel

/-- Go strings, as lists of Unicode code points. -/
abbrev Str := List Char

/-! ## Go standard library functions used by the program -/

/-- Go `unicode.IsSpace`: the Latin-1 spaces `\t \n \v \f \r`, space, U+0085,
U+00A0, and the other code points with the White_Space property. -/
def isSpace (c : Char) : Bool :=
  let n := c.toNat
  (9 ≤ n && n ≤ 13) || n == 0x20 || n == 0x85 || n == 0xA0 || n == 0x1680 ||
  (0x2000 ≤ n && n ≤ 0x200A) || n == 0x2028 || n == 0x2029 || n == 0x202F ||
  n == 0x205F || n == 0x3000

/-- Go `strings.TrimLeftFunc(s, unicode.IsSpace)`. -/
def trimLeft (s : Str) : Str := s.dropWhile isSpace

/-- Go `strings.TrimSpace`. -/
def trimSpace (s : Str) : Str := (trimLeft s).rdropWhile isSpace

/-- Go `strings.HasPrefix(s, p)`. -/
def hasPrefix (s p : Str) : Bool := p.isPrefixOf s

/-- Number of bytes of the UTF-8 encoding of a string (Go `len(s)`). -/
def byteLen (s : Str) : Nat := (s.map Char.utf8Size).sum

/-- Go `bufio.MaxScanTokenSize`. -/
def maxScanTokenSize : Nat := 64 * 1024

/-- The text cut at every `\n`: the pieces that `bufio.ScanLines` looks at, each
without its terminating `\n`.  A last piece without `\n` is a line when it is
not empty. -/
def rawLines : Str → List Str
  | [] => []
  | c :: cs =>
    if c = '\n' then [] :: rawLines cs
    else
      match rawLines cs with
      | [] => [[c]]
      | l :: ls => (c :: l) :: ls

/-- The helper `dropCR` of `bufio.ScanLines`: one trailing `\r` is removed. -/
def dropCR (s : Str) : Str :=
  match s.getLast? with
  | some '\r' => s.dropLast
  | _ => s

/-- A `bufio.Scanner` with the default buffer cannot deliver a line whose bytes
before the `\n` fill the whole buffer of `maxScanTokenSize` bytes: `Scan`
then returns false and `Err` is `ErrTooLong`. -/
def tooLong (raw : Str) : Bool := maxScanTokenSize ≤ byteLen raw

/-! ## Title extraction -/

/-- Removes the prefix `p` from `s`, when `s` starts with it. -/
def stripPrefix : Str → Str → Option Str
  | [], s => some s
  | _ :: _, [] => none
  | a :: p, b :: s => if a = b then stripPrefix p s else none

/-- The group `(menuentry|submenu)` of the entry patterns: the text after the
keyword. -/
def matchKeyword (s : Str) : Option Str :=
  match stripPrefix "menuentry".toList s with
  | some r => some r
  | none => stripPrefix "submenu".toList s

/-- The pattern `^ *(menuentry|submenu) +q(.*?)q.*$` matched against a whole
string, `q` being the quote character; the result is the second group.
`.` matches every character but `\n`, and `$` only the end of the text, so the
text after the opening quote must be free of `\n`; the lazy `(.*?)` stops at
the first closing quote. -/
def matchEntryRegexp (q : Char) (line : Str) : Option Str :=
  match matchKeyword (line.dropWhile (fun c => c == ' ')) with
  | none => none
  | some afterKw =>
    match afterKw with
    | ' ' :: more =>
      match more.dropWhile (fun c => c == ' ') with
      | [] => none
      | c :: rest =>
        if c = q ∧ q ∈ rest ∧ '\n' ∉ rest then some (rest.takeWhile (fun x => x != q))
        else none
    | _ => none

/-- The pattern `_ENTRY_REGEXP_1`, title in single quotes. -/
def _ENTRY_REGEXP_1 (line : Str) : Option Str := matchEntryRegexp '\'' line

/-- The pattern `_ENTRY_REGEXP_2`, title in double quotes. -/
def _ENTRY_REGEXP_2 (line : Str) : Option Str := matchEntryRegexp '"' line

/-- Go `Grub2.parseTitle`. -/
def parseTitle (line : Str) : Str × Bool :=
  let line := trimLeft line
  match _ENTRY_REGEXP_1 line with
  | some t => (t, true)
  | none =>
    match _ENTRY_REGEXP_2 line with
    | some t => (t, true)
    | none => ([], false)

/-! ## The entry model -/

/-- The two kinds of entry, the constants `MENUENTRY` and `SUBMENU`. -/
inductive EntryType where
  | MENUENTRY
  | SUBMENU
  deriving DecidableEq

open EntryType

/-- Modelled from the spec: the declaration of the struct `Entry` is not among
the sources.  The fields are those of the positional literal
`Entry{kind, title, numCount[level], parentMenus[len(parentMenus)-1]}` built
in `parseEntries`: kind, title, sibling index and parent.  The parent, a
`*Entry` in Go, is the position in `grub.entries` of the entry it was copied
from, or `none` for `nil`. -/
structure Entry where
  entryType : EntryType
  title : Str
  num : Nat
  parentSubMenu : Option Nat
  deriving DecidableEq

/-- What a call can end with: the errors built by `parseEntries`, the error
`ErrTooLong` of the line scanner. -/
inductive ParseError where
  | menuentryInMenuentry
  | submenuInMenuentry
  | titleFailed (line : Str)
  | errTooLong
  deriving DecidableEq

/-- The value a Go function of type `error` ends with: `nil`, an error, or a
run-time panic. -/
inductive Ret where
  | nil
  | error (e : ParseError)
  | panic
  deriving DecidableEq

/-- Go `map[string]string`: the keys that are present, each with its value. -/
abbrev Settings := List (Str × Str)

/-- The fields of `Grub2` that hold the model (the theme and the signal
callback are outside of it). -/
structure Grub2 where
  entries : List Entry
  settings : Settings
  DefaultEntry : Str
  Timeout : Int
  deriving DecidableEq

/-- Go `Grub2.clearEntries`. -/
def clearEntries (grub : Grub2) : Grub2 := { grub with entries := [] }

/-- Go `Grub2.clearSettings`. -/
def clearSettings (grub : Grub2) : Grub2 := { grub with settings := [] }

/-! ## The menu parser -/

/-- The local variables of the loop of `parseEntries`, with the receiver. -/
structure Scan where
  grub : Grub2
  inMenuEntry : Bool
  level : Nat
  numCount : Nat → Nat
  parentMenus : List (Option Nat)

/-- The assignment `m[k] = v` on a `map[int]int` read with default `0`. -/
def setCount (m : Nat → Nat) (k v : Nat) : Nat → Nat := fun i => if i = k then v else m i

/-- The state in which the loop of `parseEntries` starts. -/
def Scan.init (grub : Grub2) : Scan :=
  { grub := clearEntries grub, inMenuEntry := false, level := 0,
    numCount := setCount (fun _ => 0) 0 0, parentMenus := [none] }

/-- One turn of the loop body of `parseEntries` on a delivered line: the new
state, and the value returned when the body returns. -/
def scanLine (s : Scan) (text : Str) : Scan × Option Ret :=
  let line := trimSpace text
  if hasPrefix line "menuentry ".toList then
    if s.inMenuEntry then
      ({ s with grub := clearEntries s.grub }, some (.error .menuentryInMenuentry))
    else
      match parseTitle line with
      | (title, true) =>
        match s.parentMenus.getLast? with
        | none => (s, some .panic)
        | some parent =>
          let entry : Entry := ⟨MENUENTRY, title, s.numCount s.level, parent⟩
          ({ s with
              grub := { s.grub with entries := s.grub.entries ++ [entry] },
              numCount := setCount s.numCount s.level (s.numCount s.level + 1),
              inMenuEntry := true }, none)
      | (_, false) =>
        ({ s with grub := clearEntries s.grub }, some (.error (.titleFailed line)))
  else if hasPrefix line "submenu ".toList then
    if s.inMenuEntry then
      ({ s with grub := clearEntries s.grub }, some (.error .submenuInMenuentry))
    else
      match parseTitle line with
      | (title, true) =>
        match s.parentMenus.getLast? with
        | none => (s, some .panic)
        | some parent =>
          let entry : Entry := ⟨SUBMENU, title, s.numCount s.level, parent⟩
          ({ s with
              grub := { s.grub with entries := s.grub.entries ++ [entry] },
              parentMenus := s.parentMenus ++ [some s.grub.entries.length],
              level := s.level + 1,
              numCount := setCount s.numCount (s.level + 1) 0 }, none)
      | (_, false) =>
        ({ s with grub := clearEntries s.grub }, some (.error (.titleFailed line)))
  else if line = "\x7d".toList then
    if s.inMenuEntry then
      ({ s with inMenuEntry := false }, none)
    else if 0 < s.level then
      match s.parentMenus with
      | [] => ({ s with level := s.level - 1 }, some .panic)
      | _ :: _ => ({ s with level := s.level - 1, parentMenus := s.parentMenus.dropLast }, none)
    else (s, none)
  else (s, none)

/-- The loop `for sl.Scan() { ... }` of `parseEntries` over the pieces of the
text, followed by the check of `sl.Err()`. -/
def scanLoop : List Str → Scan → Scan × Ret
  | [], s => (s, .nil)
  | raw :: rest, s =>
    if tooLong raw then (s, .error .errTooLong)
    else
      match scanLine s (dropCR raw) with
      | (s1, some r) => (s1, r)
      | (s1, none) => scanLoop rest s1

/-- Go `Grub2.parseEntries`: the receiver after the call and the returned
value. -/
def parseEntries (grub : Grub2) (fileContent : Str) : Grub2 × Ret :=
  let r := scanLoop (rawLines fileContent) (Scan.init grub)
  (r.1.grub, r.2)

/-! ## The settings store -/

/-- Reading `m[k]` from a `map[string]string`: the empty string when the key
is absent. -/
def Settings.get (m : Settings) (k : Str) : Str :=
  match m.lookup k with
  | some v => v
  | none => []

/-- The assignment `m[k] = v`. -/
def Settings.set (m : Settings) (k v : Str) : Settings :=
  (k, v) :: m.filter (fun p => p.1 != k)

/-- Functions of the repository that `grub2.go` calls and whose declarations
are not among the sources; the development holds for every choice of them.
`getFullTitle` receives the collection in which the parent positions of the
entry are read; `GetSimpleEntryTitles` is the list it returns, computed from
the entry collection. -/
structure Helpers where
  unquoteString : Str → Str
  quoteString : Str → Str
  getFullTitle : List Entry → Entry → Str
  GetSimpleEntryTitles : List Entry → List Str

/-- Modelled from the spec: `stringInSlice` is not among the sources; it tells
whether the string exactly equals a member of the list. -/
def stringInSlice (a : Str) (list : List Str) : Bool := decide (a ∈ list)

/-- Value of a decimal digit. -/
def digitVal (c : Char) : Option Nat :=
  if '0'.toNat ≤ c.toNat ∧ c.toNat ≤ '9'.toNat then some (c.toNat - '0'.toNat) else none

/-- The digits of an unsigned decimal number, most significant first, added to
the value read so far; `none` when a character is not a digit. -/
def parseDigits : Nat → Str → Option Nat
  | acc, [] => some acc
  | acc, c :: cs =>
    match digitVal c with
    | some d => parseDigits (acc * 10 + d) cs
    | none => none

/-- The text of an unsigned decimal number: at least one digit, only digits. -/
def parseUnsigned (s : Str) : Option Nat :=
  match s with
  | [] => none
  | _ :: _ => parseDigits 0 s

/-- Go `strconv.ParseInt(s, 10, 32)`: `none` when it returns an error (syntax
or range), the value otherwise. -/
def ParseInt (s : Str) : Option Int :=
  match s with
  | [] => none
  | '+' :: r =>
    match parseUnsigned r with
    | some n => if n < 2 ^ 31 then some (n : Int) else none
    | none => none
  | '-' :: r =>
    match parseUnsigned r with
    | some n => if n ≤ 2 ^ 31 then some (-(n : Int)) else none
    | none => none
  | _ :: _ =>
    match parseUnsigned s with
    | some n => if n < 2 ^ 31 then some (n : Int) else none
    | none => none

/-- Go `strconv.FormatInt(i, 10)`. -/
def FormatInt (i : Int) : Str :=
  if i < 0 then '-' :: Nat.toDigits 10 i.natAbs else Nat.toDigits 10 i.natAbs

/-- The constant `_GRUB_TIMEOUT_DISABLE`. -/
def _GRUB_TIMEOUT_DISABLE : Int := -2

/-- Go `Grub2.getEntryTitles`: the titles, and whether an error is returned
with them. -/
def getEntryTitles (H : Helpers) (grub : Grub2) : List Str × Bool :=
  let entryTitles :=
    (grub.entries.filter (fun entry => entry.entryType = MENUENTRY)).map
      (H.getFullTitle grub.entries)
  (entryTitles, entryTitles.length == 0)

/-- Go `Grub2.getDefaultEntry`. -/
def getDefaultEntry (H : Helpers) (grub : Grub2) : Str :=
  let entryTitles := (getEntryTitles H grub).1
  let simpleEntryTitles := H.GetSimpleEntryTitles grub.entries
  let firstEntry := match simpleEntryTitles with
    | [] => []
    | t :: _ => t
  let value := grub.settings.get "GRUB_DEFAULT".toList
  if byteLen value = 0 then firstEntry
  else if stringInSlice value simpleEntryTitles then value
  else if stringInSlice value entryTitles then firstEntry
  else
    let index : Int := match ParseInt value with
      | some i => i
      | none => 0
    if 0 ≤ index ∧ index.toNat < simpleEntryTitles.length then
      match simpleEntryTitles[index.toNat]? with
      | some t => t
      | none => firstEntry
    else firstEntry

/-- Go `Grub2.getTimeout`. -/
def getTimeout (grub : Grub2) : Int :=
  if byteLen (grub.settings.get "GRUB_TIMEOUT".toList) = 0 then _GRUB_TIMEOUT_DISABLE
  else
    match ParseInt (grub.settings.get "GRUB_TIMEOUT".toList) with
    | none => _GRUB_TIMEOUT_DISABLE
    | some timeout => timeout

/-- Go `Grub2.getGfxmode`. -/
def getGfxmode (grub : Grub2) : Str :=
  if byteLen (grub.settings.get "GRUB_GFXMODE".toList) = 0 then "auto".toList
  else grub.settings.get "GRUB_GFXMODE".toList

/-- Go `Grub2.getTheme`. -/
def getTheme (grub : Grub2) : Str := grub.settings.get "GRUB_THEME".toList

/-- Go `Grub2.setDefaultEntry`. -/
def setDefaultEntry (grub : Grub2) (title : Str) : Grub2 :=
  { grub with settings := grub.settings.set "GRUB_DEFAULT".toList title }

/-- Go `Grub2.setTimeout`. -/
def setTimeout (grub : Grub2) (timeout : Int) : Grub2 :=
  if timeout = _GRUB_TIMEOUT_DISABLE then
    { grub with settings := grub.settings.set "GRUB_TIMEOUT".toList [] }
  else
    { grub with settings := grub.settings.set "GRUB_TIMEOUT".toList (FormatInt timeout) }

/-- Go `Grub2.setGfxmode`. -/
def setGfxmode (grub : Grub2) (gfxmode : Str) : Grub2 :=
  { grub with settings := grub.settings.set "GRUB_GFXMODE".toList gfxmode }

/-- Go `Grub2.setTheme`. -/
def setTheme (grub : Grub2) (themeFile : Str) : Grub2 :=
  { grub with settings := grub.settings.set "GRUB_THEME".toList themeFile }

/-- Go `strings.SplitN(s, "=", 2)`: the text before the first `=` and the text
after it, or the whole text alone when there is no `=`. -/
def splitN2 (s : Str) : List Str :=
  match s.dropWhile (fun c => c != '=') with
  | [] => [s]
  | _ :: value => [s.takeWhile (fun c => c != '='), value]

/-- One turn of the loop body of `parseSettings`; `none` is the panic of
`kv[1]` on a slice of length one. -/
def settingsLine (H : Helpers) (grub : Grub2) (text : Str) : Option Grub2 :=
  let line := trimSpace text
  if hasPrefix line "GRUB_".toList then
    let kv := splitN2 line
    match kv[0]?, kv[1]? with
    | some key, some value =>
      some { grub with settings := grub.settings.set key (H.unquoteString value) }
    | _, _ => none
  else some grub

/-- The loop `for s.Scan() { ... }` of `parseSettings`, followed by the check
of `s.Err()`. -/
def settingsLoop (H : Helpers) : List Str → Grub2 → Grub2 × Ret
  | [], grub => (grub, .nil)
  | raw :: rest, grub =>
    if tooLong raw then (grub, .error .errTooLong)
    else
      match settingsLine H grub (dropCR raw) with
      | none => (grub, .panic)
      | some grub1 => settingsLoop H rest grub1

/-- Go `Grub2.parseSettings`: the receiver after the call and the returned
value. -/
def parseSettings (H : Helpers) (grub : Grub2) (fileContent : Str) : Grub2 × Ret :=
  match settingsLoop H (rawLines fileContent) (clearSettings grub) with
  | (grub1, .nil) =>
    let grub2 := { grub1 with DefaultEntry := getDefaultEntry H grub1 }
    let grub3 := { grub2 with Timeout := getTimeout grub2 }
    let grub4 := setDefaultEntry grub3 grub3.DefaultEntry
    (setTimeout grub4 grub4.Timeout, .nil)
  | r => r

/-- Go `Grub2.getSettingContentToSave`.  Go does not specify the order in which
`range grub.settings` delivers the keys of the map, so the order is an
argument: `order` lists the keys of the map, each once. -/
def getSettingContentToSave (H : Helpers) (grub : Grub2) (order : List Str) : Str :=
  order.foldl
    (fun fileContent k =>
      let v := grub.settings.get k
      if 0 < byteLen v then fileContent ++ (k ++ "=".toList ++ H.quoteString v ++ "\n".toList)
      else fileContent)
    []

/-! ## The scan as the specification describes it

The definitions of this section follow the words of the specification, not the
code: the lines of the text after trimming, the directive lines, and the
submenu scopes and menuentry bodies that are open when a line is met. -/

/-- The lines of the text, each trimmed of surrounding white space. -/
def lines (text : Str) : List Str := (rawLines text).map trimSpace

/-- The line begins with `menuentry `. -/
def isMenuentryLine (line : Str) : Bool := hasPrefix line "menuentry ".toList

/-- The line begins with `submenu `. -/
def isSubmenuLine (line : Str) : Bool := hasPrefix line "submenu ".toList

/-- A directive line begins with `menuentry ` or with `submenu `. -/
def isDirective (line : Str) : Bool := isMenuentryLine line || isSubmenuLine line

/-- The kind of entry that the keyword of a directive line announces. -/
def kindOf (line : Str) : EntryType := if isMenuentryLine line then MENUENTRY else SUBMENU

/-- What is open at a point of the scan: the submenu scopes, innermost first,
each named by the position of its Submenu entry in the collection (the number
of directive lines met before its line); whether a menuentry body is open; the
number of directive lines met so far. -/
structure Scope where
  stack : List Nat
  inBody : Bool
  seen : Nat
  deriving DecidableEq

/-- The nesting level: the number of open submenu scopes. -/
def Scope.level (σ : Scope) : Nat := σ.stack.length

/-- Nothing is open at the top of the text. -/
def Scope.start : Scope := { stack := [], inBody := false, seen := 0 }

/-- The effect of a line: a menuentry line opens a body, a submenu line opens
a scope, a line equal to `}` closes the open body if there is one and
otherwise the innermost scope if there is one; other lines change nothing. -/
def Scope.next (σ : Scope) (line : Str) : Scope :=
  if isMenuentryLine line then { σ with inBody := true, seen := σ.seen + 1 }
  else if isSubmenuLine line then { σ with stack := σ.seen :: σ.stack, seen := σ.seen + 1 }
  else if line = "\x7d".toList then
    if σ.inBody then { σ with inBody := false } else { σ with stack := σ.stack.tail }
  else σ

/-- Every line with what is open when the scan meets it. -/
def met : Scope → List Str → List (Scope × Str)
  | _, [] => []
  | σ, line :: rest => (σ, line) :: met (σ.next line) rest

/-- A directive line that stops the parse: it is met while a menuentry body is
open, or no title can be extracted from it. -/
def isBad (x : Scope × Str) : Bool :=
  isDirective x.2 && (x.1.inBody || !(parseTitle x.2).2)

/-- Number of entries of kind `k` with parent `parent` among the `i` first
entries. -/
def siblingsBefore (k : EntryType) (es : List Entry) (i : Nat) (parent : Option Nat) : Nat :=
  ((es.take i).filter (fun x => x.entryType = k ∧ x.parentSubMenu = parent)).length

/-- The position reached from position `i` by following `k` parent links,
when they all exist. -/
def climb (es : List Entry) : Nat → Nat → Option Nat
  | 0, i => if i < es.length then some i else none
  | k + 1, i =>
    match es[i]? with
    | some e =>
      match e.parentSubMenu with
      | some p => climb es k p
      | none => none
    | none => none

/-! ## Definitions used in the proofs and sample inputs -/

/-- The state after a directive line from which an entry was built. -/
def Scan.push (s : Scan) (k : EntryType) (title : Str) (parent : Option Nat) : Scan :=
  match k with
  | MENUENTRY =>
    { s with
        grub := { s.grub with entries := s.grub.entries ++ [⟨MENUENTRY, title, s.numCount s.level, parent⟩] },
        numCount := setCount s.numCount s.level (s.numCount s.level + 1),
        inMenuEntry := true }
  | SUBMENU =>
    { s with
        grub := { s.grub with entries := s.grub.entries ++ [⟨SUBMENU, title, s.numCount s.level, parent⟩] },
        parentMenus := s.parentMenus ++ [some s.grub.entries.length],
        level := s.level + 1,
        numCount := setCount s.numCount (s.level + 1) 0 }

/-- The code state `s` and the described state `σ` agree. -/
structure Sim (s : Scan) (σ : Scope) : Prop where
  body : s.inMenuEntry = σ.inBody
  level : s.level = σ.stack.length
  parents : s.parentMenus = none :: (σ.stack.reverse.map some)
  seen : s.grub.entries.length = σ.seen

/-- The entries a line adds to the collection: one for a directive line. -/
def newEntries (s : Scan) (σ : Scope) (line : Str) : List Entry :=
  if isDirective line then [⟨kindOf line, (parseTitle line).1, s.numCount s.level, σ.stack.head?⟩]
  else []

/-- Kind, title and parent of an entry. -/
def Entry.shape (e : Entry) : EntryType × Str × Option Nat :=
  (e.entryType, e.title, e.parentSubMenu)

/-- Kind, title and parent that the specification gives to the entry of a
directive line met in scope `x.1`. -/
def metShape (x : Scope × Str) : EntryType × Str × Option Nat :=
  (kindOf x.2, (parseTitle x.2).1, x.1.stack.head?)

/-- Number of MENUENTRY entries with parent `p`. -/
def countM (es : List Entry) (p : Option Nat) : Nat :=
  (es.filter (fun x => x.entryType = MENUENTRY ∧ x.parentSubMenu = p)).length

/-- What holds of the state of the loop of `parseEntries` at every turn. -/
structure Inv (s : Scan) : Prop where
  len : s.parentMenus.length = s.level + 1
  nodup : s.parentMenus.Nodup
  stk : ∀ p : Nat, some p ∈ s.parentMenus →
    ∃ e : Entry, s.grub.entries[p]? = some e ∧ e.entryType = SUBMENU
  par : ∀ (i : Nat) (e : Entry), s.grub.entries[i]? = some e →
    ∀ p : Nat, e.parentSubMenu = some p →
      p < i ∧ ∃ e' : Entry, s.grub.entries[p]? = some e' ∧ e'.entryType = SUBMENU
  cnt : ∀ (l : Nat) (p : Option Nat), s.parentMenus[l]? = some p →
    s.numCount l = countM s.grub.entries p
  num : ∀ (i : Nat) (e : Entry), s.grub.entries[i]? = some e →
    e.num = countM (s.grub.entries.take i) e.parentSubMenu

/-- A receiver that holds nothing yet. -/
def Grub2.empty : Grub2 := { entries := [], settings := [], DefaultEntry := [], Timeout := 0 }

/-- A submenu that holds one menu entry. -/
def menuNested : Str := "submenu 'Advanced options' \x7b\nmenuentry 'Ubuntu' \x7b\n\x7d\n\x7d".toList

/-- Two submenus at top level. -/
def menuTwoSubmenus : Str := "submenu 'A' \x7b\n\x7d\nsubmenu 'B' \x7b\n\x7d\n".toList

/-- A text that stops inside a menuentry body inside a submenu. -/
def menuTruncated : Str := "submenu 's' \x7b\nmenuentry 'a' \x7b\n  linux /vmlinuz".toList

/-- The value of the variable `level` of `parseEntries` at each directive line
that the loop scans without returning. -/
def levelsAtDirectives : List Str → Scan → List Nat
  | [], _ => []
  | raw :: rest, s =>
    if tooLong raw then []
    else
      match scanLine s (dropCR raw) with
      | (s1, none) =>
        (if isDirective (trimSpace (dropCR raw)) then [s.level] else []) ++
          levelsAtDirectives rest s1
      | (_, some _) => []

/-- Every parent link goes to a Submenu entry at a smaller position. -/
def ParentsEarlier (es : List Entry) : Prop :=
  ∀ (i : Nat) (e : Entry) (p : Nat), es[i]? = some e → e.parentSubMenu = some p →
    p < i ∧ ∃ e' : Entry, es[p]? = some e' ∧ e'.entryType = SUBMENU

/-- A menu entry followed by a line of 65536 bytes. -/
def menuTooLong : Str := "menuentry 'a' \x7b\n".toList ++ List.replicate 65536 'x'

/-- A receiver that holds an entry from an earlier parse. -/
def grubWithEntry : Grub2 :=
  { entries := [⟨MENUENTRY, "old".toList, 0, none⟩], settings := [], DefaultEntry := [],
    Timeout := 0 }

/-- A menuentry line whose quote is not closed. -/
def menuUnmatchedQuote : Str := "menuentry 'Ubuntu \x7b".toList

/-- The lines of the defaults text that set a value: those that begin with
`GRUB_` after trimming. -/
def settingLines (text : Str) : List Str :=
  (lines text).filter (fun l => hasPrefix l "GRUB_".toList)

/-- The text of a line before its first `=`. -/
def keyOf (line : Str) : Str := line.takeWhile (fun c => c != '=')

/-- The text of a line after its first `=`. -/
def valueOf (line : Str) : Str := (line.dropWhile (fun c => c != '=')).tail

/-- Modelled from the spec: one choice of `unquoteString`, which strips one
layer of surrounding matching single or double quotes. -/
def sampleUnquote (s : Str) : Str :=
  match s with
  | [] => []
  | q :: rest =>
    if (q = '"' ∨ q = '\'') ∧ rest.getLast? = some q then rest.dropLast else s

/-- Modelled from the spec: one choice of the helper functions, with which the
examples are evaluated: quoting wraps the value in double quotes, the full
title of an entry is its title after the title of its parent, the simple
titles are the titles of the top-level menu entries. -/
def Helpers.sample : Helpers where
  unquoteString := sampleUnquote
  quoteString := fun s => '"' :: (s ++ ['"'])
  getFullTitle := fun es e =>
    match e.parentSubMenu with
    | none => e.title
    | some p =>
      match es[p]? with
      | some parent => parent.title ++ ('>' :: e.title)
      | none => e.title
  GetSimpleEntryTitles := fun es =>
    (es.filter (fun e => e.entryType = MENUENTRY ∧ e.parentSubMenu = none)).map Entry.title

/-- A defaults text with a comment, a duplicate key and a value holding `=`. -/
def defaultsSample : Str :=
  "# comment\nGRUB_DEFAULT=0\nGRUB_CMDLINE_LINUX=\"quiet\"\n  GRUB_CMDLINE_LINUX=\"a=b splash\"\nFOO=1\n".toList

/-- The list `order` is a possible order of iteration over the map: it holds
every key of the map exactly once. -/
def IsRangeOrder (order : List Str) (m : Settings) : Prop :=
  order.Nodup ∧ ∀ k, k ∈ order ↔ k ∈ m.map Prod.fst

/-- The first simple title, or the empty string when there is none. -/
def firstSimple (simple : List Str) : Str :=
  match simple with
  | [] => []
  | t :: _ => t

/-- The keys for which a line is written, in the order of iteration: those with
a non-empty value. -/
def savedKeys (grub : Grub2) (order : List Str) : List Str :=
  order.filter (fun k => decide (grub.settings.get k ≠ []))

/-- The line written for the key `k`. -/
def savedLine (H : Helpers) (grub : Grub2) (k : Str) : Str :=
  k ++ "=".toList ++ H.quoteString (grub.settings.get k) ++ "\n".toList

/-- A defaults text with a `GRUB_` line that has no `=`. -/
def defaultsNoEquals : Str := "GRUB_DEFAULT".toList

/-- A receiver with three top-level menu entries and `GRUB_DEFAULT` set to the
text `2`. -/
def grubThreeEntries : Grub2 :=
  { entries := [⟨MENUENTRY, "A".toList, 0, none⟩, ⟨MENUENTRY, "B".toList, 1, none⟩,
      ⟨MENUENTRY, "C".toList, 2, none⟩],
    settings := [("GRUB_DEFAULT".toList, "2".toList)], DefaultEntry := [], Timeout := 0 }

/-- A receiver whose `GRUB_TIMEOUT` is the text `-1`. -/
def grubTimeoutMinusOne : Grub2 :=
  { entries := [], settings := [("GRUB_TIMEOUT".toList, "-1".toList)], DefaultEntry := [],
    Timeout := 0 }

/-- A receiver whose `GRUB_DEFAULT` names the entry nested in the submenu of
`menuNested`, by its full title. -/
def grubNestedDefault : Grub2 :=
  { entries := [⟨SUBMENU, "Advanced options".toList, 0, none⟩,
      ⟨MENUENTRY, "Ubuntu".toList, 0, some 0⟩, ⟨MENUENTRY, "Memory Test".toList, 0, none⟩],
    settings := [("GRUB_DEFAULT".toList, "Advanced options>Ubuntu".toList)],
    DefaultEntry := [], Timeout := 0 }

/-- A receiver with three top-level menu entries, the second one titled `0`,
and `GRUB_DEFAULT` set to the text `0`. -/
def grubNumericTitle : Grub2 :=
  { entries := [⟨MENUENTRY, "A".toList, 0, none⟩, ⟨MENUENTRY, "0".toList, 1, none⟩,
      ⟨MENUENTRY, "C".toList, 2, none⟩],
    settings := [("GRUB_DEFAULT".toList, "0".toList)], DefaultEntry := [], Timeout := 0 }

/-- A receiver with three top-level menu entries and `GRUB_DEFAULT` set to the
text `-1`. -/
def grubNegativeIndex : Grub2 :=
  { entries := [⟨MENUENTRY, "A".toList, 0, none⟩, ⟨MENUENTRY, "B".toList, 1, none⟩,
      ⟨MENUENTRY, "C".toList, 2, none⟩],
    settings := [("GRUB_DEFAULT".toList, "-1".toList)], DefaultEntry := [], Timeout := 0 }

/-- A receiver with two settings, one of them empty. -/
def grubTwoSettings : Grub2 :=
  { entries := [], DefaultEntry := [], Timeout := 0,
    settings := [("GRUB_THEME".toList, []), ("GRUB_GFXMODE".toList, "auto".toList)] }

/-- What every key of a parsed settings map satisfies: it begins with `GRUB_`
and holds neither `=` nor a line feed. -/
def KeyOK (k : Str) : Prop := hasPrefix k "GRUB_".toList = true ∧ '=' ∉ k ∧ '\n' ∉ k

/-- The line written for the key `k`, without its line feed. -/
def keyValLine (H : Helpers) (grub : Grub2) (k : Str) : Str :=
  k ++ "=".toList ++ H.quoteString (grub.settings.get k)

/-- A defaults text of one line of 65535 bytes: it fits the buffer of the line
scanner, and the line written back for it, two quotes longer, does not. -/
def defaultsLongValue : Str := "GRUB_X=".toList ++ List.replicate 65528 'x'

/-- The keys of the map parsed from `defaultsLongValue`, in one order. -/
def orderLongValue : List Str :=
  ["GRUB_TIMEOUT".toList, "GRUB_DEFAULT".toList, "GRUB_X".toList]

/-- A receiver with one top-level menu entry. -/
def grubOneEntry : Grub2 :=
  { entries := [⟨MENUENTRY, "Deepin".toList, 0, none⟩], settings := [], DefaultEntry := [],
    Timeout := 0 }

/-- A defaults text that sets a timeout and a quoted value. -/
def defaultsRoundTrip : Str := "GRUB_TIMEOUT=5\nGRUB_GFXMODE=\"auto\"\n".toList

/-- The keys of the map parsed from `defaultsRoundTrip`, in one order. -/
def orderRoundTrip : List Str :=
  ["GRUB_GFXMODE".toList, "GRUB_DEFAULT".toList, "GRUB_TIMEOUT".toList]

/-- What the round trip of the text `t` shows under the order `orderLongValue`:
the first parse succeeds, the second one ends with the scanner error and loses
the value of `GRUB_X`. -/
def RoundTripFails (t : Str) : Prop :=
  (parseSettings Helpers.sample Grub2.empty t).2 = .nil ∧
  IsRangeOrder orderLongValue (parseSettings Helpers.sample Grub2.empty t).1.settings ∧
  (parseSettings Helpers.sample Grub2.empty t).1.settings.get "GRUB_X".toList ≠ [] ∧
  (parseSettings Helpers.sample (parseSettings Helpers.sample Grub2.empty t).1
      (getSettingContentToSave Helpers.sample (parseSettings Helpers.sample Grub2.empty t).1
        orderLongValue)).2 = .error .errTooLong ∧
  (parseSettings Helpers.sample (parseSettings Helpers.sample Grub2.empty t).1
      (getSettingContentToSave Helpers.sample (parseSettings Helpers.sample Grub2.empty t).1
        orderLongValue)).1.settings.get "GRUB_X".toList ≠
    (parseSettings Helpers.sample Grub2.empty t).1.settings.get "GRUB_X".toList

/-- The method `getDefaultEntry` as a step on the receiver: its body assigns no
field of the receiver, so the receiver comes back as it was, with the string
returned. -/
def getDefaultEntryCall (H : Helpers) (grub : Grub2) : Grub2 × Str :=
  (grub, getDefaultEntry H grub)

/-- A receiver with a theme file and a timeout in its settings. -/
def grubWithSettings : Grub2 :=
  { entries := [⟨MENUENTRY, "Deepin".toList, 0, none⟩],
    settings := [("GRUB_THEME".toList, "/boot/grub/themes/deepin/theme.txt".toList),
      ("GRUB_TIMEOUT".toList, "10".toList)],
    DefaultEntry := "Deepin".toList, Timeout := 10 }

/-- A menu whose second top-level entry has the empty title. -/
def menuEmptyTitle : Str := "menuentry 'A' \x7b\n\x7d\nmenuentry '' \x7b\n\x7d\n".toList

/-- A defaults text that selects the second entry by its index. -/
def defaultsIndexOne : Str := "GRUB_DEFAULT=1\n".toList

/-- What holds of the parent stack at every point of the scan: it has
`level + 1` elements and its bottom element is `nil`. -/
def StackOK (s : Scan) : Prop :=
  s.parentMenus.length = s.level + 1 ∧ s.parentMenus.head? = some none

/-- The lines that the scan acts on: after trimming, a directive line or a
line equal to the closing brace. -/
def keepLine (raw : Str) : Bool :=
  isDirective (trimSpace raw) || decide (trimSpace raw = "\x7d".toList)

/-- The menu text without the lines that the scan does not act on: every line
that after trimming neither begins with a directive keyword nor equals the
closing brace is deleted, each remaining line is followed by a line break. -/
def reduceText (text : Str) : Str :=
  (((rawLines text).filter keepLine).map (fun l => l ++ "\n".toList)).flatten

/-- A menu text of one line of 65536 characters, none of them a directive. -/
def menuLongLine : Str := List.replicate 65536 'x'

/-- On the text `t`, deleting the lines that the scan does not act on turns an
error into success. -/
def ReduceChanges (t : Str) : Prop :=
  (parseEntries Grub2.empty t).2 = .error .errTooLong ∧
  (parseEntries Grub2.empty (reduceText t)).2 = .nil

/-- A menu with a closing brace at top level between two entries. -/
def menuStrayBrace : Str :=
  "menuentry 'A' \x7b\n\x7d\n\x7d\nmenuentry 'B' \x7b\n\x7d\n".toList

/-- Follows the specification: the class `\s` of the pattern that the
specification gives for a directive line, the characters tab, line feed, form
feed, carriage return and space. -/
def isPatternSpace (c : Char) : Bool :=
  c == '\t' || c == '\n' || c == '\x0c' || c == '\r' || c == ' '

/-- Follows the specification: the pattern `^\s*(menuentry|submenu)\s+q(.*?)q.*$`
matched against a whole line, `q` being the quote character; the result is the
second group. -/
def matchEntrySpec (q : Char) (line : Str) : Option Str :=
  match matchKeyword (line.dropWhile isPatternSpace) with
  | none => none
  | some afterKw =>
    match afterKw with
    | c :: more =>
      if isPatternSpace c then
        match more.dropWhile isPatternSpace with
        | [] => none
        | d :: rest =>
          if d = q ∧ q ∈ rest ∧ '\n' ∉ rest then some (rest.takeWhile (fun x => x != q))
          else none
      else none
    | [] => none

/-- A menu of one line, with a tab between the keyword and the title. -/
def menuTabbed : Str := "menuentry\t'Ubuntu' \x7b".toList

/-- A directive line with tabs before the keyword and spaces after it. -/
def lineIndented : Str := "\t\tsubmenu  \"Advanced options\" \x7b".toList

/-! ## Theorems

Lemmas on the library functions and on the loops come first; the theorem of
each claim of the specification carries the identifier of the claim. -/

theorem isSpace_cr : isSpace '\r' = true := by decide

theorem dropWhile_isSpace_concat_cr (t : Str) :
    (List.dropWhile isSpace (t ++ ['\r'])).rdropWhile isSpace
      = (List.dropWhile isSpace t).rdropWhile isSpace := by
  induction t with
  | nil => simp [List.dropWhile, isSpace_cr, List.rdropWhile]
  | cons a t ih =>
    by_cases ha : isSpace a = true
    · simpa [List.dropWhile_cons, ha] using ih
    · simp only [List.cons_append, List.dropWhile_cons, ha, Bool.false_eq_true, if_false]
      rw [← List.cons_append, List.rdropWhile_concat_pos _ _ _ isSpace_cr]

theorem trimSpace_dropCR (s : Str) : trimSpace (dropCR s) = trimSpace s := by
  unfold dropCR
  split
  · rename_i h
    obtain ⟨t, rfl⟩ : ∃ t, s = t ++ ['\r'] := by
      rcases List.eq_nil_or_concat s with rfl | ⟨t, c, rfl⟩
      · simp at h
      · simp at h; subst h; exact ⟨t, by simp⟩
    simp only [List.dropLast_concat]
    unfold trimSpace trimLeft
    exact (dropWhile_isSpace_concat_cr t).symm
  · rfl

theorem scanLine_cases (s : Scan) (text : Str) :
    (isDirective (trimSpace text) = true ∧
        (s.inMenuEntry = true ∨ (parseTitle (trimSpace text)).2 = false) ∧
        ∃ e, e ≠ ParseError.errTooLong ∧
          scanLine s text = ({ s with grub := clearEntries s.grub }, some (.error e)))
    ∨ (isDirective (trimSpace text) = true ∧ s.inMenuEntry = false ∧
        (parseTitle (trimSpace text)).2 = true ∧ s.parentMenus.getLast? = none ∧
        scanLine s text = (s, some .panic))
    ∨ (isDirective (trimSpace text) = true ∧ s.inMenuEntry = false ∧
        (parseTitle (trimSpace text)).2 = true ∧
        ∃ parent, s.parentMenus.getLast? = some parent ∧
          scanLine s text =
            (s.push (kindOf (trimSpace text)) (parseTitle (trimSpace text)).1 parent, none))
    ∨ (isDirective (trimSpace text) = false ∧ trimSpace text = "\x7d".toList ∧
        s.inMenuEntry = true ∧ scanLine s text = ({ s with inMenuEntry := false }, none))
    ∨ (isDirective (trimSpace text) = false ∧ trimSpace text = "\x7d".toList ∧
        s.inMenuEntry = false ∧ 0 < s.level ∧ s.parentMenus = [] ∧
        scanLine s text = ({ s with level := s.level - 1 }, some .panic))
    ∨ (isDirective (trimSpace text) = false ∧ trimSpace text = "\x7d".toList ∧
        s.inMenuEntry = false ∧ 0 < s.level ∧ s.parentMenus ≠ [] ∧
        scanLine s text =
          ({ s with level := s.level - 1, parentMenus := s.parentMenus.dropLast }, none))
    ∨ (isDirective (trimSpace text) = false ∧
        (trimSpace text ≠ "\x7d".toList ∨ (s.inMenuEntry = false ∧ s.level = 0)) ∧
        scanLine s text = (s, none)) := by
  by_cases hm : isMenuentryLine (trimSpace text) = true
  · have hd : isDirective (trimSpace text) = true := by simp [isDirective, hm]
    have hm' : hasPrefix (trimSpace text) "menuentry ".toList = true := hm
    by_cases hb : s.inMenuEntry = true
    · left
      refine ⟨hd, Or.inl hb, .menuentryInMenuentry, ?_, ?_⟩
      · simp
      · simp only [scanLine, hm', hb, if_true]
    · simp only [Bool.not_eq_true] at hb
      rcases hpt : parseTitle (trimSpace text) with ⟨title, ok⟩
      cases ok with
      | false =>
        left
        refine ⟨hd, Or.inr rfl, .titleFailed (trimSpace text), ?_, ?_⟩
        · simp
        · simp only [scanLine, hm', hb, if_true, hpt]; rfl
      | true =>
        cases hl : s.parentMenus.getLast? with
        | none =>
          right; left
          refine ⟨hd, hb, rfl, rfl, ?_⟩
          simp only [scanLine, hm', hb, if_true, hpt, hl]; rfl
        | some parent =>
          right; right; left
          refine ⟨hd, hb, rfl, parent, rfl, ?_⟩
          simp only [scanLine, hm', hb, if_true, hpt, hl, kindOf, hm, Scan.push]; rfl
  · simp only [Bool.not_eq_true] at hm
    have hm' : hasPrefix (trimSpace text) "menuentry ".toList = false := hm
    by_cases hs : isSubmenuLine (trimSpace text) = true
    · have hd : isDirective (trimSpace text) = true := by simp [isDirective, hs]
      have hs' : hasPrefix (trimSpace text) "submenu ".toList = true := hs
      by_cases hb : s.inMenuEntry = true
      · left
        refine ⟨hd, Or.inl hb, .submenuInMenuentry, ?_, ?_⟩
        · simp
        · simp only [scanLine, hm', hs', hb, if_true]; rfl
      · simp only [Bool.not_eq_true] at hb
        rcases hpt : parseTitle (trimSpace text) with ⟨title, ok⟩
        cases ok with
        | false =>
          left
          refine ⟨hd, Or.inr rfl, .titleFailed (trimSpace text), ?_, ?_⟩
          · simp
          · simp only [scanLine, hm', hs', hb, if_true, hpt]; rfl
        | true =>
          cases hl : s.parentMenus.getLast? with
          | none =>
            right; left
            refine ⟨hd, hb, rfl, rfl, ?_⟩
            simp only [scanLine, hm', hs', hb, if_true, hpt, hl]; rfl
          | some parent =>
            right; right; left
            refine ⟨hd, hb, rfl, parent, rfl, ?_⟩
            simp only [scanLine, hm', hs', hb, if_true, hpt, hl, kindOf, hm, Scan.push]; rfl
    · simp only [Bool.not_eq_true] at hs
      have hs' : hasPrefix (trimSpace text) "submenu ".toList = false := hs
      have hd : isDirective (trimSpace text) = false := by simp [isDirective, hs, hm]
      by_cases hc : trimSpace text = "\x7d".toList
      · by_cases hb : s.inMenuEntry = true
        · right; right; right; left
          refine ⟨hd, hc, hb, ?_⟩
          simp only [scanLine, hm', hs', hc, hb, if_true]; rfl
        · simp only [Bool.not_eq_true] at hb
          by_cases hlev : 0 < s.level
          · cases hp : s.parentMenus with
            | nil =>
              right; right; right; right; left
              refine ⟨hd, hc, hb, hlev, rfl, ?_⟩
              simp only [scanLine, hm', hs', hc, hb, hlev, if_true, hp]; rfl
            | cons a as =>
              right; right; right; right; right; left
              refine ⟨hd, hc, hb, hlev, by simp, ?_⟩
              simp only [scanLine, hm', hs', hc, hb, hlev, if_true, hp]; rfl
          · right; right; right; right; right; right
            refine ⟨hd, Or.inr ⟨hb, by omega⟩, ?_⟩
            simp only [scanLine, hm', hs', hc, hb, hlev, if_true]; rfl
      · right; right; right; right; right; right
        refine ⟨hd, Or.inl hc, ?_⟩
        simp only [scanLine, hm', hs', hc, if_true]; rfl

theorem sim_init (grub : Grub2) : Sim (Scan.init grub) Scope.start :=
  ⟨rfl, rfl, rfl, rfl⟩

theorem getLast?_parents (st : List Nat) :
    (none :: (st.reverse.map some)).getLast? = some st.head? := by
  cases st with
  | nil => rfl
  | cons a t =>
    simp only [List.reverse_cons, List.map_append, List.map_cons, List.map_nil, List.head?_cons]
    rw [← List.cons_append, List.getLast?_append]
    simp

theorem dropLast_parents (a : Nat) (t : List Nat) :
    (none :: ((a :: t).reverse.map some)).dropLast = none :: (t.reverse.map some) := by
  simp only [List.reverse_cons, List.map_append, List.map_cons, List.map_nil]
  rw [← List.cons_append, List.dropLast_concat]

theorem isBad_false_iff (σ : Scope) (line : Str) :
    isBad (σ, line) = false ↔
      (isDirective line = true → σ.inBody = false ∧ (parseTitle line).2 = true) := by
  unfold isBad
  cases isDirective line <;> cases σ.inBody <;> cases (parseTitle line).2 <;> simp

theorem sim_bad {s : Scan} {σ : Scope} {text : Str} (h : Sim s σ)
    (hb : isBad (σ, trimSpace text) = true) :
    ∃ e, e ≠ ParseError.errTooLong ∧
      scanLine s text = ({ s with grub := clearEntries s.grub }, some (.error e)) := by
  have hd : isDirective (trimSpace text) = true := by
    unfold isBad at hb; simp at hb; exact hb.1
  have hb2 : σ.inBody = true ∨ (parseTitle (trimSpace text)).2 = false := by
    unfold isBad at hb; simp at hb; exact hb.2
  rcases scanLine_cases s text with c | c | c | c | c | c | c
  · exact c.2.2
  · rcases c with ⟨_, h1, h2, _⟩
    rw [h.body] at h1
    rcases hb2 with h3 | h3
    · rw [h3] at h1; cases h1
    · rw [h3] at h2; cases h2
  · rcases c with ⟨_, h1, h2, _⟩
    rw [h.body] at h1
    rcases hb2 with h3 | h3
    · rw [h3] at h1; cases h1
    · rw [h3] at h2; cases h2
  · rw [c.1] at hd; cases hd
  · rw [c.1] at hd; cases hd
  · rw [c.1] at hd; cases hd
  · rw [c.1] at hd; cases hd

theorem scope_next_close (σ : Scope) :
    σ.next "\x7d".toList =
      if σ.inBody then { σ with inBody := false } else { σ with stack := σ.stack.tail } := by
  rfl

theorem sim_good {s : Scan} {σ : Scope} {text : Str} (h : Sim s σ)
    (hb : isBad (σ, trimSpace text) = false) :
    ∃ s1, scanLine s text = (s1, none) ∧ Sim s1 (σ.next (trimSpace text)) ∧
      s1.grub.entries = s.grub.entries ++ newEntries s σ (trimSpace text) := by
  rw [isBad_false_iff] at hb
  rcases scanLine_cases s text with c | c | c | c | c | c | c
  · rcases c with ⟨hd, h1, _⟩
    have := hb hd
    rw [← h.body] at this
    rcases h1 with h1 | h1
    · rw [h1] at this; cases this.1
    · rw [h1] at this; cases this.2
  · rcases c with ⟨_, _, _, h1, _⟩
    rw [h.parents, getLast?_parents] at h1
    cases h1
  · rcases c with ⟨hd, h1, h2, parent, hp, heq⟩
    rw [h.parents, getLast?_parents] at hp
    injection hp with hp
    subst hp
    refine ⟨_, heq, ?_, ?_⟩
    · by_cases hm : isMenuentryLine (trimSpace text) = true
      · simp only [kindOf, hm, if_true, Scan.push, Scope.next]
        exact ⟨rfl, h.level, h.parents, by simp [h.seen]⟩
      · have hs : isSubmenuLine (trimSpace text) = true := by
          simp only [isDirective, Bool.or_eq_true] at hd
          rcases hd with hd | hd
          · exact absurd hd hm
          · exact hd
        simp only [kindOf, hm, if_false, Scan.push, Scope.next, hs, if_true]
        refine ⟨h.body, by simp [h.level], ?_, by simp [h.seen]⟩
        simp [h.parents, h.seen]
    · by_cases hm : isMenuentryLine (trimSpace text) = true
      · simp [kindOf, hm, Scan.push, newEntries, hd]
      · simp [kindOf, hm, Scan.push, newEntries, hd]
  · rcases c with ⟨hd, hc, h1, heq⟩
    have hm : isMenuentryLine (trimSpace text) = false := by
      simp only [isDirective, Bool.or_eq_false_iff] at hd; exact hd.1
    have hs : isSubmenuLine (trimSpace text) = false := by
      simp only [isDirective, Bool.or_eq_false_iff] at hd; exact hd.2
    refine ⟨_, heq, ?_, by simp [newEntries, hd]⟩
    have hb' : σ.inBody = true := by rw [← h.body]; exact h1
    rw [hc, scope_next_close]
    simp only [hb', if_true]
    exact ⟨rfl, h.level, h.parents, h.seen⟩
  · rcases c with ⟨_, _, _, _, h1, _⟩
    rw [h.parents] at h1
    cases h1
  · rcases c with ⟨hd, hc, h1, hl, _, heq⟩
    have hm : isMenuentryLine (trimSpace text) = false := by
      simp only [isDirective, Bool.or_eq_false_iff] at hd; exact hd.1
    have hs : isSubmenuLine (trimSpace text) = false := by
      simp only [isDirective, Bool.or_eq_false_iff] at hd; exact hd.2
    refine ⟨_, heq, ?_, by simp [newEntries, hd]⟩
    have hb' : σ.inBody = false := by rw [← h.body]; exact h1
    rw [hc, scope_next_close]
    simp only [hb', Bool.false_eq_true, if_false]
    rcases hst : σ.stack with _ | ⟨a, t⟩
    · rw [h.level, hst] at hl; simp at hl
    · refine ⟨h.body.trans hb', ?_, ?_, h.seen⟩
      · simp [h.level, hst]
      · simp only [h.parents, hst, List.tail_cons]
        exact dropLast_parents a t
  · rcases c with ⟨hd, hc, heq⟩
    have hm : isMenuentryLine (trimSpace text) = false := by
      simp only [isDirective, Bool.or_eq_false_iff] at hd; exact hd.1
    have hs : isSubmenuLine (trimSpace text) = false := by
      simp only [isDirective, Bool.or_eq_false_iff] at hd; exact hd.2
    refine ⟨_, heq, ?_, by simp [newEntries, hd]⟩
    rcases hc with hc | ⟨h1, hl⟩
    · simp only [Scope.next, hm, hs, hc, Bool.false_eq_true, if_false]
      exact h
    · by_cases hc : trimSpace text = "\x7d".toList
      · have hb' : σ.inBody = false := by rw [← h.body]; exact h1
        have hst : σ.stack = [] := by
          have := h.level; rw [hl] at this
          exact List.length_eq_zero.1 this.symm
        rw [hc, scope_next_close]
        simp only [hb', Bool.false_eq_true, if_false]
        refine ⟨h.body.trans hb', by simp [h.level, hst], ?_, h.seen⟩
        simp [h.parents, hst]
      · simp only [Scope.next, hm, hs, hc, Bool.false_eq_true, if_false]
        exact h

theorem newEntries_shape (s : Scan) (σ : Scope) (line : Str) :
    (newEntries s σ line).map Entry.shape =
      ([(σ, line)].filter (fun x => isDirective x.2)).map metShape := by
  unfold newEntries
  by_cases hd : isDirective line = true
  · simp [hd, Entry.shape, metShape]
  · simp [hd]

theorem scanLoop_cons_good {raw : Str} {rest : List Str} {s s1 : Scan}
    (hfit : tooLong raw = false) (h : scanLine s (dropCR raw) = (s1, none)) :
    scanLoop (raw :: rest) s = scanLoop rest s1 := by
  simp [scanLoop, hfit, h]

theorem scanLoop_cons_stop {raw : Str} {rest : List Str} {s s1 : Scan} {r : Ret}
    (hfit : tooLong raw = false) (h : scanLine s (dropCR raw) = (s1, some r)) :
    scanLoop (raw :: rest) s = (s1, r) := by
  simp [scanLoop, hfit, h]

theorem scanLoop_cons_tooLong {raw : Str} {rest : List Str} {s : Scan}
    (hfit : tooLong raw = true) :
    scanLoop (raw :: rest) s = (s, .error .errTooLong) := by
  simp [scanLoop, hfit]

theorem scanLoop_nil_sim : ∀ (raws : List Str) (s : Scan) (σ : Scope), Sim s σ →
    (scanLoop raws s).2 = .nil →
    (∀ r ∈ raws, tooLong r = false) ∧
    (∀ x ∈ met σ (raws.map trimSpace), isBad x = false) ∧
    (scanLoop raws s).1.grub.entries.map Entry.shape =
      s.grub.entries.map Entry.shape ++
        ((met σ (raws.map trimSpace)).filter (fun x => isDirective x.2)).map metShape := by
  intro raws
  induction raws with
  | nil => intro s σ _ _; simp [scanLoop, met]
  | cons raw rest ih =>
    intro s σ hsim hnil
    cases hfit : tooLong raw with
    | true => rw [scanLoop_cons_tooLong hfit] at hnil; cases hnil
    | false =>
      cases hbad : isBad (σ, trimSpace raw) with
      | true =>
        have hbad' : isBad (σ, trimSpace (dropCR raw)) = true := by
          rw [trimSpace_dropCR]; exact hbad
        obtain ⟨e, _, he⟩ := sim_bad hsim hbad'
        rw [scanLoop_cons_stop hfit he] at hnil; cases hnil
      | false =>
        have hbad' : isBad (σ, trimSpace (dropCR raw)) = false := by
          rw [trimSpace_dropCR]; exact hbad
        obtain ⟨s1, h1, hsim1, hent⟩ := sim_good hsim hbad'
        rw [trimSpace_dropCR] at hsim1 hent
        rw [scanLoop_cons_good hfit h1] at hnil ⊢
        obtain ⟨a, b, c⟩ := ih s1 _ hsim1 hnil
        refine ⟨?_, ?_, ?_⟩
        · intro r hr
          rcases List.mem_cons.1 hr with rfl | hr
          · exact hfit
          · exact a r hr
        · intro x hx
          simp only [List.map_cons, met, List.mem_cons] at hx
          rcases hx with rfl | hx
          · exact hbad
          · exact b x hx
        · rw [c, hent, List.map_append, newEntries_shape]
          simp only [List.map_cons, met, List.append_assoc]
          congr 1
          by_cases hd : isDirective (trimSpace raw) = true
          · simp [List.filter_cons, hd]
          · simp [List.filter_cons, hd]

theorem scanLoop_fit_sim : ∀ (raws : List Str) (s : Scan) (σ : Scope), Sim s σ →
    (∀ r ∈ raws, tooLong r = false) →
    ((∃ x ∈ met σ (raws.map trimSpace), isBad x = true) → ∃ e, (scanLoop raws s).2 = .error e) ∧
    ((∀ x ∈ met σ (raws.map trimSpace), isBad x = false) → (scanLoop raws s).2 = .nil) := by
  intro raws
  induction raws with
  | nil => intro s σ _ _; simp [scanLoop, met]
  | cons raw rest ih =>
    intro s σ hsim hfits
    have hfit : tooLong raw = false := hfits raw (List.mem_cons_self _ _)
    cases hbad : isBad (σ, trimSpace raw) with
    | true =>
      have hbad' : isBad (σ, trimSpace (dropCR raw)) = true := by
        rw [trimSpace_dropCR]; exact hbad
      obtain ⟨e, _, he⟩ := sim_bad hsim hbad'
      rw [scanLoop_cons_stop hfit he]
      refine ⟨fun _ => ⟨e, rfl⟩, fun hall => ?_⟩
      have := hall (σ, trimSpace raw) (by simp [met])
      rw [hbad] at this; cases this
    | false =>
      have hbad' : isBad (σ, trimSpace (dropCR raw)) = false := by
        rw [trimSpace_dropCR]; exact hbad
      obtain ⟨s1, h1, hsim1, _⟩ := sim_good hsim hbad'
      rw [trimSpace_dropCR] at hsim1
      rw [scanLoop_cons_good hfit h1]
      obtain ⟨a, b⟩ := ih s1 _ hsim1 (fun r hr => hfits r (List.mem_cons_of_mem _ hr))
      refine ⟨?_, ?_⟩
      · rintro ⟨x, hx, hxb⟩
        simp only [List.map_cons, met, List.mem_cons] at hx
        rcases hx with rfl | hx
        · rw [hbad] at hxb; cases hxb
        · exact a ⟨x, hx, hxb⟩
      · intro hall
        apply b
        intro x hx
        exact hall x (by simp only [List.map_cons, met, List.mem_cons]; exact Or.inr hx)

theorem met_filter_map_snd {β : Type} (p : Str → Bool) (f : Str → β) :
    ∀ (σ : Scope) (ls : List Str),
      ((met σ ls).filter (fun x => p x.2)).map (fun x => f x.2) = (ls.filter p).map f := by
  intro σ ls
  induction ls generalizing σ with
  | nil => simp [met]
  | cons l ls ih =>
    by_cases hp : p l = true
    · simp [met, List.filter_cons, hp, ih]
    · simp [met, List.filter_cons, hp, ih]

theorem parseEntries_shape (grub : Grub2) (text : Str)
    (h : (parseEntries grub text).2 = .nil) :
    (parseEntries grub text).1.entries.map Entry.shape =
      ((met Scope.start (lines text)).filter (fun x => isDirective x.2)).map metShape := by
  have := (scanLoop_nil_sim (rawLines text) (Scan.init grub) Scope.start (sim_init grub) h).2.2
  simpa [parseEntries, lines, Scan.init, clearEntries] using this

theorem getElem?_snoc {α : Type} (l : List α) (a : α) (i : Nat) (x : α) :
    (l ++ [a])[i]? = some x ↔ l[i]? = some x ∨ (i = l.length ∧ x = a) := by
  rcases Nat.lt_trichotomy i l.length with h | h | h
  · rw [List.getElem?_append_left h]
    constructor
    · exact Or.inl
    · rintro (h1 | ⟨h1, _⟩)
      · exact h1
      · omega
  · subst h
    simp [eq_comm]
  · have h1 : (l ++ [a])[i]? = none := by
      apply List.getElem?_eq_none; simp; omega
    have h2 : l[i]? = none := List.getElem?_eq_none (by omega)
    rw [h1, h2]
    constructor
    · intro h; cases h
    · rintro (h | ⟨h, _⟩)
      · cases h
      · omega

theorem getElem?_lt {α : Type} {l : List α} {i : Nat} {x : α} (h : l[i]? = some x) :
    i < l.length := by
  by_contra hn
  rw [List.getElem?_eq_none (by omega)] at h
  cases h

theorem countM_snoc (es : List Entry) (e : Entry) (p : Option Nat) :
    countM (es ++ [e]) p =
      countM es p + (if e.entryType = MENUENTRY ∧ e.parentSubMenu = p then 1 else 0) := by
  unfold countM
  rw [List.filter_append, List.length_append]
  by_cases h : e.entryType = MENUENTRY ∧ e.parentSubMenu = p
  · simp [List.filter_cons, h]
  · simp [List.filter_cons, h]

theorem inv_init (grub : Grub2) : Inv (Scan.init grub) := by
  refine ⟨rfl, by simp [Scan.init], ?_, ?_, ?_, ?_⟩
  · intro p hp; simp [Scan.init] at hp
  · intro i e h; simp [Scan.init, clearEntries] at h
  · intro l p h
    have : l = 0 := by
      have := getElem?_lt h
      simp [Scan.init] at this; exact this
    subst this
    simp [Scan.init, setCount, countM, clearEntries]
  · intro i e h; simp [Scan.init, clearEntries] at h

theorem getLast?_eq_getElem? {α : Type} (l : List α) : l.getLast? = l[l.length - 1]? := by
  rcases List.eq_nil_or_concat l with rfl | ⟨t, c, rfl⟩
  · rfl
  · simp

theorem inv_top {s : Scan} (h : Inv s) {parent : Option Nat}
    (hp : s.parentMenus.getLast? = some parent) : s.parentMenus[s.level]? = some parent := by
  rw [getLast?_eq_getElem?, h.len] at hp
  simpa using hp

theorem inv_push {s : Scan} (h : Inv s) (k : EntryType) (title : Str) {parent : Option Nat}
    (hp : s.parentMenus.getLast? = some parent) : Inv (s.push k title parent) := by
  have htop := inv_top h hp
  have hmem : parent ∈ s.parentMenus := List.getElem?_mem htop
  -- facts shared by both kinds
  have hpar : ∀ (e0 : Entry), e0.parentSubMenu = parent → e0.num = s.numCount s.level →
      ∀ (i : Nat) (e : Entry), (s.grub.entries ++ [e0])[i]? = some e →
        ∀ p : Nat, e.parentSubMenu = some p →
          p < i ∧ ∃ e' : Entry, (s.grub.entries ++ [e0])[p]? = some e' ∧
            e'.entryType = SUBMENU := by
    intro e0 he0 _ i e hi p hpe
    rcases (getElem?_snoc _ _ _ _).1 hi with hi1 | ⟨hlen, rfl⟩
    · obtain ⟨a, e', b, c⟩ := h.par i e hi1 p hpe
      exact ⟨a, e', (getElem?_snoc _ _ _ _).2 (Or.inl b), c⟩
    · rw [he0] at hpe
      subst hpe
      obtain ⟨e', b, c⟩ := h.stk p hmem
      exact ⟨by rw [hlen]; exact getElem?_lt b, e', (getElem?_snoc _ _ _ _).2 (Or.inl b), c⟩
  have hnum : ∀ (e0 : Entry), e0.parentSubMenu = parent → e0.num = s.numCount s.level →
      ∀ (i : Nat) (e : Entry), (s.grub.entries ++ [e0])[i]? = some e →
        e.num = countM ((s.grub.entries ++ [e0]).take i) e.parentSubMenu := by
    intro e0 he0 hn i e hi
    rcases (getElem?_snoc _ _ _ _).1 hi with hi1 | ⟨hlen, rfl⟩
    · rw [List.take_append_of_le_length (le_of_lt (getElem?_lt hi1))]
      exact h.num i e hi1
    · subst hlen
      rw [List.take_left', hn, he0]
      · exact h.cnt _ _ htop
      · rfl
  cases k with
  | MENUENTRY =>
    refine ⟨h.len, h.nodup, ?_, hpar _ rfl rfl, ?_, hnum _ rfl rfl⟩
    · intro p hp'
      obtain ⟨e', b, c⟩ := h.stk p hp'
      exact ⟨e', (getElem?_snoc _ _ _ _).2 (Or.inl b), c⟩
    · intro l p hl
      show setCount s.numCount s.level (s.numCount s.level + 1) l = countM (s.grub.entries ++ [_]) p
      have hl' : s.parentMenus[l]? = some p := hl
      rw [countM_snoc, ← h.cnt l p hl']
      by_cases hlev : l = s.level
      · subst hlev
        rw [htop] at hl'
        injection hl' with hl'
        simp [setCount, hl']
      · have hne : parent ≠ p := by
          intro heq
          subst heq
          apply hlev
          have h1 := getElem?_lt hl'
          have h2 := getElem?_lt htop
          have e1 : s.parentMenus[l] = parent := by
            rw [List.getElem?_eq_getElem h1] at hl'; injection hl'
          have e2 : s.parentMenus[s.level] = parent := by
            rw [List.getElem?_eq_getElem h2] at htop; injection htop
          exact (List.Nodup.getElem_inj_iff h.nodup).1 (e1.trans e2.symm)
        simp [setCount, hlev, hne]
  | SUBMENU =>
    have hfresh : some s.grub.entries.length ∉ s.parentMenus := by
      intro hin
      obtain ⟨e', b, _⟩ := h.stk _ hin
      exact absurd (getElem?_lt b) (lt_irrefl _)
    refine ⟨?_, ?_, ?_, hpar _ rfl rfl, ?_, hnum _ rfl rfl⟩
    · show (s.parentMenus ++ [some s.grub.entries.length]).length = s.level + 1 + 1
      simp [h.len]
    · show (s.parentMenus ++ [some s.grub.entries.length]).Nodup
      rw [List.nodup_append]
      refine ⟨h.nodup, by simp, ?_⟩
      intro a ha hb
      simp at hb; subst hb; exact hfresh ha
    · intro p hp'
      have hp'' : some p ∈ s.parentMenus ++ [some s.grub.entries.length] := hp'
      rcases List.mem_append.1 hp'' with hp'' | hp''
      · obtain ⟨e', b, c⟩ := h.stk p hp''
        exact ⟨e', (getElem?_snoc _ _ _ _).2 (Or.inl b), c⟩
      · simp at hp''
        subst hp''
        exact ⟨_, (getElem?_snoc _ _ _ _).2 (Or.inr ⟨rfl, rfl⟩), rfl⟩
    · intro l p hl
      show setCount s.numCount (s.level + 1) 0 l = countM (s.grub.entries ++ [_]) p
      have hl' : (s.parentMenus ++ [some s.grub.entries.length])[l]? = some p := hl
      rw [countM_snoc]
      rcases (getElem?_snoc _ _ _ _).1 hl' with hl1 | ⟨hlen, rfl⟩
      · have : l ≠ s.level + 1 := by
          have := getElem?_lt hl1; rw [h.len] at this; omega
        simp [setCount, this, h.cnt l p hl1]
      · rw [h.len] at hlen
        subst hlen
        have : countM s.grub.entries (some s.grub.entries.length) = 0 := by
          unfold countM
          rw [List.length_eq_zero, List.filter_eq_nil_iff]
          intro e he
          simp only [decide_eq_true_eq, not_and]
          intro _ hpe
          obtain ⟨i, hi⟩ := List.mem_iff_getElem?.1 he
          have := (h.par i e hi _ hpe).1
          have := getElem?_lt hi
          omega
        simp [setCount, this]

theorem inv_pop {s : Scan} (h : Inv s) (hl : 0 < s.level) :
    Inv { s with level := s.level - 1, parentMenus := s.parentMenus.dropLast } := by
  refine ⟨?_, ?_, ?_, h.par, ?_, h.num⟩
  · show s.parentMenus.dropLast.length = s.level - 1 + 1
    rw [List.length_dropLast, h.len]; omega
  · exact List.Nodup.sublist (List.dropLast_sublist _) h.nodup
  · intro p hp
    exact h.stk p (List.dropLast_subset _ hp)
  · intro l p hp
    have hp' : s.parentMenus.dropLast[l]? = some p := hp
    apply h.cnt
    rw [List.dropLast_eq_take, List.getElem?_take] at hp'
    split at hp'
    · exact hp'
    · cases hp'

theorem inv_step {s s1 : Scan} {text : Str} (h : Inv s) (heq : scanLine s text = (s1, none)) :
    Inv s1 := by
  rcases scanLine_cases s text with c | c | c | c | c | c | c
  · obtain ⟨_, _, e, _, he⟩ := c
    rw [he] at heq; cases heq
  · rw [c.2.2.2.2] at heq; cases heq
  · obtain ⟨_, _, _, parent, hp, he⟩ := c
    rw [he] at heq
    injection heq with heq
    subst heq
    exact inv_push h _ _ hp
  · rw [c.2.2.2] at heq
    injection heq with heq
    subst heq
    exact ⟨h.len, h.nodup, h.stk, h.par, h.cnt, h.num⟩
  · rw [c.2.2.2.2.2] at heq; cases heq
  · rw [c.2.2.2.2.2] at heq
    injection heq with heq
    subst heq
    exact inv_pop h c.2.2.2.1
  · rw [c.2.2] at heq
    injection heq with heq
    subst heq
    exact h

theorem scanLoop_inv : ∀ (raws : List Str) (s : Scan), Inv s →
    (scanLoop raws s).2 = .nil → Inv (scanLoop raws s).1 := by
  intro raws
  induction raws with
  | nil => intro s h _; simpa [scanLoop] using h
  | cons raw rest ih =>
    intro s h hnil
    cases hfit : tooLong raw with
    | true => rw [scanLoop_cons_tooLong hfit] at hnil; cases hnil
    | false =>
      rcases hsl : scanLine s (dropCR raw) with ⟨s1, _ | r⟩
      · rw [scanLoop_cons_good hfit hsl] at hnil ⊢
        exact ih s1 (inv_step h hsl) hnil
      · rw [scanLoop_cons_stop hfit hsl] at hnil ⊢
        simp only at hnil
        subst hnil
        rcases scanLine_cases s (dropCR raw) with c | c | c | c | c | c | c
        · obtain ⟨_, _, e, _, he⟩ := c
          rw [he] at hsl; cases hsl
        · rw [c.2.2.2.2] at hsl; cases hsl
        · obtain ⟨_, _, _, parent, hp, he⟩ := c
          rw [he] at hsl; cases hsl
        · rw [c.2.2.2] at hsl; cases hsl
        · rw [c.2.2.2.2.2] at hsl; cases hsl
        · rw [c.2.2.2.2.2] at hsl; cases hsl
        · rw [c.2.2] at hsl; cases hsl

theorem parseEntries_inv (grub : Grub2) (text : Str) (h : (parseEntries grub text).2 = .nil) :
    Inv (scanLoop (rawLines text) (Scan.init grub)).1 :=
  scanLoop_inv _ _ (inv_init grub) h

theorem climb_le {es : List Entry} (hpar : ParentsEarlier es) :
    ∀ (k i j : Nat), climb es k i = some j → j ≤ i ∧ (0 < k → j < i) := by
  intro k
  induction k with
  | zero =>
    intro i j h
    simp only [climb] at h
    split at h
    · injection h with h; subst h; exact ⟨le_refl _, fun h => absurd h (lt_irrefl _)⟩
    · cases h
  | succ k ih =>
    intro i j h
    simp only [climb] at h
    cases he : es[i]? with
    | none => simp only [he] at h; cases h
    | some e =>
      cases hp : e.parentSubMenu with
      | none => simp only [he, hp] at h; cases h
      | some p =>
        simp only [he, hp] at h
        have h1 := (hpar i e p he hp).1
        have h2 := (ih p j h).1
        exact ⟨by omega, fun _ => by omega⟩

theorem climb_root {es : List Entry} (hpar : ParentsEarlier es) :
    ∀ (i : Nat), i < es.length →
      ∃ (k j : Nat) (e : Entry), k < i + 1 ∧ climb es k i = some j ∧ es[j]? = some e ∧
        e.parentSubMenu = none := by
  intro i
  induction i using Nat.strong_induction_on with
  | _ i ih =>
    intro hi
    have he : es[i]? = some es[i] := List.getElem?_eq_getElem hi
    cases hp : es[i].parentSubMenu with
    | none =>
      exact ⟨0, i, es[i], by omega, by simp [climb, hi], he, hp⟩
    | some p =>
      obtain ⟨hlt, _⟩ := hpar i _ p he hp
      obtain ⟨k, j, e, hk, hc, hj, hn⟩ := ih p hlt (by omega)
      refine ⟨k + 1, j, e, by omega, ?_, hj, hn⟩
      simp only [climb, he, hp]
      exact hc

theorem filter_map_length {α β : Type} (f : α → β) (p : β → Bool) (l : List α) :
    ((l.map f).filter p).length = (l.filter (fun a => p (f a))).length := by
  induction l with
  | nil => rfl
  | cons a l ih =>
    by_cases h : p (f a) = true
    · simp [List.filter_cons, h, ih]
    · simp [List.filter_cons, h, ih]

theorem head?_eq_none_iff_level (σ : Scope) : σ.stack.head? = none ↔ σ.level = 0 := by
  unfold Scope.level
  cases σ.stack <;> simp

theorem levelsAtDirectives_sim : ∀ (raws : List Str) (s : Scan) (σ : Scope), Sim s σ →
    (scanLoop raws s).2 = .nil →
    levelsAtDirectives raws s =
      ((met σ (raws.map trimSpace)).filter (fun x => isDirective x.2)).map
        (fun x => x.1.level) := by
  intro raws
  induction raws with
  | nil => intro s σ _ _; simp [levelsAtDirectives, met]
  | cons raw rest ih =>
    intro s σ hsim hnil
    cases hfit : tooLong raw with
    | true => rw [scanLoop_cons_tooLong hfit] at hnil; cases hnil
    | false =>
      cases hbad : isBad (σ, trimSpace (dropCR raw)) with
      | true =>
        obtain ⟨e, _, he⟩ := sim_bad hsim hbad
        rw [scanLoop_cons_stop hfit he] at hnil; cases hnil
      | false =>
        obtain ⟨s1, h1, hsim1, _⟩ := sim_good hsim hbad
        rw [scanLoop_cons_good hfit h1] at hnil
        have hrec := ih s1 _ hsim1 hnil
        simp only [levelsAtDirectives, hfit, Bool.false_eq_true, if_false, h1, hrec]
        rw [trimSpace_dropCR]
        simp only [List.map_cons, met]
        by_cases hd : isDirective (trimSpace raw) = true
        · simp [List.filter_cons, hd, hsim.level, Scope.level]
        · simp [List.filter_cons, hd]

/-- C1. When `parseEntries` returns nil, the collection holds exactly one
entry per directive line of the text (a line that, after trimming, begins with
`menuentry ` or `submenu `), in the order of the lines: the kinds and titles of
the entries are, position by position, the kind announced by the keyword of
the directive line and the title that `parseTitle` extracts from it. -/
theorem parseEntries_one_entry_per_directive (grub : Grub2) (text : Str)
    (h : (parseEntries grub text).2 = .nil) :
    (parseEntries grub text).1.entries.map (fun e => (e.entryType, e.title)) =
      ((lines text).filter isDirective).map (fun l => (kindOf l, (parseTitle l).1)) := by
  have hs := parseEntries_shape grub text h
  have := congrArg (List.map (fun t : EntryType × Str × Option Nat => (t.1, t.2.1))) hs
  simp only [List.map_map] at this
  rw [← met_filter_map_snd isDirective (fun l => (kindOf l, (parseTitle l).1)) Scope.start]
  exact this

theorem parseEntries_one_entry_per_directive_witness :
    (parseEntries Grub2.empty menuNested).2 = .nil ∧
    (parseEntries Grub2.empty menuNested).1.entries.map (fun e => (e.entryType, e.title)) =
      ((lines menuNested).filter isDirective).map (fun l => (kindOf l, (parseTitle l).1)) :=
  ⟨by decide, parseEntries_one_entry_per_directive Grub2.empty menuNested (by decide)⟩

/-- C2. When `parseEntries` returns nil, the parent of the entry of every
directive line is the innermost submenu scope that is open when the line is
met (the top of the stack of open scopes, a scope being named by the position
of its Submenu entry; scopes open at submenu lines and close at a `}` met
outside a menuentry body at a positive level), and the entry has no parent
exactly when the variable `level` of the loop is 0 when its line is scanned.  For the text of Example 4 of the
specification the result is a parentless Submenu followed by a MenuEntry whose
parent is that Submenu. -/
theorem parseEntries_parent_is_innermost_scope (grub : Grub2) (text : Str)
    (h : (parseEntries grub text).2 = .nil) :
    (parseEntries grub text).1.entries.map (fun e => e.parentSubMenu) =
        ((met Scope.start (lines text)).filter (fun x => isDirective x.2)).map
          (fun x => x.1.stack.head?) ∧
    (parseEntries grub text).1.entries.map (fun e => decide (e.parentSubMenu = none)) =
        (levelsAtDirectives (rawLines text) (Scan.init grub)).map
          (fun level => decide (level = 0)) ∧
    (parseEntries grub menuNested).1.entries =
      [⟨SUBMENU, "Advanced options".toList, 0, none⟩, ⟨MENUENTRY, "Ubuntu".toList, 0, some 0⟩] := by
  have hs := parseEntries_shape grub text h
  have h1 := congrArg (List.map (fun t : EntryType × Str × Option Nat => t.2.2)) hs
  simp only [List.map_map] at h1
  have h1' : (parseEntries grub text).1.entries.map (fun e => e.parentSubMenu) =
        ((met Scope.start (lines text)).filter (fun x => isDirective x.2)).map
          (fun x => x.1.stack.head?) := h1
  refine ⟨h1', ?_, rfl⟩
  have h2 := congrArg (List.map (fun p : Option Nat => decide (p = none))) h1'
  simp only [List.map_map] at h2
  rw [show (fun e : Entry => decide (e.parentSubMenu = none)) =
      (fun p : Option Nat => decide (p = none)) ∘ (fun e => e.parentSubMenu) from rfl, h2,
    levelsAtDirectives_sim (rawLines text) (Scan.init grub) Scope.start (sim_init grub) h,
    List.map_map]
  apply List.map_congr_left
  intro x _
  simp only [Function.comp]
  exact decide_eq_decide.2 (head?_eq_none_iff_level x.1)

theorem parseEntries_parent_is_innermost_scope_witness :
    (parseEntries Grub2.empty menuTwoSubmenus).2 = .nil ∧
    (parseEntries Grub2.empty menuTwoSubmenus).1.entries.map (fun e => e.parentSubMenu) =
      [none, none] :=
  ⟨by decide,
    (parseEntries_parent_is_innermost_scope Grub2.empty menuTwoSubmenus (by decide)).1.trans
      (by decide)⟩

/-- C3, counterexample. On a text with two submenus at top level the parse
succeeds and the second Submenu has sibling index 0, although one entry of its
kind precedes it in the same scope. -/
theorem submenu_sibling_index_counterexample :
    (parseEntries Grub2.empty menuTwoSubmenus).2 = .nil ∧
    ∃ (i : Nat) (e : Entry),
      (parseEntries Grub2.empty menuTwoSubmenus).1.entries[i]? = some e ∧
      e.num ≠ siblingsBefore e.entryType (parseEntries Grub2.empty menuTwoSubmenus).1.entries i
        e.parentSubMenu :=
  ⟨by decide, 1, ⟨SUBMENU, "B".toList, 0, none⟩, by decide, by decide⟩

/-- C3, amended. When `parseEntries` returns nil, the sibling index of every
entry, MenuEntry or Submenu, is the number of MENUENTRY entries that precede it
with the same parent: the count is zero-based, kept per scope, advanced by
menuentry lines only and starts at 0 in every newly opened submenu scope. -/
theorem parseEntries_num_counts_menuentries (grub : Grub2) (text : Str)
    (h : (parseEntries grub text).2 = .nil) (i : Nat) (e : Entry)
    (hi : (parseEntries grub text).1.entries[i]? = some e) :
    e.num = siblingsBefore MENUENTRY (parseEntries grub text).1.entries i e.parentSubMenu :=
  (parseEntries_inv grub text h).num i e hi

theorem parseEntries_num_counts_menuentries_witness :
    (parseEntries Grub2.empty menuNested).2 = .nil ∧
    (parseEntries Grub2.empty menuNested).1.entries[1]? =
      some ⟨MENUENTRY, "Ubuntu".toList, 0, some 0⟩ ∧
    (0 : Nat) = siblingsBefore MENUENTRY (parseEntries Grub2.empty menuNested).1.entries 1
      (some 0) :=
  ⟨by decide, by decide,
    parseEntries_num_counts_menuentries Grub2.empty menuNested (by decide) 1
      ⟨MENUENTRY, "Ubuntu".toList, 0, some 0⟩ (by decide)⟩

/-- C4. For a text whose lines all fit the buffer of the line scanner,
`parseEntries` returns an error if and only if the scan meets a directive line
while a menuentry body is open or from which no title can be extracted; when
there is no such line it returns nil, whatever is still open at the end of the
text, as for a text that stops inside a menuentry body inside a submenu. -/
theorem parseEntries_error_iff_bad_directive (grub : Grub2) (text : Str)
    (fit : ∀ raw ∈ rawLines text, tooLong raw = false) :
    ((∃ e, (parseEntries grub text).2 = .error e) ↔
        ∃ x ∈ met Scope.start (lines text), isBad x = true) ∧
    ((∀ x ∈ met Scope.start (lines text), isBad x = false) →
        (parseEntries grub text).2 = .nil) ∧
    (parseEntries grub menuTruncated).2 = .nil := by
  obtain ⟨a, b⟩ := scanLoop_fit_sim (rawLines text) (Scan.init grub) Scope.start
    (sim_init grub) fit
  refine ⟨⟨?_, a⟩, b, rfl⟩
  rintro ⟨e, he⟩
  by_contra hno
  have hall : ∀ x ∈ met Scope.start (lines text), isBad x = false := by
    intro x hx
    cases hb : isBad x with
    | false => rfl
    | true => exact absurd ⟨x, hx, hb⟩ hno
  have := b hall
  have he' : (scanLoop (rawLines text) (Scan.init grub)).2 = .error e := he
  rw [this] at he'
  cases he'

theorem parseEntries_error_iff_bad_directive_witness :
    (∀ raw ∈ rawLines menuNested, tooLong raw = false) ∧
    ((∃ e, (parseEntries Grub2.empty menuNested).2 = .error e) ↔
        ∃ x ∈ met Scope.start (lines menuNested), isBad x = true) :=
  ⟨by decide,
    (parseEntries_error_iff_bad_directive Grub2.empty menuNested (by decide)).1⟩

/-- C8. When `parseEntries` returns nil, the number of entries of kind
MENUENTRY without parent equals the number of lines beginning with
`menuentry ` that the scan meets at nesting level 0. -/
theorem parseEntries_top_level_menuentry_count (grub : Grub2) (text : Str)
    (h : (parseEntries grub text).2 = .nil) :
    ((parseEntries grub text).1.entries.filter
        (fun e => decide (e.entryType = MENUENTRY ∧ e.parentSubMenu = none))).length =
      ((met Scope.start (lines text)).filter
        (fun x => isMenuentryLine x.2 && decide (x.1.level = 0))).length := by
  have hs := parseEntries_shape grub text h
  have h1 := filter_map_length Entry.shape
    (fun t => decide (t.1 = MENUENTRY ∧ t.2.2 = none)) (parseEntries grub text).1.entries
  have h2 : ((parseEntries grub text).1.entries.filter
        (fun e => decide (e.entryType = MENUENTRY ∧ e.parentSubMenu = none))).length =
      (((parseEntries grub text).1.entries.map Entry.shape).filter
        (fun t => decide (t.1 = MENUENTRY ∧ t.2.2 = none))).length := h1.symm
  rw [h2, hs, filter_map_length, List.filter_filter]
  congr 1
  apply List.filter_congr
  intro x _
  simp only [metShape, kindOf, isDirective]
  by_cases hm : isMenuentryLine x.2 = true
  · simp [hm, Scope.level]
  · simp [hm]

theorem parseEntries_top_level_menuentry_count_witness :
    (parseEntries Grub2.empty menuNested).2 = .nil ∧
    ((parseEntries Grub2.empty menuNested).1.entries.filter
        (fun e => decide (e.entryType = MENUENTRY ∧ e.parentSubMenu = none))).length =
      ((met Scope.start (lines menuNested)).filter
        (fun x => isMenuentryLine x.2 && decide (x.1.level = 0))).length :=
  ⟨by decide, parseEntries_top_level_menuentry_count Grub2.empty menuNested (by decide)⟩

/-- C9. When `parseEntries` returns nil, the parent of every entry, when
present, is an entry of kind SUBMENU at a strictly smaller position; hence
following one or more parent links from an entry never comes back to it, and
from the entry at position `i` (counted from 0) a parentless entry is reached
in at most `i` steps, fewer than the rank `i + 1` of the entry. -/
theorem parseEntries_parent_earlier_submenu (grub : Grub2) (text : Str)
    (h : (parseEntries grub text).2 = .nil) :
    (∀ (i : Nat) (e : Entry) (p : Nat), (parseEntries grub text).1.entries[i]? = some e →
      e.parentSubMenu = some p →
        p < i ∧ ∃ e' : Entry, (parseEntries grub text).1.entries[p]? = some e' ∧
          e'.entryType = SUBMENU) ∧
    (∀ (i k j : Nat), 0 < k → climb (parseEntries grub text).1.entries k i = some j → j ≠ i) ∧
    (∀ (i : Nat), i < (parseEntries grub text).1.entries.length →
      ∃ (k j : Nat) (e : Entry), k < i + 1 ∧
        climb (parseEntries grub text).1.entries k i = some j ∧
        (parseEntries grub text).1.entries[j]? = some e ∧ e.parentSubMenu = none) := by
  have hpar : ParentsEarlier (parseEntries grub text).1.entries :=
    fun i e p hi hp => (parseEntries_inv grub text h).par i e hi p hp
  refine ⟨hpar, ?_, climb_root hpar⟩
  intro i k j hk hc
  have := (climb_le hpar k i j hc).2 hk
  omega

theorem parseEntries_parent_earlier_submenu_witness :
    (parseEntries Grub2.empty menuNested).2 = .nil ∧
    ∃ (k j : Nat) (e : Entry), k < 1 + 1 ∧
      climb (parseEntries Grub2.empty menuNested).1.entries k 1 = some j ∧
      (parseEntries Grub2.empty menuNested).1.entries[j]? = some e ∧ e.parentSubMenu = none :=
  ⟨by decide,
    (parseEntries_parent_earlier_submenu Grub2.empty menuNested (by decide)).2.2 1 (by decide)⟩

theorem rawLines_replicate (n : Nat) : rawLines (List.replicate (n + 1) 'x') =
    [List.replicate (n + 1) 'x'] := by
  induction n with
  | zero => rfl
  | succ n ih =>
    rw [List.replicate_succ, rawLines, ih]
    simp

theorem byteLen_replicate (n : Nat) : byteLen (List.replicate n 'x') = n := by
  induction n with
  | zero => rfl
  | succ n ih =>
    unfold byteLen at ih ⊢
    rw [List.replicate_succ, List.map_cons, List.sum_cons, ih]
    have : Char.utf8Size 'x' = 1 := by decide
    omega

theorem rawLines_append_newline (a rest : Str) (ha : '\n' ∉ a) :
    rawLines (a ++ '\n' :: rest) = a :: rawLines rest := by
  induction a with
  | nil => simp [rawLines]
  | cons c a ih =>
    have hc : c ≠ '\n' := fun h => ha (by simp [h])
    have ha' : '\n' ∉ a := fun h => ha (List.mem_cons_of_mem _ h)
    rw [List.cons_append, rawLines, if_neg hc, ih ha']

theorem rawLines_menuTooLong :
    rawLines menuTooLong = ["menuentry 'a' \x7b".toList, List.replicate 65536 'x'] := by
  have h : rawLines (List.replicate 65536 'x') = [List.replicate 65536 'x'] :=
    rawLines_replicate 65535
  have e : menuTooLong = "menuentry 'a' \x7b".toList ++ '\n' :: List.replicate 65536 'x' := rfl
  rw [e, rawLines_append_newline _ _ (by decide), h]

theorem tooLong_replicate : tooLong (List.replicate 65536 'x') = true := by
  unfold tooLong
  rw [byteLen_replicate]
  rfl

/-- C5, the code at the failing input. On a menuentry line followed by a line
of 65536 bytes `parseEntries` returns the scanner error `ErrTooLong` and the
collection still holds the entry parsed before the failure. -/
theorem parseEntries_scanner_error_keeps_entries (grub : Grub2) :
    parseEntries grub menuTooLong =
      ({ grub with entries := [⟨MENUENTRY, "a".toList, 0, none⟩] }, .error .errTooLong) := by
  have h1 : tooLong "menuentry 'a' \x7b".toList = false := by decide
  unfold parseEntries
  rw [rawLines_menuTooLong]
  rw [scanLoop_cons_good h1
    (show scanLine (Scan.init grub) (dropCR "menuentry 'a' \x7b".toList) =
      ((scanLine (Scan.init grub) (dropCR "menuentry 'a' \x7b".toList)).1, none) from rfl)]
  rw [scanLoop_cons_tooLong tooLong_replicate]
  rfl

theorem scanLoop_directive_error : ∀ (raws : List Str) (s : Scan) (e : ParseError),
    (scanLoop raws s).2 = .error e → e ≠ .errTooLong →
    (scanLoop raws s).1.grub.entries = [] := by
  intro raws
  induction raws with
  | nil => intro s e h _; simp [scanLoop] at h
  | cons raw rest ih =>
    intro s e h he
    cases hfit : tooLong raw with
    | true =>
      rw [scanLoop_cons_tooLong hfit] at h
      injection h with h
      exact absurd h.symm he
    | false =>
      rcases scanLine_cases s (dropCR raw) with c | c | c | c | c | c | c
      · obtain ⟨_, _, e', _, he'⟩ := c
        rw [scanLoop_cons_stop hfit he']
        rfl
      · rw [scanLoop_cons_stop hfit c.2.2.2.2] at h; cases h
      · obtain ⟨_, _, _, parent, _, he'⟩ := c
        rw [scanLoop_cons_good hfit he'] at h ⊢
        exact ih _ e h he
      · rw [scanLoop_cons_good hfit c.2.2.2] at h ⊢
        exact ih _ e h he
      · rw [scanLoop_cons_stop hfit c.2.2.2.2.2] at h; cases h
      · rw [scanLoop_cons_good hfit c.2.2.2.2.2] at h ⊢
        exact ih _ e h he
      · rw [scanLoop_cons_good hfit c.2.2] at h ⊢
        exact ih _ e h he

/-- C6, counterexample. A receiver that holds one entry, parsing a menuentry
line with an unclosed quote: the call fails and the collection afterwards is
not the collection held before. -/
theorem failed_parse_discards_snapshot_counterexample :
    (parseEntries grubWithEntry menuUnmatchedQuote).2 =
        .error (.titleFailed menuUnmatchedQuote) ∧
    (parseEntries grubWithEntry menuUnmatchedQuote).1.entries ≠ grubWithEntry.entries := by
  decide

/-- C6, amended. Whatever the receiver held before, after a call of
`parseEntries` that fails at a directive (a directive met inside a menuentry
body, or one without extractable title) the entry collection is empty: the
previous snapshot is discarded, not kept. -/
theorem parseEntries_directive_error_clears (grub : Grub2) (text : Str) (e : ParseError)
    (h : (parseEntries grub text).2 = .error e) (he : e ≠ .errTooLong) :
    (parseEntries grub text).1.entries = [] :=
  scanLoop_directive_error (rawLines text) (Scan.init grub) e h he

theorem parseEntries_directive_error_clears_witness :
    (parseEntries grubWithEntry menuUnmatchedQuote).2 =
        .error (.titleFailed menuUnmatchedQuote) ∧
    (parseEntries grubWithEntry menuUnmatchedQuote).1.entries = [] :=
  ⟨by decide,
    parseEntries_directive_error_clears grubWithEntry menuUnmatchedQuote
      (.titleFailed menuUnmatchedQuote) (by decide) (by decide)⟩

theorem dropWhile_spaces (m : Nat) (q : Char) (x : Str) (hq : q ≠ ' ') :
    List.dropWhile (fun c => c == ' ') (List.replicate m ' ' ++ q :: x) = q :: x := by
  induction m with
  | zero => simp [List.dropWhile_cons, hq]
  | succ m ih => simp [List.replicate_succ, List.dropWhile_cons, ih]

theorem takeWhile_until (q : Char) (t r : Str) (ht : q ∉ t) :
    List.takeWhile (fun x => x != q) (t ++ q :: r) = t := by
  induction t with
  | nil => simp [List.takeWhile_cons]
  | cons c t ih =>
    have hc : c ≠ q := fun h => ht (by simp [h])
    have ht' : q ∉ t := fun h => ht (List.mem_cons_of_mem _ h)
    simp [List.takeWhile_cons, hc, ih ht']

theorem matchEntryRegexp_quoted (kw : Str)
    (hk : kw = "menuentry".toList ∨ kw = "submenu".toList) (q : Char) (hq : q ≠ ' ')
    (m : Nat) (t r : Str) (ht : q ∉ t) (htn : '\n' ∉ t) (hr : '\n' ∉ r) (hqn : q ≠ '\n') :
    matchEntryRegexp q (kw ++ (' ' :: (List.replicate m ' ' ++ q :: (t ++ q :: r)))) =
      some t := by
  have hmem : q ∈ t ++ q :: r := by simp
  have hnl : '\n' ∉ t ++ q :: r := by
    intro h
    rcases List.mem_append.1 h with h | h
    · exact htn h
    · rcases List.mem_cons.1 h with h | h
      · exact hqn h.symm
      · exact hr h
  have hkw : matchKeyword (kw ++ (' ' :: (List.replicate m ' ' ++ q :: (t ++ q :: r)))) =
      some (' ' :: (List.replicate m ' ' ++ q :: (t ++ q :: r))) := by
    rcases hk with rfl | rfl
    · simp [matchKeyword, stripPrefix, String.toList]
    · simp [matchKeyword, stripPrefix, String.toList]
  have hdw : List.dropWhile (fun c => c == ' ')
      (kw ++ (' ' :: (List.replicate m ' ' ++ q :: (t ++ q :: r)))) =
      kw ++ (' ' :: (List.replicate m ' ' ++ q :: (t ++ q :: r))) := by
    rcases hk with rfl | rfl
    · simp [List.dropWhile_cons, String.toList]
    · simp [List.dropWhile_cons, String.toList]
  unfold matchEntryRegexp
  rw [hdw, hkw]
  simp only [dropWhile_spaces m q _ hq]
  simp [hmem, hnl, takeWhile_until q t r ht]

theorem matchEntryRegexp_other_quote (kw : Str)
    (hk : kw = "menuentry".toList ∨ kw = "submenu".toList) (q q' : Char) (hq : q ≠ ' ')
    (hne : q ≠ q') (m : Nat) (x : Str) :
    matchEntryRegexp q' (kw ++ (' ' :: (List.replicate m ' ' ++ q :: x))) = none := by
  have hkw : matchKeyword (kw ++ (' ' :: (List.replicate m ' ' ++ q :: x))) =
      some (' ' :: (List.replicate m ' ' ++ q :: x)) := by
    rcases hk with rfl | rfl
    · simp [matchKeyword, stripPrefix, String.toList]
    · simp [matchKeyword, stripPrefix, String.toList]
  have hdw : List.dropWhile (fun c => c == ' ')
      (kw ++ (' ' :: (List.replicate m ' ' ++ q :: x))) =
      kw ++ (' ' :: (List.replicate m ' ' ++ q :: x)) := by
    rcases hk with rfl | rfl
    · simp [List.dropWhile_cons, String.toList]
    · simp [List.dropWhile_cons, String.toList]
  unfold matchEntryRegexp
  rw [hdw, hkw]
  simp only [dropWhile_spaces m q _ hq]
  simp [hne]

theorem trimLeft_keyword (kw : Str)
    (hk : kw = "menuentry".toList ∨ kw = "submenu".toList) (x : Str) :
    trimLeft (kw ++ x) = kw ++ x := by
  rcases hk with rfl | rfl
  · have : isSpace 'm' = false := by decide
    simp [trimLeft, String.toList, List.dropWhile_cons, this]
  · have : isSpace 's' = false := by decide
    simp [trimLeft, String.toList, List.dropWhile_cons, this]

/-- C7. For a keyword `menuentry` or `submenu`, at least one space, a quote
character (single or double), a title `t` free of that quote and of line
breaks, and a trailing text `r` free of line breaks, `parseTitle` returns
`(t, true)` on keyword, spaces, quote, `t`, quote, `r`: the title ends at the
first closing quote and what follows it is discarded. -/
theorem parseTitle_quoted (kw : Str)
    (hk : kw = "menuentry".toList ∨ kw = "submenu".toList)
    (q : Char) (hq : q = '\'' ∨ q = '"') (n : Nat) (hn : 1 ≤ n) (t r : Str)
    (ht : q ∉ t) (htn : '\n' ∉ t) (hr : '\n' ∉ r) :
    parseTitle (kw ++ (List.replicate n ' ' ++ q :: (t ++ q :: r))) = (t, true) := by
  obtain ⟨m, rfl⟩ : ∃ m, n = m + 1 := ⟨n - 1, by omega⟩
  rw [List.replicate_succ, List.cons_append]
  unfold parseTitle
  simp only [trimLeft_keyword kw hk]
  rcases hq with rfl | rfl
  · simp only [_ENTRY_REGEXP_1]
    rw [matchEntryRegexp_quoted kw hk '\'' (by decide) m t r ht htn hr (by decide)]
  · simp only [_ENTRY_REGEXP_1, _ENTRY_REGEXP_2]
    rw [matchEntryRegexp_other_quote kw hk '"' '\'' (by decide) (by decide) m,
      matchEntryRegexp_quoted kw hk '"' (by decide) m t r ht htn hr (by decide)]

theorem parseTitle_quoted_witness :
    parseTitle ("menuentry".toList ++ (List.replicate 2 ' ' ++
      '"' :: ("it's Deepin".toList ++ '"' :: " --class \"x\" \x7b".toList))) =
      ("it's Deepin".toList, true) :=
  parseTitle_quoted "menuentry".toList (Or.inl rfl) '"' (Or.inr rfl) 2 (by decide)
    "it's Deepin".toList " --class \"x\" \x7b".toList (by decide) (by decide) (by decide)

theorem lookup_filter_ne (m : Settings) (k k' : Str) (h : k' ≠ k) :
    List.lookup k' (m.filter (fun p => p.1 != k)) = List.lookup k' m := by
  induction m with
  | nil => rfl
  | cons a m ih =>
    obtain ⟨ka, va⟩ := a
    by_cases hka : ka = k
    · subst hka
      have : (k' == ka) = false := by simpa using h
      simp [List.filter_cons, List.lookup_cons, this, ih]
    · have hne : (ka != k) = true := by simpa using hka
      simp only [List.filter_cons, hne, if_true, List.lookup_cons, ih]

theorem lookup_set (m : Settings) (k v k' : Str) :
    List.lookup k' (m.set k v) = if k' = k then some v else List.lookup k' m := by
  unfold Settings.set
  by_cases h : k' = k
  · subst h; simp
  · have : (k' == k) = false := by simpa using h
    simp only [List.lookup_cons, this, h, if_false]
    exact lookup_filter_ne m k k' h

theorem lookup_isSome_iff (m : Settings) (k : Str) :
    k ∈ m.map Prod.fst ↔ (List.lookup k m).isSome = true := by
  induction m with
  | nil => simp
  | cons a m ih =>
    obtain ⟨ka, va⟩ := a
    by_cases h : k = ka
    · subst h; simp
    · have : (k == ka) = false := by simpa using h
      simp only [List.map_cons, List.mem_cons, h, false_or, List.lookup_cons, this]
      exact ih

theorem settingsLine_some {H : Helpers} {grub grub1 : Grub2} {text : Str}
    (h : settingsLine H grub text = some grub1) (k : Str) :
    List.lookup k grub1.settings =
      ((([trimSpace text].filter (fun l => hasPrefix l "GRUB_".toList)).filter
          (fun l => decide (keyOf l = k))).getLast?.map
        (fun l => H.unquoteString (valueOf l))).or (List.lookup k grub.settings) := by
  unfold settingsLine at h
  generalize "GRUB_".toList = pre at h ⊢
  by_cases hp : hasPrefix (trimSpace text) pre = true
  · simp only [hp, if_true] at h
    unfold splitN2 at h
    cases hd : List.dropWhile (fun c => c != '=') (trimSpace text) with
    | nil => simp [hd] at h
    | cons c value =>
      simp only [hd] at h
      simp only [List.getElem?_cons_zero, List.getElem?_cons_succ, Option.some.injEq] at h
      subst h
      simp only [lookup_set]
      have hv : valueOf (trimSpace text) = value := by simp [valueOf, hd]
      by_cases hk : keyOf (trimSpace text) = k
      · have hk' : k = List.takeWhile (fun c => c != '=') (trimSpace text) := hk.symm
        simp only [List.filter_cons, List.filter_nil, hp, if_true, hk, decide_True,
          List.getLast?_singleton, Option.map_some', hv]
        first | rfl | (rw [if_pos hk']; rfl)
      · have hk' : ¬ k = List.takeWhile (fun c => c != '=') (trimSpace text) :=
          fun e => hk e.symm
        simp only [List.filter_cons, List.filter_nil, hp, if_true, hk, decide_False,
          Bool.false_eq_true, if_false, List.getLast?_nil, Option.map_none']
        first | rfl | (rw [if_neg hk']; rfl)
  · simp only [hp] at h
    simp only [Bool.false_eq_true, if_false, Option.some.injEq] at h
    subst h
    simp only [List.filter_cons, List.filter_nil, hp, Bool.false_eq_true, if_false,
      List.getLast?_nil, Option.map_none']
    rfl

theorem settingsLoop_lookup (H : Helpers) (k : Str) : ∀ (raws : List Str) (grub : Grub2),
    (settingsLoop H raws grub).2 = .nil →
    List.lookup k (settingsLoop H raws grub).1.settings =
      (((((raws.map trimSpace).filter (fun l => hasPrefix l "GRUB_".toList)).filter
          (fun l => decide (keyOf l = k))).getLast?).map
        (fun l => H.unquoteString (valueOf l))).or (List.lookup k grub.settings) := by
  intro raws
  induction raws with
  | nil => intro grub _; simp [settingsLoop]
  | cons raw rest ih =>
    intro grub h
    unfold settingsLoop at h ⊢
    cases hfit : tooLong raw with
    | true => simp [hfit] at h
    | false =>
      simp only [hfit, Bool.false_eq_true, if_false] at h ⊢
      cases hl : settingsLine H grub (dropCR raw) with
      | none => simp [hl] at h
      | some grub1 =>
        simp only [hl] at h ⊢
        rw [ih grub1 h, settingsLine_some hl k, trimSpace_dropCR]
        simp only [List.map_cons]
        rw [show (trimSpace raw :: List.map trimSpace rest) =
          [trimSpace raw] ++ List.map trimSpace rest from rfl]
        simp only [List.filter_append, List.getLast?_append]
        cases (List.filter (fun l => decide (keyOf l = k))
          (List.filter (fun l => hasPrefix l "GRUB_".toList)
            (List.map trimSpace rest))).getLast? <;> simp

/-- C10. When `parseSettings` returns nil, for every key `k` other than
`GRUB_DEFAULT` and `GRUB_TIMEOUT`: `k` is a key of the settings map if and only
if some line of the text that begins with `GRUB_` after trimming has `k` as the
text before its first `=`, and the value stored is `unquoteString` applied to
the text after the first `=` of the last such line. -/
theorem parseSettings_keys_and_values (H : Helpers) (grub : Grub2) (text : Str)
    (h : (parseSettings H grub text).2 = .nil) (k : Str)
    (hk1 : k ≠ "GRUB_DEFAULT".toList) (hk2 : k ≠ "GRUB_TIMEOUT".toList) :
    (k ∈ (parseSettings H grub text).1.settings.map Prod.fst ↔
        ∃ l ∈ settingLines text, keyOf l = k) ∧
    List.lookup k (parseSettings H grub text).1.settings =
      ((settingLines text).filter (fun l => decide (keyOf l = k))).getLast?.map
        (fun l => H.unquoteString (valueOf l)) := by
  have hloop : (settingsLoop H (rawLines text) (clearSettings grub)).2 = .nil := by
    unfold parseSettings at h
    rcases hr : settingsLoop H (rawLines text) (clearSettings grub) with ⟨g1, r⟩
    rw [hr] at h
    cases r with
    | nil => rfl
    | error e => exact h
    | panic => exact h
  have hval : List.lookup k (parseSettings H grub text).1.settings =
      ((settingLines text).filter (fun l => decide (keyOf l = k))).getLast?.map
        (fun l => H.unquoteString (valueOf l)) := by
    have := settingsLoop_lookup H k (rawLines text) (clearSettings grub) hloop
    unfold parseSettings
    rcases hr : settingsLoop H (rawLines text) (clearSettings grub) with ⟨g1, r⟩
    rw [hr] at hloop this
    simp only at hloop
    subst hloop
    simp only [setTimeout, setDefaultEntry]
    split
    · simp only [lookup_set, hk1, hk2, if_false]
      rw [this]
      simp [settingLines, lines, clearSettings]
    · simp only [lookup_set, hk1, hk2, if_false]
      rw [this]
      simp [settingLines, lines, clearSettings]
  refine ⟨?_, hval⟩
  rw [lookup_isSome_iff, hval]
  simp only [Option.isSome_map', List.getLast?_isSome, ne_eq, List.filter_eq_nil_iff,
    decide_eq_true_eq, not_forall, Classical.not_not]
  constructor
  · rintro ⟨l, hl, hk⟩; exact ⟨l, hl, hk⟩
  · rintro ⟨l, hl, hk⟩; exact ⟨l, hl, hk⟩

theorem parseSettings_keys_and_values_witness :
    (parseSettings Helpers.sample Grub2.empty defaultsSample).2 = .nil ∧
    List.lookup "GRUB_CMDLINE_LINUX".toList
        (parseSettings Helpers.sample Grub2.empty defaultsSample).1.settings =
      some "a=b splash".toList :=
  ⟨by decide,
    (parseSettings_keys_and_values Helpers.sample Grub2.empty defaultsSample (by decide)
      "GRUB_CMDLINE_LINUX".toList (by decide) (by decide)).2.trans (by decide)⟩

theorem utf8Size_pos (c : Char) : 0 < c.utf8Size := Char.utf8Size_pos c

theorem byteLen_eq_zero_iff (s : Str) : byteLen s = 0 ↔ s = [] := by
  cases s with
  | nil => simp [byteLen]
  | cons c cs =>
    have := utf8Size_pos c
    simp only [byteLen, List.map_cons, List.sum_cons]
    constructor
    · intro h; omega
    · intro h; cases h

/-- C11, the code at the failing input. On a defaults text whose only line
begins with `GRUB_` and holds no `=`, `parseSettings` ends with the panic of
the index expression `kv[1]`, for every receiver, instead of returning a
mapping or an error. -/
theorem parseSettings_panics_without_equals (H : Helpers) (grub : Grub2) :
    (parseSettings H grub defaultsNoEquals).2 = .panic := by
  rfl

theorem settingsLine_frame {H : Helpers} {grub grub1 : Grub2} {text : Str}
    (h : settingsLine H grub text = some grub1) :
    grub1.entries = grub.entries ∧ grub1.DefaultEntry = grub.DefaultEntry ∧
      grub1.Timeout = grub.Timeout := by
  unfold settingsLine at h
  simp only [] at h
  split_ifs at h
  · split at h
    · injection h with h; subst h; exact ⟨rfl, rfl, rfl⟩
    · cases h
  · injection h with h; subst h; exact ⟨rfl, rfl, rfl⟩

theorem settingsLoop_frame (H : Helpers) : ∀ (raws : List Str) (grub : Grub2),
    (settingsLoop H raws grub).1.entries = grub.entries ∧
    (settingsLoop H raws grub).1.DefaultEntry = grub.DefaultEntry ∧
    (settingsLoop H raws grub).1.Timeout = grub.Timeout := by
  intro raws
  induction raws with
  | nil => intro grub; exact ⟨rfl, rfl, rfl⟩
  | cons raw rest ih =>
    intro grub
    unfold settingsLoop
    split_ifs
    · exact ⟨rfl, rfl, rfl⟩
    · cases hl : settingsLine H grub (dropCR raw) with
      | none => exact ⟨rfl, rfl, rfl⟩
      | some grub1 =>
        simp only []
        obtain ⟨a, b, c⟩ := settingsLine_frame hl
        obtain ⟨a', b', c'⟩ := ih grub1
        exact ⟨a'.trans a, b'.trans b, c'.trans c⟩

theorem parseSettings_nil_loop {H : Helpers} {grub : Grub2} {text : Str}
    (h : (parseSettings H grub text).2 = .nil) :
    (settingsLoop H (rawLines text) (clearSettings grub)).2 = .nil := by
  unfold parseSettings at h
  rcases hr : settingsLoop H (rawLines text) (clearSettings grub) with ⟨g1, r⟩
  rw [hr] at h
  cases r with
  | nil => rfl
  | error e => exact h
  | panic => exact h

theorem parseSettings_eq {H : Helpers} {grub : Grub2} {text : Str}
    (h : (parseSettings H grub text).2 = .nil) :
    (parseSettings H grub text).1 =
      setTimeout
        (setDefaultEntry
          { (settingsLoop H (rawLines text) (clearSettings grub)).1 with
            DefaultEntry := getDefaultEntry H (settingsLoop H (rawLines text) (clearSettings grub)).1,
            Timeout := getTimeout (settingsLoop H (rawLines text) (clearSettings grub)).1 }
          (getDefaultEntry H (settingsLoop H (rawLines text) (clearSettings grub)).1))
        (getTimeout (settingsLoop H (rawLines text) (clearSettings grub)).1) := by
  have hl := parseSettings_nil_loop h
  unfold parseSettings
  rcases hr : settingsLoop H (rawLines text) (clearSettings grub) with ⟨g1, r⟩
  rw [hr] at hl
  simp only at hl
  subst hl
  rfl

theorem setTimeout_frame (grub : Grub2) (n : Int) :
    (setTimeout grub n).entries = grub.entries ∧
    (setTimeout grub n).DefaultEntry = grub.DefaultEntry ∧
    (setTimeout grub n).Timeout = grub.Timeout := by
  unfold setTimeout
  split_ifs <;> exact ⟨rfl, rfl, rfl⟩

theorem setTimeout_lookup (grub : Grub2) (n : Int) (k : Str) :
    List.lookup k (setTimeout grub n).settings =
      if k = "GRUB_TIMEOUT".toList then
        some (if n = _GRUB_TIMEOUT_DISABLE then [] else FormatInt n)
      else List.lookup k grub.settings := by
  unfold setTimeout
  split_ifs <;> simp_all [lookup_set]

/-- C12. When `parseSettings` returns nil, whatever entry collection the
receiver holds: the collection is unchanged, `DefaultEntry` is `getDefaultEntry`
and `Timeout` is `getTimeout` evaluated on the receiver with the freshly parsed
mapping, and the mapping afterwards holds `DefaultEntry` under `GRUB_DEFAULT`
and, under `GRUB_TIMEOUT`, the empty string when `Timeout` is -2 and the
decimal text of `Timeout` otherwise; both keys are present. -/
theorem parseSettings_properties_written_back (H : Helpers) (grub : Grub2) (text : Str)
    (h : (parseSettings H grub text).2 = .nil) :
    (settingsLoop H (rawLines text) (clearSettings grub)).1.entries = grub.entries ∧
    (parseSettings H grub text).1.entries = grub.entries ∧
    (parseSettings H grub text).1.DefaultEntry =
      getDefaultEntry H (settingsLoop H (rawLines text) (clearSettings grub)).1 ∧
    (parseSettings H grub text).1.Timeout =
      getTimeout (settingsLoop H (rawLines text) (clearSettings grub)).1 ∧
    List.lookup "GRUB_DEFAULT".toList (parseSettings H grub text).1.settings =
      some (parseSettings H grub text).1.DefaultEntry ∧
    List.lookup "GRUB_TIMEOUT".toList (parseSettings H grub text).1.settings =
      some (if (parseSettings H grub text).1.Timeout = -2 then []
        else FormatInt (parseSettings H grub text).1.Timeout) := by
  have hf := settingsLoop_frame H (rawLines text) (clearSettings grub)
  rw [parseSettings_eq h]
  refine ⟨hf.1, ?_, ?_, ?_, ?_, ?_⟩
  · rw [(setTimeout_frame _ _).1]; exact hf.1
  · rw [(setTimeout_frame _ _).2.1]; rfl
  · rw [(setTimeout_frame _ _).2.2]; rfl
  · rw [setTimeout_lookup, (setTimeout_frame _ _).2.1]
    have : ("GRUB_DEFAULT".toList = "GRUB_TIMEOUT".toList) = False := by decide
    simp only [this, if_false]
    simp [setDefaultEntry, lookup_set]
  · rw [setTimeout_lookup, (setTimeout_frame _ _).2.2]
    simp [setDefaultEntry, _GRUB_TIMEOUT_DISABLE]

theorem parseSettings_properties_written_back_witness :
    (parseSettings Helpers.sample Grub2.empty defaultsSample).2 = .nil ∧
    List.lookup "GRUB_TIMEOUT".toList
        (parseSettings Helpers.sample Grub2.empty defaultsSample).1.settings =
      some (if (parseSettings Helpers.sample Grub2.empty defaultsSample).1.Timeout = -2 then []
        else FormatInt (parseSettings Helpers.sample Grub2.empty defaultsSample).1.Timeout) :=
  ⟨by decide,
    (parseSettings_properties_written_back Helpers.sample Grub2.empty defaultsSample
      (by decide)).2.2.2.2.2⟩

theorem getDefaultEntry_unfold (H : Helpers) (grub : Grub2) :
    getDefaultEntry H grub =
      if grub.settings.get "GRUB_DEFAULT".toList = [] then
        firstSimple (H.GetSimpleEntryTitles grub.entries)
      else if grub.settings.get "GRUB_DEFAULT".toList ∈ H.GetSimpleEntryTitles grub.entries then
        grub.settings.get "GRUB_DEFAULT".toList
      else if grub.settings.get "GRUB_DEFAULT".toList ∈ (getEntryTitles H grub).1 then
        firstSimple (H.GetSimpleEntryTitles grub.entries)
      else
        match ParseInt (grub.settings.get "GRUB_DEFAULT".toList) with
        | some i =>
          if 0 ≤ i ∧ i.toNat < (H.GetSimpleEntryTitles grub.entries).length then
            match (H.GetSimpleEntryTitles grub.entries)[i.toNat]? with
            | some t => t
            | none => firstSimple (H.GetSimpleEntryTitles grub.entries)
          else firstSimple (H.GetSimpleEntryTitles grub.entries)
        | none => firstSimple (H.GetSimpleEntryTitles grub.entries) := by
  unfold getDefaultEntry
  simp only [byteLen_eq_zero_iff, stringInSlice, decide_eq_true_eq]
  by_cases h1 : grub.settings.get "GRUB_DEFAULT".toList = []
  · simp only [h1, if_true]; rfl
  · simp only [h1, if_false]
    by_cases h2 : grub.settings.get "GRUB_DEFAULT".toList ∈ H.GetSimpleEntryTitles grub.entries
    · simp only [h2, if_true]
    · simp only [h2, if_false]
      by_cases h3 : grub.settings.get "GRUB_DEFAULT".toList ∈ (getEntryTitles H grub).1
      · simp only [h3, if_true]; rfl
      · simp only [h3, if_false]
        cases hp : ParseInt (grub.settings.get "GRUB_DEFAULT".toList) with
        | some i => rfl
        | none =>
          simp only [le_refl, Int.toNat_zero, true_and]
          cases hs : H.GetSimpleEntryTitles grub.entries with
          | nil => simp [firstSimple]
          | cons t ts => simp [firstSimple]

theorem parseUnsigned_eq {s : Str} {n : Nat} (h : parseUnsigned s = some n) :
    parseDigits 0 s = some n := by
  unfold parseUnsigned at h
  cases s with
  | nil => cases h
  | cons c cs => exact h

theorem ParseInt_range {s : Str} {n : Int} (h : ParseInt s = some n) :
    -2147483648 ≤ n ∧ n < 2147483648 := by
  unfold ParseInt at h
  split at h
  · cases h
  · split at h
    · split_ifs at h with hb
      · injection h with h; subst h; omega
    · cases h
  · split at h
    · split_ifs at h with hb
      · injection h with h; subst h; omega
    · cases h
  · split at h
    · split_ifs at h with hb
      · injection h with h; subst h; omega
    · cases h

/-- C13. Whatever the simple titles and the full titles are, when the value of
`GRUB_DEFAULT` is not empty and is one of the simple titles, `getDefaultEntry`
returns it unchanged (also when it reads as a number, as in the witness). -/
theorem getDefaultEntry_simple_title (H : Helpers) (grub : Grub2)
    (hne : grub.settings.get "GRUB_DEFAULT".toList ≠ [])
    (hmem : grub.settings.get "GRUB_DEFAULT".toList ∈ H.GetSimpleEntryTitles grub.entries) :
    getDefaultEntry H grub = grub.settings.get "GRUB_DEFAULT".toList := by
  rw [getDefaultEntry_unfold, if_neg hne, if_pos hmem]

theorem getDefaultEntry_simple_title_witness :
    getDefaultEntry Helpers.sample grubNumericTitle = "0".toList :=
  getDefaultEntry_simple_title Helpers.sample grubNumericTitle (by decide) (by decide)

/-- C14. When the value of `GRUB_DEFAULT` is not empty, is one of the full
titles (the titles `getEntryTitles` gives for the MENUENTRY entries) and is not
a simple title, `getDefaultEntry` returns the first simple title, or the empty
string when there is no simple title. -/
theorem getDefaultEntry_nested_title (H : Helpers) (grub : Grub2)
    (hne : grub.settings.get "GRUB_DEFAULT".toList ≠ [])
    (hfull : grub.settings.get "GRUB_DEFAULT".toList ∈ (getEntryTitles H grub).1)
    (hns : grub.settings.get "GRUB_DEFAULT".toList ∉ H.GetSimpleEntryTitles grub.entries) :
    getDefaultEntry H grub = firstSimple (H.GetSimpleEntryTitles grub.entries) := by
  rw [getDefaultEntry_unfold, if_neg hne, if_neg hns, if_pos hfull]

theorem getDefaultEntry_nested_title_witness :
    getDefaultEntry Helpers.sample grubNestedDefault = "Memory Test".toList :=
  getDefaultEntry_nested_title Helpers.sample grubNestedDefault (by decide) (by decide)
    (by decide)

/-- C15. When the value of `GRUB_DEFAULT` is not empty, is neither a simple
title nor a full title, and `strconv.ParseInt(value, 10, 32)` gives an integer
`i` with `0 ≤ i < len(simple)`, `getDefaultEntry` returns `simple[i]`; with
three simple titles and the value `2` it returns the third. -/
theorem getDefaultEntry_index (H : Helpers) (grub : Grub2)
    (hne : grub.settings.get "GRUB_DEFAULT".toList ≠ [])
    (hns : grub.settings.get "GRUB_DEFAULT".toList ∉ H.GetSimpleEntryTitles grub.entries)
    (hnf : grub.settings.get "GRUB_DEFAULT".toList ∉ (getEntryTitles H grub).1)
    (i : Int) (hp : ParseInt (grub.settings.get "GRUB_DEFAULT".toList) = some i)
    (h0 : 0 ≤ i) (hlt : i.toNat < (H.GetSimpleEntryTitles grub.entries).length) :
    (H.GetSimpleEntryTitles grub.entries)[i.toNat]? = some (getDefaultEntry H grub) ∧
    getDefaultEntry Helpers.sample grubThreeEntries = "C".toList := by
  refine ⟨?_, by decide⟩
  rw [getDefaultEntry_unfold, if_neg hne, if_neg hns, if_neg hnf, hp]
  simp only [h0, hlt, and_self, if_true]
  rw [List.getElem?_eq_getElem hlt]

theorem getDefaultEntry_index_witness :
    (Helpers.sample.GetSimpleEntryTitles grubThreeEntries.entries)[(2 : Int).toNat]? =
      some (getDefaultEntry Helpers.sample grubThreeEntries) :=
  (getDefaultEntry_index Helpers.sample grubThreeEntries (by decide) (by decide) (by decide) 2
    (by decide) (by decide) (by decide)).1

/-- C16. `getDefaultEntry` returns the first simple title (the empty string
when there is none) when `GRUB_DEFAULT` is empty or absent, and when its value
is neither a simple nor a full title and either is not read by
`strconv.ParseInt(value, 10, 32)` or is read as an index that is negative or
not smaller than the number of simple titles. -/
theorem getDefaultEntry_fallback (H : Helpers) (grub : Grub2) :
    (grub.settings.get "GRUB_DEFAULT".toList = [] →
      getDefaultEntry H grub = firstSimple (H.GetSimpleEntryTitles grub.entries)) ∧
    (List.lookup "GRUB_DEFAULT".toList grub.settings = none →
      getDefaultEntry H grub = firstSimple (H.GetSimpleEntryTitles grub.entries)) ∧
    (grub.settings.get "GRUB_DEFAULT".toList ∉ H.GetSimpleEntryTitles grub.entries →
      grub.settings.get "GRUB_DEFAULT".toList ∉ (getEntryTitles H grub).1 →
      (ParseInt (grub.settings.get "GRUB_DEFAULT".toList) = none ∨
        ∃ i : Int, ParseInt (grub.settings.get "GRUB_DEFAULT".toList) = some i ∧
          (i < 0 ∨ ((H.GetSimpleEntryTitles grub.entries).length : Int) ≤ i)) →
      getDefaultEntry H grub = firstSimple (H.GetSimpleEntryTitles grub.entries)) := by
  have hempty : grub.settings.get "GRUB_DEFAULT".toList = [] →
      getDefaultEntry H grub = firstSimple (H.GetSimpleEntryTitles grub.entries) := by
    intro h
    rw [getDefaultEntry_unfold, if_pos h]
  refine ⟨hempty, ?_, ?_⟩
  · intro h
    apply hempty
    unfold Settings.get
    rw [h]
  · intro hns hnf hp
    by_cases hne : grub.settings.get "GRUB_DEFAULT".toList = []
    · exact hempty hne
    · rw [getDefaultEntry_unfold, if_neg hne, if_neg hns, if_neg hnf]
      rcases hp with hp | ⟨i, hp, hi⟩
      · rw [hp]
      · rw [hp]
        have : ¬ (0 ≤ i ∧ i.toNat < (H.GetSimpleEntryTitles grub.entries).length) := by
          rintro ⟨a, b⟩
          rcases hi with hi | hi
          · omega
          · have := Int.toNat_of_nonneg a
            omega
        simp only [this, if_false]

theorem getDefaultEntry_fallback_witness :
    getDefaultEntry Helpers.sample grubNegativeIndex = "A".toList :=
  (getDefaultEntry_fallback Helpers.sample grubNegativeIndex).2.2 (by decide) (by decide)
    (Or.inr ⟨-1, by decide, Or.inl (by decide)⟩)

/-- C17. `getTimeout` returns -2 when the value of `GRUB_TIMEOUT` is empty or
absent or is not read by `strconv.ParseInt(value, 10, 32)` (not the decimal
text of an integer of the 32-bit signed range); otherwise it returns exactly
the integer read, which lies in that range, negative values included: the
value `-1` gives -1. -/
theorem getTimeout_cases (grub : Grub2) :
    (grub.settings.get "GRUB_TIMEOUT".toList = [] → getTimeout grub = -2) ∧
    (List.lookup "GRUB_TIMEOUT".toList grub.settings = none → getTimeout grub = -2) ∧
    (ParseInt (grub.settings.get "GRUB_TIMEOUT".toList) = none → getTimeout grub = -2) ∧
    (∀ n : Int, ParseInt (grub.settings.get "GRUB_TIMEOUT".toList) = some n →
      getTimeout grub = n ∧ -2147483648 ≤ n ∧ n < 2147483648) ∧
    getTimeout grubTimeoutMinusOne = -1 := by
  have hempty : grub.settings.get "GRUB_TIMEOUT".toList = [] → getTimeout grub = -2 := by
    intro h
    unfold getTimeout
    rw [if_pos ((byteLen_eq_zero_iff _).2 h)]
    rfl
  refine ⟨hempty, ?_, ?_, ?_, by decide⟩
  · intro h
    apply hempty
    unfold Settings.get
    rw [h]
  · intro h
    unfold getTimeout
    split_ifs
    · rfl
    · rw [h]; rfl
  · intro n h
    refine ⟨?_, ParseInt_range h⟩
    have hne : grub.settings.get "GRUB_TIMEOUT".toList ≠ [] := by
      intro he
      rw [he] at h
      cases h
    unfold getTimeout
    rw [if_neg (fun hb => hne ((byteLen_eq_zero_iff _).1 hb)), h]

theorem getTimeout_cases_witness :
    getTimeout grubTimeoutMinusOne = -1 ∧ (-2147483648 : Int) ≤ -1 ∧ (-1 : Int) < 2147483648 :=
  (getTimeout_cases grubTimeoutMinusOne).2.2.2.1 (-1) (by decide)

theorem digitVal_digitChar (d : Nat) (hd : d < 10) : digitVal (Nat.digitChar d) = some d := by
  interval_cases d <;> decide

theorem toDigitsCore_append (fuel : Nat) : ∀ (n : Nat) (ds : List Char),
    Nat.toDigitsCore 10 fuel n ds = Nat.toDigitsCore 10 fuel n [] ++ ds := by
  induction fuel with
  | zero => intro n ds; simp [Nat.toDigitsCore]
  | succ fuel ih =>
    intro n ds
    simp only [Nat.toDigitsCore]
    split_ifs
    · simp
    · rw [ih (n / 10) (Nat.digitChar (n % 10) :: ds), ih (n / 10) [Nat.digitChar (n % 10)]]
      simp

theorem parseDigits_snoc (l : Str) : ∀ (acc : Nat) (c : Char),
    parseDigits acc (l ++ [c]) =
      match parseDigits acc l with
      | some v =>
        match digitVal c with
        | some d => some (v * 10 + d)
        | none => none
      | none => none := by
  induction l with
  | nil =>
    intro acc c
    show parseDigits acc [c] = _
    unfold parseDigits
    cases digitVal c
    · rfl
    · rfl
  | cons a l ih =>
    intro acc c
    simp only [List.cons_append, parseDigits]
    cases digitVal a with
    | none => rfl
    | some d => exact ih _ c

theorem parseDigits_toDigitsCore (fuel : Nat) : ∀ (n : Nat), n < fuel →
    parseDigits 0 (Nat.toDigitsCore 10 fuel n []) = some n ∧
      Nat.toDigitsCore 10 fuel n [] ≠ [] := by
  induction fuel with
  | zero => intro n h; omega
  | succ fuel ih =>
    intro n h
    simp only [Nat.toDigitsCore]
    have hd := digitVal_digitChar (n % 10) (Nat.mod_lt _ (by omega))
    split_ifs with h0
    · refine ⟨?_, by simp⟩
      simp only [parseDigits, hd]
      have : n / 10 = 0 := h0
      congr 1
      omega
    · rw [toDigitsCore_append]
      have hlt : n / 10 < fuel := by
        have : n / 10 < n := Nat.div_lt_self (by omega) (by omega)
        omega
      obtain ⟨hp, _⟩ := ih (n / 10) hlt
      refine ⟨?_, by simp⟩
      rw [parseDigits_snoc, hp]
      simp only [hd]
      congr 1
      omega

theorem parseDigits_toDigits (n : Nat) :
    parseDigits 0 (Nat.toDigits 10 n) = some n ∧ Nat.toDigits 10 n ≠ [] :=
  parseDigits_toDigitsCore (n + 1) n (by omega)

theorem parseDigits_all_digits : ∀ (l : Str) (acc v : Nat), parseDigits acc l = some v →
    ∀ c ∈ l, ∃ d, digitVal c = some d := by
  intro l
  induction l with
  | nil => intro _ _ _ c hc; cases hc
  | cons a l ih =>
    intro acc v h c hc
    simp only [parseDigits] at h
    cases ha : digitVal a with
    | none => rw [ha] at h; cases h
    | some d =>
      rw [ha] at h
      rcases List.mem_cons.1 hc with rfl | hc
      · exact ⟨d, ha⟩
      · exact ih _ _ h c hc

theorem digitVal_not_special {c : Char} {d : Nat} (h : digitVal c = some d) :
    c ≠ '+' ∧ c ≠ '-' ∧ c ≠ '\n' := by
  have e1 : digitVal '+' = none := by decide
  have e2 : digitVal '-' = none := by decide
  have e3 : digitVal '\n' = none := by decide
  refine ⟨?_, ?_, ?_⟩
  · intro hc; subst hc; rw [e1] at h; cases h
  · intro hc; subst hc; rw [e2] at h; cases h
  · intro hc; subst hc; rw [e3] at h; cases h

theorem ParseInt_nat (n : Nat) (hn : n < 2 ^ 31) :
    ParseInt (Nat.toDigits 10 n) = some (n : Int) := by
  obtain ⟨hp, hne⟩ := parseDigits_toDigits n
  cases hs : Nat.toDigits 10 n with
  | nil => exact absurd hs hne
  | cons c cs =>
    rw [hs] at hp
    obtain ⟨d, hd⟩ := parseDigits_all_digits _ _ _ hp c (List.mem_cons_self _ _)
    obtain ⟨h1, h2, _⟩ := digitVal_not_special hd
    have hpu : parseUnsigned (c :: cs) = some n := hp
    unfold ParseInt
    split
    · rename_i heq; cases heq
    · rename_i heq; injection heq with heq _; exact absurd heq h1
    · rename_i heq; injection heq with heq _; exact absurd heq h2
    · rename_i c' cs' _ _ heq
      injection heq with e1 e2
      subst e1 e2
      rw [hpu]
      have hn' : n < 2147483648 := by omega
      simp [hn']

/-- The decimal text written by `FormatInt` is read back by `ParseInt`. -/
theorem ParseInt_FormatInt (n : Int) (h1 : -2147483648 ≤ n) (h2 : n < 2147483648) :
    ParseInt (FormatInt n) = some n := by
  unfold FormatInt
  split_ifs with hneg
  · obtain ⟨hp, hne⟩ := parseDigits_toDigits n.natAbs
    have hpu : parseUnsigned (Nat.toDigits 10 n.natAbs) = some n.natAbs := by
      unfold parseUnsigned
      cases hs : Nat.toDigits 10 n.natAbs with
      | nil => exact absurd hs hne
      | cons c cs => rw [hs] at hp; exact hp
    have hle : n.natAbs ≤ 2 ^ 31 := by omega
    simp only [ParseInt, hpu, hle, if_true]
    congr 1
    omega
  · have hlt : n.natAbs < 2 ^ 31 := by omega
    rw [ParseInt_nat _ hlt]
    congr 1
    omega

theorem FormatInt_ne_nil (n : Int) : FormatInt n ≠ [] := by
  unfold FormatInt
  split_ifs
  · simp
  · exact (parseDigits_toDigits n.natAbs).2

theorem FormatInt_no_newline (n : Int) : '\n' ∉ FormatInt n := by
  have hd : '\n' ∉ Nat.toDigits 10 n.natAbs := by
    intro h
    obtain ⟨d, hd⟩ := parseDigits_all_digits _ _ _ (parseDigits_toDigits n.natAbs).1 _ h
    exact (digitVal_not_special hd).2.2 rfl
  unfold FormatInt
  split_ifs
  · intro h
    rcases List.mem_cons.1 h with h | h
    · revert h; decide
    · exact hd h
  · exact hd

theorem foldl_save (H : Helpers) (grub : Grub2) : ∀ (order : List Str) (acc : Str),
    order.foldl
      (fun fileContent k =>
        let v := grub.settings.get k
        if 0 < byteLen v then fileContent ++ (k ++ "=".toList ++ H.quoteString v ++ "\n".toList)
        else fileContent) acc =
      acc ++ ((savedKeys grub order).map (savedLine H grub)).flatten := by
  intro order
  induction order with
  | nil => intro acc; simp [savedKeys]
  | cons k order ih =>
    intro acc
    simp only [List.foldl_cons, savedKeys, List.filter_cons]
    by_cases hv : grub.settings.get k = []
    · have hb : ¬ 0 < byteLen (grub.settings.get k) := by
        rw [(byteLen_eq_zero_iff _).2 hv]; omega
      simp only [hb, if_false, hv, ne_eq, not_true_eq_false, decide_False, Bool.false_eq_true]
      exact ih acc
    · have hb : 0 < byteLen (grub.settings.get k) := by
        have := (byteLen_eq_zero_iff (grub.settings.get k)).not.2 hv
        omega
      simp only [hb, if_true, hv, ne_eq, not_false_eq_true, decide_True, List.map_cons,
        List.flatten_cons]
      rw [ih]
      simp [savedKeys, savedLine]

theorem getSettingContentToSave_eq (H : Helpers) (grub : Grub2) (order : List Str) :
    getSettingContentToSave H grub order =
      ((savedKeys grub order).map (savedLine H grub)).flatten := by
  unfold getSettingContentToSave
  rw [foldl_save]
  rfl

/-- C19. For every settings map and every order in which the keys of the map
are visited (each key once), `getSettingContentToSave` returns the
concatenation, in that order, of one line `k=quoteString(v)` with its line feed
for each key `k` whose value `v` is not empty, and nothing else: the keys that
get a line are distinct, they are exactly the keys of the map with a non-empty
value, and their number is the number of such keys. -/
theorem getSettingContentToSave_lines (H : Helpers) (grub : Grub2) (order : List Str)
    (ho : IsRangeOrder order grub.settings) :
    getSettingContentToSave H grub order =
        ((savedKeys grub order).map (savedLine H grub)).flatten ∧
    (savedKeys grub order).Nodup ∧
    (∀ k, k ∈ savedKeys grub order ↔
      (k ∈ grub.settings.map Prod.fst ∧ grub.settings.get k ≠ [])) ∧
    (savedKeys grub order).length =
      ((grub.settings.map Prod.fst).toFinset.filter
        (fun k => grub.settings.get k ≠ [])).card := by
  have hmem : ∀ k, k ∈ savedKeys grub order ↔
      (k ∈ grub.settings.map Prod.fst ∧ grub.settings.get k ≠ []) := by
    intro k
    simp only [savedKeys, List.mem_filter, decide_eq_true_eq, ho.2 k]
  have hnd : (savedKeys grub order).Nodup := List.Nodup.filter _ ho.1
  refine ⟨getSettingContentToSave_eq H grub order, hnd, hmem, ?_⟩
  rw [← List.toFinset_card_of_nodup hnd]
  congr 1
  ext k
  simp only [List.mem_toFinset, Finset.mem_filter]
  exact hmem k

theorem getSettingContentToSave_lines_witness :
    IsRangeOrder ["GRUB_GFXMODE".toList, "GRUB_THEME".toList] grubTwoSettings.settings ∧
    getSettingContentToSave Helpers.sample grubTwoSettings
        ["GRUB_GFXMODE".toList, "GRUB_THEME".toList] =
      "GRUB_GFXMODE=\"auto\"\n".toList :=
  have ho : IsRangeOrder ["GRUB_GFXMODE".toList, "GRUB_THEME".toList]
      grubTwoSettings.settings := by
    refine ⟨by decide, ?_⟩
    intro k
    simp [grubTwoSettings]
    tauto
  ⟨ho, (getSettingContentToSave_lines Helpers.sample grubTwoSettings
    ["GRUB_GFXMODE".toList, "GRUB_THEME".toList] ho).1.trans (by decide)⟩

/-- C18. For every 32-bit integer `n`, after `setTimeout(n)` the map holds
under `GRUB_TIMEOUT` the empty string when `n = -2` and otherwise the decimal
text of `n` (the text that `strconv.ParseInt` reads back as `n`); after
`setTimeout(-2)` the serialized settings, in every order of the keys, hold no
line for `GRUB_TIMEOUT`, and the stored value is not the text `-2`. -/
theorem setTimeout_stores_decimal_text (grub : Grub2) (n : Int)
    (h1 : -2147483648 ≤ n) (h2 : n < 2147483648) :
    List.lookup "GRUB_TIMEOUT".toList (setTimeout grub n).settings =
        some (if n = -2 then [] else FormatInt n) ∧
    ParseInt (FormatInt n) = some n ∧
    (∀ (H : Helpers) (order : List Str),
      getSettingContentToSave H (setTimeout grub (-2)) order =
          ((savedKeys (setTimeout grub (-2)) order).map
            (savedLine H (setTimeout grub (-2)))).flatten ∧
        "GRUB_TIMEOUT".toList ∉ savedKeys (setTimeout grub (-2)) order) ∧
    (setTimeout grub (-2)).settings.get "GRUB_TIMEOUT".toList ≠ "-2".toList := by
  have hget : (setTimeout grub (-2)).settings.get "GRUB_TIMEOUT".toList = [] := by
    unfold Settings.get
    rw [setTimeout_lookup]
    simp [_GRUB_TIMEOUT_DISABLE]
  refine ⟨?_, ParseInt_FormatInt n h1 h2, ?_, ?_⟩
  · rw [setTimeout_lookup]
    simp [_GRUB_TIMEOUT_DISABLE]
  · intro H order
    refine ⟨getSettingContentToSave_eq H _ order, ?_⟩
    intro hin
    simp only [savedKeys, List.mem_filter, decide_eq_true_eq] at hin
    exact hin.2 hget
  · rw [hget]
    decide

theorem setTimeout_stores_decimal_text_witness :
    List.lookup "GRUB_TIMEOUT".toList (setTimeout Grub2.empty 5).settings =
        some "5".toList :=
  (setTimeout_stores_decimal_text Grub2.empty 5 (by decide) (by decide)).1.trans (by decide)

theorem rawLines_no_newline : ∀ (t : Str), ∀ r ∈ rawLines t, '\n' ∉ r := by
  intro t
  induction t with
  | nil => intro r hr; simp [rawLines] at hr
  | cons c cs ih =>
    intro r hr
    simp only [rawLines] at hr
    split_ifs at hr with hc
    · rcases List.mem_cons.1 hr with rfl | hr
      · simp
      · exact ih r hr
    · cases hrec : rawLines cs with
      | nil =>
        rw [hrec] at hr
        simp only [List.mem_singleton] at hr
        subst hr
        simpa using fun h => hc h.symm
      | cons l ls =>
        rw [hrec] at hr
        simp only [List.mem_cons] at hr
        rcases hr with rfl | hr
        · have hl := ih l (by rw [hrec]; exact List.mem_cons_self _ _)
          intro h
          rcases List.mem_cons.1 h with h | h
          · exact hc h.symm
          · exact hl h
        · exact ih r (by rw [hrec]; exact List.mem_cons_of_mem _ hr)

theorem mem_trimSpace {x : Char} {s : Str} (h : x ∈ trimSpace s) : x ∈ s := by
  unfold trimSpace trimLeft at h
  have h1 := (List.rdropWhile_prefix isSpace (List.dropWhile isSpace s)).subset h
  exact (List.dropWhile_suffix isSpace).subset h1

theorem mem_dropCR {x : Char} {s : Str} (h : x ∈ dropCR s) : x ∈ s := by
  unfold dropCR at h
  split at h
  · exact List.dropLast_subset _ h
  · exact h

theorem trimSpace_id (s : Str) (a b : Char) (ha : s.head? = some a) (hb : s.getLast? = some b)
    (hsa : isSpace a = false) (hsb : isSpace b = false) : trimSpace s = s := by
  have h1 : trimLeft s = s := by
    cases s with
    | nil => rfl
    | cons c cs =>
      simp only [List.head?_cons, Option.some.injEq] at ha
      subst ha
      simp [trimLeft, List.dropWhile_cons, hsa]
  unfold trimSpace
  rw [h1]
  obtain ⟨t, rfl⟩ := List.getLast?_eq_some_iff.1 hb
  rw [List.rdropWhile_concat_neg]
  simp [hsb]

theorem dropCR_id (s : Str) (b : Char) (hb : s.getLast? = some b) (hsb : isSpace b = false) :
    dropCR s = s := by
  unfold dropCR
  rw [hb]
  split
  · rename_i heq
    injection heq with heq
    subst heq
    rw [isSpace_cr] at hsb
    cases hsb
  · rfl

theorem dropWhile_until (q : Char) (t r : Str) (ht : q ∉ t) :
    List.dropWhile (fun x => x != q) (t ++ q :: r) = q :: r := by
  induction t with
  | nil => simp [List.dropWhile_cons]
  | cons c t ih =>
    have hc : c ≠ q := fun h => ht (by simp [h])
    have ht' : q ∉ t := fun h => ht (List.mem_cons_of_mem _ h)
    simp [List.dropWhile_cons, hc, ih ht']

theorem hasPrefix_append {k p : Str} (h : hasPrefix k p = true) (r : Str) :
    hasPrefix (k ++ r) p = true := by
  unfold hasPrefix at *
  rw [List.isPrefixOf_iff_prefix] at *
  exact h.trans (List.prefix_append k r)

theorem head?_of_keyOK {k : Str} (hk : KeyOK k) (r : Str) : (k ++ r).head? = some 'G' := by
  have h := hk.1
  unfold hasPrefix at h
  rw [List.isPrefixOf_iff_prefix] at h
  obtain ⟨t, rfl⟩ := h
  rfl

/-- The loop body on a line made of a key, `=` and a value that does not end
with white space: the key is set to the unquoted value. -/
theorem settingsLine_keyval (H : Helpers) (grub : Grub2) (k val : Str) (b : Char)
    (hk : KeyOK k) (hb : (k ++ '=' :: val).getLast? = some b) (hsb : isSpace b = false) :
    settingsLine H grub (dropCR (k ++ '=' :: val)) =
      some { grub with settings := grub.settings.set k (H.unquoteString val) } := by
  rw [dropCR_id _ b hb hsb]
  have htrim : trimSpace (k ++ '=' :: val) = k ++ '=' :: val :=
    trimSpace_id _ 'G' b (head?_of_keyOK hk _) hb (by decide) hsb
  unfold settingsLine
  simp only [htrim, hasPrefix_append hk.1, if_true, splitN2, dropWhile_until '=' k val hk.2.1,
    takeWhile_until '=' k val hk.2.1]
  rfl

theorem set_keys {m : Settings} {k v k' : Str} (h : k' ∈ (m.set k v).map Prod.fst) :
    k' = k ∨ k' ∈ m.map Prod.fst := by
  unfold Settings.set at h
  simp only [List.map_cons, List.mem_cons, List.mem_map, List.mem_filter] at h
  rcases h with h | ⟨p, ⟨hp, _⟩, rfl⟩
  · exact Or.inl h
  · exact Or.inr (List.mem_map.2 ⟨p, hp, rfl⟩)

theorem keyOK_takeWhile {line : Str} (hp : hasPrefix line "GRUB_".toList = true)
    (hnl : '\n' ∉ line) : KeyOK (line.takeWhile (fun c => c != '=')) := by
  refine ⟨?_, ?_, ?_⟩
  · unfold hasPrefix at hp ⊢
    rw [List.isPrefixOf_iff_prefix] at hp ⊢
    obtain ⟨t, rfl⟩ := hp
    exact ⟨t.takeWhile (fun c => c != '='), by simp [String.toList, List.takeWhile_cons]⟩
  · intro h
    have := List.mem_takeWhile_imp h
    simp at this
  · intro h
    exact hnl ((List.takeWhile_prefix _).subset h)

theorem settingsLine_keys {H : Helpers} {grub grub1 : Grub2} {text : Str}
    (h : settingsLine H grub text = some grub1) (hnl : '\n' ∉ text)
    (hok : ∀ k ∈ grub.settings.map Prod.fst, KeyOK k) :
    ∀ k ∈ grub1.settings.map Prod.fst, KeyOK k := by
  unfold settingsLine at h
  simp only [] at h
  split_ifs at h with hp
  · unfold splitN2 at h
    cases hd : List.dropWhile (fun c => c != '=') (trimSpace text) with
    | nil => simp [hd] at h
    | cons c value =>
      simp only [hd] at h
      simp only [List.getElem?_cons_zero, List.getElem?_cons_succ, Option.some.injEq] at h
      subst h
      intro k hk
      rcases set_keys hk with rfl | hk
      · exact keyOK_takeWhile hp (fun hin => hnl (mem_trimSpace hin))
      · exact hok k hk
  · injection h with h
    subst h
    exact hok

theorem settingsLoop_keys (H : Helpers) : ∀ (raws : List Str) (grub : Grub2),
    (∀ r ∈ raws, '\n' ∉ r) → (∀ k ∈ grub.settings.map Prod.fst, KeyOK k) →
    ∀ k ∈ (settingsLoop H raws grub).1.settings.map Prod.fst, KeyOK k := by
  intro raws
  induction raws with
  | nil => intro grub _ hok; exact hok
  | cons raw rest ih =>
    intro grub hnl hok
    unfold settingsLoop
    split_ifs
    · exact hok
    · cases hl : settingsLine H grub (dropCR raw) with
      | none => exact hok
      | some grub1 =>
        simp only []
        apply ih grub1 (fun r hr => hnl r (List.mem_cons_of_mem _ hr))
        exact settingsLine_keys hl
          (fun hin => hnl raw (List.mem_cons_self _ _) (mem_dropCR hin)) hok

theorem setTimeout_keys {grub : Grub2} {n : Int} {k : Str}
    (h : k ∈ (setTimeout grub n).settings.map Prod.fst) :
    k = "GRUB_TIMEOUT".toList ∨ k ∈ grub.settings.map Prod.fst := by
  unfold setTimeout at h
  split_ifs at h <;> exact set_keys h

theorem parseSettings_keys {H : Helpers} {grub : Grub2} {text : Str}
    (h : (parseSettings H grub text).2 = .nil) :
    ∀ k ∈ (parseSettings H grub text).1.settings.map Prod.fst, KeyOK k := by
  have hloop := settingsLoop_keys H (rawLines text) (clearSettings grub)
    (rawLines_no_newline text) (by intro k hk; simp [clearSettings] at hk)
  rw [parseSettings_eq h]
  intro k hk
  rcases setTimeout_keys hk with rfl | hk
  · exact ⟨by decide, by decide, by decide⟩
  · rcases set_keys hk with rfl | hk
    · exact ⟨by decide, by decide, by decide⟩
    · exact hloop k hk

theorem rawLines_flatten_lines : ∀ (xs : List Str), (∀ x ∈ xs, '\n' ∉ x) →
    rawLines ((xs.map (fun x => x ++ "\n".toList)).flatten) = xs := by
  intro xs
  induction xs with
  | nil => intro _; rfl
  | cons x xs ih =>
    intro h
    have hx := h x (List.mem_cons_self _ _)
    simp only [List.map_cons, List.flatten_cons]
    have e : x ++ "\n".toList ++ (xs.map (fun x => x ++ "\n".toList)).flatten =
        x ++ '\n' :: (xs.map (fun x => x ++ "\n".toList)).flatten := by
      simp [String.toList]
    rw [e, rawLines_append_newline _ _ hx, ih (fun y hy => h y (List.mem_cons_of_mem _ hy))]

theorem keyValLine_eq (H : Helpers) (grub : Grub2) (k : Str) :
    keyValLine H grub k = k ++ '=' :: H.quoteString (grub.settings.get k) := by
  simp [keyValLine, String.toList]

theorem savedLine_eq (H : Helpers) (grub : Grub2) (k : Str) :
    savedLine H grub k = keyValLine H grub k ++ "\n".toList := rfl

theorem get_of_lookup {m : Settings} {k v : Str} (h : List.lookup k m = some v) :
    m.get k = v := by
  unfold Settings.get
  rw [h]

theorem get_of_lookup_none {m : Settings} {k : Str} (h : List.lookup k m = none) :
    m.get k = [] := by
  unfold Settings.get
  rw [h]

theorem settingsLoop_saved (H : Helpers) (src : Grub2)
    (huq : ∀ v, H.unquoteString (H.quoteString v) = v)
    (hq : ∀ v, (H.quoteString v).getLast? = some '"') :
    ∀ (ks : List Str) (grub : Grub2),
      (∀ k ∈ ks, KeyOK k ∧ tooLong (keyValLine H src k) = false) →
      (settingsLoop H (ks.map (keyValLine H src)) grub).2 = .nil ∧
      (settingsLoop H (ks.map (keyValLine H src)) grub).1.entries = grub.entries ∧
      ∀ k', List.lookup k' (settingsLoop H (ks.map (keyValLine H src)) grub).1.settings =
        if k' ∈ ks then some (src.settings.get k') else List.lookup k' grub.settings := by
  intro ks
  induction ks with
  | nil => intro grub _; simp [settingsLoop]
  | cons k ks ih =>
    intro grub hks
    obtain ⟨hk, hfit⟩ := hks k (List.mem_cons_self _ _)
    have hlast : (k ++ '=' :: H.quoteString (src.settings.get k)).getLast? = some '"' := by
      rw [List.getLast?_append, List.getLast?_cons, hq]
      rfl
    have hline := settingsLine_keyval H grub k (H.quoteString (src.settings.get k)) '"' hk
      hlast (by decide)
    rw [huq, ← keyValLine_eq] at hline
    simp only [List.map_cons, settingsLoop, hfit, Bool.false_eq_true, if_false, hline]
    obtain ⟨a, b, c⟩ := ih { grub with settings := grub.settings.set k (src.settings.get k) }
      (fun k' hk' => hks k' (List.mem_cons_of_mem _ hk'))
    refine ⟨a, b, ?_⟩
    intro k'
    rw [c k']
    by_cases h1 : k' ∈ ks
    · simp [h1]
    · simp only [h1, if_false, lookup_set, List.mem_cons, or_false]
      by_cases h2 : k' = k
      · subst h2; simp
      · simp [h2]

theorem getDefaultEntry_congr (H : Helpers) (g g' : Grub2) (he : g.entries = g'.entries)
    (hs : g.settings.get "GRUB_DEFAULT".toList = g'.settings.get "GRUB_DEFAULT".toList) :
    getDefaultEntry H g = getDefaultEntry H g' := by
  rw [getDefaultEntry_unfold, getDefaultEntry_unfold]
  simp only [getEntryTitles, he, hs]

theorem getTimeout_congr (g g' : Grub2)
    (hs : g.settings.get "GRUB_TIMEOUT".toList = g'.settings.get "GRUB_TIMEOUT".toList) :
    getTimeout g = getTimeout g' := by
  unfold getTimeout
  rw [hs]

theorem firstSimple_mem {simple : List Str} (h : firstSimple simple ≠ []) :
    firstSimple simple ∈ simple := by
  cases simple with
  | nil => exact absurd rfl h
  | cons t ts => exact List.mem_cons_self _ _

/-- A non-empty result of `getDefaultEntry` is one of the simple titles. -/
theorem getDefaultEntry_mem_simple (H : Helpers) (grub : Grub2)
    (h : getDefaultEntry H grub ≠ []) :
    getDefaultEntry H grub ∈ H.GetSimpleEntryTitles grub.entries := by
  rw [getDefaultEntry_unfold] at h ⊢
  by_cases h1 : grub.settings.get "GRUB_DEFAULT".toList = []
  · rw [if_pos h1] at h ⊢; exact firstSimple_mem h
  · rw [if_neg h1] at h ⊢
    by_cases h2 : grub.settings.get "GRUB_DEFAULT".toList ∈ H.GetSimpleEntryTitles grub.entries
    · rw [if_pos h2]; exact h2
    · rw [if_neg h2] at h ⊢
      by_cases h3 : grub.settings.get "GRUB_DEFAULT".toList ∈ (getEntryTitles H grub).1
      · rw [if_pos h3] at h ⊢; exact firstSimple_mem h
      · rw [if_neg h3] at h ⊢
        cases hp : ParseInt (grub.settings.get "GRUB_DEFAULT".toList) with
        | none => rw [hp] at h; simp only [] at h ⊢; exact firstSimple_mem h
        | some i =>
          rw [hp] at h
          simp only [] at h ⊢
          by_cases h4 : 0 ≤ i ∧ i.toNat < (H.GetSimpleEntryTitles grub.entries).length
          · rw [if_pos h4] at h ⊢
            rw [List.getElem?_eq_getElem h4.2]
            exact List.getElem_mem _
          · rw [if_neg h4] at h ⊢; exact firstSimple_mem h

theorem getTimeout_range (grub : Grub2) :
    -2147483648 ≤ getTimeout grub ∧ getTimeout grub < 2147483648 := by
  unfold getTimeout
  split_ifs
  · decide
  · split
    · decide
    · rename_i t ht; exact ParseInt_range ht

theorem getTimeout_FormatInt (grub : Grub2) (t : Int) (h1 : -2147483648 ≤ t)
    (h2 : t < 2147483648) (h : grub.settings.get "GRUB_TIMEOUT".toList = FormatInt t) :
    getTimeout grub = t := by
  unfold getTimeout
  rw [h, if_neg (fun hb => FormatInt_ne_nil t ((byteLen_eq_zero_iff _).1 hb)),
    ParseInt_FormatInt t h1 h2]

/-- What the settings map holds after a successful `parseSettings`. -/
theorem parseSettings_get {H : Helpers} {grub : Grub2} {text : Str}
    (h : (parseSettings H grub text).2 = .nil) (k : Str) :
    (parseSettings H grub text).1.settings.get k =
      if k = "GRUB_TIMEOUT".toList then
        (if getTimeout (settingsLoop H (rawLines text) (clearSettings grub)).1 = -2 then []
          else FormatInt (getTimeout (settingsLoop H (rawLines text) (clearSettings grub)).1))
      else if k = "GRUB_DEFAULT".toList then
        getDefaultEntry H (settingsLoop H (rawLines text) (clearSettings grub)).1
      else (settingsLoop H (rawLines text) (clearSettings grub)).1.settings.get k := by
  rw [parseSettings_eq h]
  by_cases h1 : k = "GRUB_TIMEOUT".toList
  · rw [if_pos h1]
    apply get_of_lookup
    rw [setTimeout_lookup, if_pos h1]
    rfl
  · rw [if_neg h1]
    unfold Settings.get
    rw [setTimeout_lookup, if_neg h1]
    by_cases h2 : k = "GRUB_DEFAULT".toList
    · rw [if_pos h2]
      simp [setDefaultEntry, lookup_set, h2]
    · rw [if_neg h2]
      simp only [setDefaultEntry, lookup_set]
      rw [if_neg h2]

theorem parseSettings_nil_of_loop {H : Helpers} {grub : Grub2} {text : Str}
    (h : (settingsLoop H (rawLines text) (clearSettings grub)).2 = .nil) :
    (parseSettings H grub text).2 = .nil := by
  unfold parseSettings
  rcases hr : settingsLoop H (rawLines text) (clearSettings grub) with ⟨g1, r⟩
  rw [hr] at h
  simp only at h
  subst h
  rfl

theorem mem_savedKeys {grub : Grub2} {order : List Str}
    (ho : IsRangeOrder order grub.settings) (k : Str) :
    k ∈ savedKeys grub order ↔ grub.settings.get k ≠ [] := by
  simp only [savedKeys, List.mem_filter, decide_eq_true_eq]
  constructor
  · exact fun h => h.2
  · intro h
    refine ⟨?_, h⟩
    rw [ho.2 k, lookup_isSome_iff]
    cases hl : List.lookup k grub.settings with
    | none => exact absurd (get_of_lookup_none hl) h
    | some v => rfl

/-- C20, amended. Let `parseSettings` return nil on a defaults text, with
mapping `M`, and let the text written by `getSettingContentToSave` from `M` (in
any order of the keys) have lines that fit the buffer of the line scanner.
Assume that `unquoteString` undoes `quoteString`, that a quoted value ends with
a double quote and that no quoted value of `M` holds a line feed.  Then parsing
the written text with the same entry collection returns nil and gives a mapping
`M'` with `M'[k] = M[k]` for every key `k` whose value in `M` is not empty,
`GRUB_DEFAULT` and `GRUB_TIMEOUT` included. -/
theorem parseSettings_roundtrip (H : Helpers) (grub : Grub2) (text : Str) (order : List Str)
    (h : (parseSettings H grub text).2 = .nil)
    (ho : IsRangeOrder order (parseSettings H grub text).1.settings)
    (huq : ∀ v, H.unquoteString (H.quoteString v) = v)
    (hq : ∀ v, (H.quoteString v).getLast? = some '"')
    (hnl : ∀ k ∈ savedKeys (parseSettings H grub text).1 order,
      '\n' ∉ H.quoteString ((parseSettings H grub text).1.settings.get k))
    (hfit : ∀ k ∈ savedKeys (parseSettings H grub text).1 order,
      tooLong (keyValLine H (parseSettings H grub text).1 k) = false) :
    (parseSettings H (parseSettings H grub text).1
      (getSettingContentToSave H (parseSettings H grub text).1 order)).2 = .nil ∧
    (parseSettings H (parseSettings H grub text).1
      (getSettingContentToSave H (parseSettings H grub text).1 order)).1.entries =
        grub.entries ∧
    ∀ k, (parseSettings H grub text).1.settings.get k ≠ [] →
      (parseSettings H (parseSettings H grub text).1
        (getSettingContentToSave H (parseSettings H grub text).1 order)).1.settings.get k =
      (parseSettings H grub text).1.settings.get k := by
  have hget1 := parseSettings_get h
  have hent1 : (parseSettings H grub text).1.entries = grub.entries := by
    rw [parseSettings_eq h, (setTimeout_frame _ _).1]
    exact (settingsLoop_frame H (rawLines text) (clearSettings grub)).1
  have hkeys := parseSettings_keys h
  generalize (parseSettings H grub text).1 = g1 at *
  have hsk : ∀ k ∈ savedKeys g1 order, KeyOK k := by
    intro k hk
    apply hkeys
    rw [← ho.2 k]
    exact (List.mem_filter.1 hk).1
  -- the lines of the serialised text
  have hraw : rawLines (getSettingContentToSave H g1 order) =
      (savedKeys g1 order).map (keyValLine H g1) := by
    rw [getSettingContentToSave_eq]
    have : (savedKeys g1 order).map (savedLine H g1) =
        ((savedKeys g1 order).map (keyValLine H g1)).map (fun x => x ++ "\n".toList) := by
      rw [List.map_map]; rfl
    rw [this, rawLines_flatten_lines]
    intro x hx
    obtain ⟨k, hk, rfl⟩ := List.mem_map.1 hx
    rw [keyValLine_eq]
    intro hin
    rcases List.mem_append.1 hin with hin | hin
    · exact (hsk k hk).2.2 hin
    · rcases List.mem_cons.1 hin with hin | hin
      · revert hin; decide
      · exact hnl k hk hin
  obtain ⟨hnil2, hent2, hlook2⟩ := settingsLoop_saved H g1 huq hq (savedKeys g1 order)
    (clearSettings g1) (fun k hk => ⟨hsk k hk, hfit k hk⟩)
  rw [← hraw] at hnil2 hent2 hlook2
  have h2 := parseSettings_nil_of_loop hnil2
  have hfresh : ∀ k, (settingsLoop H (rawLines (getSettingContentToSave H g1 order))
      (clearSettings g1)).1.settings.get k = g1.settings.get k := by
    intro k
    by_cases hk : k ∈ savedKeys g1 order
    · apply get_of_lookup
      rw [hlook2, if_pos hk]
    · have : g1.settings.get k = [] := by
        by_contra hne
        exact hk ((mem_savedKeys ho k).2 hne)
      rw [this]
      apply get_of_lookup_none
      rw [hlook2, if_neg hk]
      rfl
  have hent2' : (parseSettings H g1 (getSettingContentToSave H g1 order)).1.entries =
      grub.entries := by
    rw [parseSettings_eq h2, (setTimeout_frame _ _).1]
    exact hent2.trans (by simpa [clearSettings] using hent1)
  refine ⟨h2, hent2', ?_⟩
  intro k hne
  rw [parseSettings_get h2 k]
  have hg1e : (settingsLoop H (rawLines (getSettingContentToSave H g1 order))
      (clearSettings g1)).1.entries = g1.entries := hent2
  have hf1 := settingsLoop_frame H (rawLines text) (clearSettings grub)
  by_cases hk1 : k = "GRUB_TIMEOUT".toList
  · rw [if_pos hk1]
    subst hk1
    have hv := hget1 "GRUB_TIMEOUT".toList
    rw [if_pos rfl] at hv
    have hrange := getTimeout_range (settingsLoop H (rawLines text) (clearSettings grub)).1
    split_ifs at hv with ht
    · exact absurd hv hne
    · have ht2 := getTimeout_FormatInt _ _ hrange.1 hrange.2
        ((hfresh "GRUB_TIMEOUT".toList).trans hv)
      rw [ht2, if_neg ht, hv]
  · rw [if_neg hk1]
    by_cases hk2 : k = "GRUB_DEFAULT".toList
    · rw [if_pos hk2]
      subst hk2
      have hv := hget1 "GRUB_DEFAULT".toList
      rw [if_neg (by decide), if_pos rfl] at hv
      have hD : getDefaultEntry H (settingsLoop H (rawLines text) (clearSettings grub)).1 ≠
          [] := by rw [← hv]; exact hne
      have hmem := getDefaultEntry_mem_simple H _ hD
      rw [hf1.1] at hmem
      have hmem' : g1.settings.get "GRUB_DEFAULT".toList ∈
          H.GetSimpleEntryTitles (settingsLoop H (rawLines (getSettingContentToSave H g1 order))
            (clearSettings g1)).1.entries := by
        rw [hg1e, hent1, hv]; exact hmem
      rw [getDefaultEntry_unfold, hfresh, if_neg hne, if_pos hmem']
    · rw [if_neg hk2]
      exact hfresh k

theorem byteLen_append (a b : Str) : byteLen (a ++ b) = byteLen a + byteLen b := by
  simp [byteLen]

theorem byteLen_cons (c : Char) (s : Str) : byteLen (c :: s) = c.utf8Size + byteLen s := by
  simp [byteLen]

theorem rawLines_single : ∀ (s : Str), s ≠ [] → '\n' ∉ s → rawLines s = [s] := by
  intro s
  induction s with
  | nil => intro h; exact absurd rfl h
  | cons c cs ih =>
    intro _ hnl
    have hc : c ≠ '\n' := fun h => hnl (by simp [h])
    have hcs : '\n' ∉ cs := fun h => hnl (List.mem_cons_of_mem _ h)
    rw [rawLines, if_neg hc]
    cases cs with
    | nil => rfl
    | cons d ds => rw [ih (by simp) hcs]

theorem sample_unquote_quote (v : Str) :
    Helpers.sample.unquoteString (Helpers.sample.quoteString v) = v := by
  show sampleUnquote ('"' :: (v ++ ['"'])) = v
  simp [sampleUnquote]

theorem sample_quote_last (v : Str) :
    (Helpers.sample.quoteString v).getLast? = some '"' := by
  show ('"' :: (v ++ ['"'])).getLast? = some '"'
  rw [← List.cons_append, List.getLast?_append]
  rfl

/-- The first parse of a one-line text `GRUB_X=` followed by a run of `x`. -/
theorem parseSettings_long_first (R : Str) (hR : R ≠ []) (hx : ∀ c ∈ R, c = 'x')
    (h1 : byteLen R + 7 < 65536) :
    parseSettings Helpers.sample Grub2.empty ("GRUB_X=".toList ++ R) =
      ({ entries := [], DefaultEntry := [], Timeout := -2,
         settings := [("GRUB_TIMEOUT".toList, []), ("GRUB_DEFAULT".toList, []),
           ("GRUB_X".toList, R)] }, .nil) := by
  have hnl : '\n' ∉ R := fun h => by have := hx _ h; revert this; decide
  have hform : "GRUB_X=".toList ++ R = "GRUB_X".toList ++ '=' :: R := rfl
  have hlastR : R.getLast? = some 'x' := by
    obtain ⟨t, c, rfl⟩ := (List.eq_nil_or_concat R).resolve_left hR
    have := hx c (by simp)
    subst this
    simp
  have hlast : ("GRUB_X".toList ++ '=' :: R).getLast? = some 'x' := by
    rw [List.getLast?_append, List.getLast?_cons, hlastR]; rfl
  have hraw : rawLines ("GRUB_X".toList ++ '=' :: R) = ["GRUB_X".toList ++ '=' :: R] := by
    apply rawLines_single
    · simp [String.toList]
    · intro h
      rcases List.mem_append.1 h with h | h
      · revert h; decide
      · rcases List.mem_cons.1 h with h | h
        · revert h; decide
        · exact hnl h
  have hfit : tooLong ("GRUB_X".toList ++ '=' :: R) = false := by
    have e : byteLen ("GRUB_X".toList ++ '=' :: R) = byteLen R + 7 := by
      rw [byteLen_append, byteLen_cons]
      have a : byteLen "GRUB_X".toList = 6 := by decide
      have b : Char.utf8Size '=' = 1 := by decide
      omega
    simp only [tooLong, e, maxScanTokenSize, decide_eq_false_iff_not]
    omega
  have hunq : Helpers.sample.unquoteString R = R := by
    show sampleUnquote R = R
    cases R with
    | nil => rfl
    | cons c cs =>
      have := hx c (List.mem_cons_self _ _)
      subst this
      simp [sampleUnquote]
  have hline := settingsLine_keyval Helpers.sample (clearSettings Grub2.empty) "GRUB_X".toList R
    'x' ⟨by decide, by decide, by decide⟩ hlast (by decide)
  rw [hunq] at hline
  have hloop : settingsLoop Helpers.sample (rawLines ("GRUB_X=".toList ++ R))
      (clearSettings Grub2.empty) =
      ({ entries := [], DefaultEntry := [], Timeout := 0,
         settings := [("GRUB_X".toList, R)] }, .nil) := by
    rw [hform, hraw]
    simp only [settingsLoop, hfit, Bool.false_eq_true, if_false, hline]
    rfl
  unfold parseSettings
  rw [hloop]
  rfl

/-- The second parse, of the text written back from the result of the first. -/
theorem parseSettings_long_second (R : Str) (hR : R ≠ []) (hx : ∀ c ∈ R, c = 'x')
    (h2 : 65536 ≤ byteLen R + 9) (grub : Grub2)
    (hs : grub.settings = [("GRUB_TIMEOUT".toList, []), ("GRUB_DEFAULT".toList, []),
           ("GRUB_X".toList, R)]) :
    parseSettings Helpers.sample grub
        (getSettingContentToSave Helpers.sample grub orderLongValue) =
      (clearSettings grub, .error .errTooLong) := by
  have hnl : '\n' ∉ R := fun h => by have := hx _ h; revert this; decide
  have hgetX : grub.settings.get "GRUB_X".toList = R := by
    rw [hs]; rfl
  have hsaved : savedKeys grub orderLongValue = ["GRUB_X".toList] := by
    have a : grub.settings.get "GRUB_TIMEOUT".toList = [] := by rw [hs]; rfl
    have b : grub.settings.get "GRUB_DEFAULT".toList = [] := by rw [hs]; rfl
    unfold savedKeys orderLongValue
    rw [List.filter_cons_of_neg (by rw [a]; decide),
      List.filter_cons_of_neg (by rw [b]; decide),
      List.filter_cons_of_pos (by rw [hgetX]; exact decide_eq_true hR), List.filter_nil]
  have hkv : keyValLine Helpers.sample grub "GRUB_X".toList =
      "GRUB_X".toList ++ '=' :: '"' :: (R ++ ['"']) := by
    rw [keyValLine_eq, hgetX]; rfl
  have hraw : rawLines (getSettingContentToSave Helpers.sample grub orderLongValue) =
      ["GRUB_X".toList ++ '=' :: '"' :: (R ++ ['"'])] := by
    rw [getSettingContentToSave_eq, hsaved]
    have : ["GRUB_X".toList].map (savedLine Helpers.sample grub) =
        ["GRUB_X".toList ++ '=' :: '"' :: (R ++ ['"'])].map (fun x => x ++ "\n".toList) := by
      simp only [List.map_cons, List.map_nil, savedLine_eq, hkv]
    rw [this, rawLines_flatten_lines]
    intro x hx'
    simp only [List.mem_singleton] at hx'
    subst hx'
    intro h
    rcases List.mem_append.1 h with h | h
    · revert h; decide
    · simp only [List.mem_cons, List.mem_append, List.mem_singleton] at h
      rcases h with h | h | h | h
      · revert h; decide
      · revert h; decide
      · exact hnl h
      · rcases h with h | h
        · revert h; decide
        · cases h
  have hlong : tooLong ("GRUB_X".toList ++ '=' :: '"' :: (R ++ ['"'])) = true := by
    have e : byteLen ("GRUB_X".toList ++ '=' :: '"' :: (R ++ ['"'])) = byteLen R + 9 := by
      rw [byteLen_append, byteLen_cons, byteLen_cons, byteLen_append]
      have a : byteLen "GRUB_X".toList = 6 := by decide
      have b : Char.utf8Size '=' = 1 := by decide
      have c : Char.utf8Size '"' = 1 := by decide
      have d : byteLen ['"'] = 1 := by decide
      omega
    simp only [tooLong, e, maxScanTokenSize, decide_eq_true_eq]
    omega
  unfold parseSettings
  rw [hraw]
  simp only [settingsLoop, hlong, if_true]

theorem roundtrip_long (R : Str) (hR : R ≠ []) (hx : ∀ c ∈ R, c = 'x')
    (h1 : byteLen R + 7 < 65536) (h2 : 65536 ≤ byteLen R + 9) :
    RoundTripFails ("GRUB_X=".toList ++ R) := by
  unfold RoundTripFails
  rw [parseSettings_long_first R hR hx h1]
  rw [parseSettings_long_second R hR hx h2 _ rfl]
  refine ⟨rfl, ⟨by decide, fun k => Iff.rfl⟩, hR, rfl, ?_⟩
  intro h
  exact hR h.symm

theorem roundTripFails_long : RoundTripFails defaultsLongValue := by
  have hb : byteLen (List.replicate 65528 'x') = 65528 := byteLen_replicate 65528
  have hR : List.replicate 65528 'x' ≠ [] := by
    intro h
    have := congrArg byteLen h
    rw [hb] at this
    exact absurd this (by decide)
  have hx : ∀ c ∈ List.replicate 65528 'x', c = 'x' := fun c hc => List.eq_of_mem_replicate hc
  have h1 : byteLen (List.replicate 65528 'x') + 7 < 65536 := by rw [hb]; decide
  have h2 : 65536 ≤ byteLen (List.replicate 65528 'x') + 9 := by rw [hb]; decide
  have key := roundtrip_long (List.replicate 65528 'x') hR hx h1 h2
  have e : defaultsLongValue = "GRUB_X=".toList ++ List.replicate 65528 'x' := rfl
  rw [e]
  exact key

/-- C20, counterexample. The defaults text of one line `GRUB_X=` followed by
65528 letters `x` (65535 bytes) is parsed successfully, with a non-empty value
under `GRUB_X`; the text written back holds that value between quotes on a line
of 65537 bytes, so parsing it ends with the scanner error `ErrTooLong` and the
mapping it leaves does not hold the value of `GRUB_X` any more. -/
theorem roundtrip_long_line_counterexample :
    (parseSettings Helpers.sample Grub2.empty defaultsLongValue).2 = .nil ∧
    IsRangeOrder orderLongValue
      (parseSettings Helpers.sample Grub2.empty defaultsLongValue).1.settings ∧
    (parseSettings Helpers.sample Grub2.empty defaultsLongValue).1.settings.get
        "GRUB_X".toList ≠ [] ∧
    (parseSettings Helpers.sample
        (parseSettings Helpers.sample Grub2.empty defaultsLongValue).1
        (getSettingContentToSave Helpers.sample
          (parseSettings Helpers.sample Grub2.empty defaultsLongValue).1
          orderLongValue)).2 = .error .errTooLong ∧
    (parseSettings Helpers.sample
        (parseSettings Helpers.sample Grub2.empty defaultsLongValue).1
        (getSettingContentToSave Helpers.sample
          (parseSettings Helpers.sample Grub2.empty defaultsLongValue).1
          orderLongValue)).1.settings.get "GRUB_X".toList ≠
      (parseSettings Helpers.sample Grub2.empty defaultsLongValue).1.settings.get
        "GRUB_X".toList :=
  roundTripFails_long

theorem parseSettings_roundtrip_witness :
    (parseSettings Helpers.sample grubOneEntry defaultsRoundTrip).2 = .nil ∧
    (parseSettings Helpers.sample
        (parseSettings Helpers.sample grubOneEntry defaultsRoundTrip).1
        (getSettingContentToSave Helpers.sample
          (parseSettings Helpers.sample grubOneEntry defaultsRoundTrip).1
          orderRoundTrip)).2 = .nil :=
  have ho : IsRangeOrder orderRoundTrip
      (parseSettings Helpers.sample grubOneEntry defaultsRoundTrip).1.settings := by
    refine ⟨by decide, ?_⟩
    intro k
    have e : (parseSettings Helpers.sample grubOneEntry defaultsRoundTrip).1.settings.map
        Prod.fst = ["GRUB_TIMEOUT".toList, "GRUB_DEFAULT".toList, "GRUB_GFXMODE".toList] := by
      decide
    rw [e]
    simp only [orderRoundTrip, List.mem_cons, List.mem_singleton, List.not_mem_nil, or_false]
    tauto
  ⟨by decide,
    (parseSettings_roundtrip Helpers.sample grubOneEntry defaultsRoundTrip orderRoundTrip
      (by decide) ho sample_unquote_quote sample_quote_last (by decide) (by decide)).1⟩

/-- C21. Each of `setDefaultEntry`, `setTimeout`, `setGfxmode` and `setTheme`
leaves the entry collection, the `DefaultEntry` and `Timeout` properties and
the value under every key other than its own (`GRUB_DEFAULT`, `GRUB_TIMEOUT`,
`GRUB_GFXMODE`, `GRUB_THEME`) as they were, for every state and argument;
after `setDefaultEntry`, `setGfxmode` and `setTheme` the value under the own
key is the argument itself. -/
theorem setters_frame (grub : Grub2) (title gfxmode themeFile : Str) (timeout : Int) :
    ((setDefaultEntry grub title).entries = grub.entries ∧
      (setDefaultEntry grub title).DefaultEntry = grub.DefaultEntry ∧
      (setDefaultEntry grub title).Timeout = grub.Timeout ∧
      List.lookup "GRUB_DEFAULT".toList (setDefaultEntry grub title).settings = some title ∧
      ∀ k, k ≠ "GRUB_DEFAULT".toList →
        List.lookup k (setDefaultEntry grub title).settings = List.lookup k grub.settings) ∧
    ((setTimeout grub timeout).entries = grub.entries ∧
      (setTimeout grub timeout).DefaultEntry = grub.DefaultEntry ∧
      (setTimeout grub timeout).Timeout = grub.Timeout ∧
      ∀ k, k ≠ "GRUB_TIMEOUT".toList →
        List.lookup k (setTimeout grub timeout).settings = List.lookup k grub.settings) ∧
    ((setGfxmode grub gfxmode).entries = grub.entries ∧
      (setGfxmode grub gfxmode).DefaultEntry = grub.DefaultEntry ∧
      (setGfxmode grub gfxmode).Timeout = grub.Timeout ∧
      List.lookup "GRUB_GFXMODE".toList (setGfxmode grub gfxmode).settings = some gfxmode ∧
      ∀ k, k ≠ "GRUB_GFXMODE".toList →
        List.lookup k (setGfxmode grub gfxmode).settings = List.lookup k grub.settings) ∧
    ((setTheme grub themeFile).entries = grub.entries ∧
      (setTheme grub themeFile).DefaultEntry = grub.DefaultEntry ∧
      (setTheme grub themeFile).Timeout = grub.Timeout ∧
      List.lookup "GRUB_THEME".toList (setTheme grub themeFile).settings = some themeFile ∧
      ∀ k, k ≠ "GRUB_THEME".toList →
        List.lookup k (setTheme grub themeFile).settings = List.lookup k grub.settings) := by
  refine ⟨⟨rfl, rfl, rfl, ?_, ?_⟩, ⟨(setTimeout_frame _ _).1, (setTimeout_frame _ _).2.1,
    (setTimeout_frame _ _).2.2, ?_⟩, ⟨rfl, rfl, rfl, ?_, ?_⟩, ⟨rfl, rfl, rfl, ?_, ?_⟩⟩
  · simp only [setDefaultEntry, lookup_set, if_true]
  · intro k hk; simp only [setDefaultEntry, lookup_set, if_neg hk]
  · intro k hk; rw [setTimeout_lookup, if_neg hk]
  · simp only [setGfxmode, lookup_set, if_true]
  · intro k hk; simp only [setGfxmode, lookup_set, if_neg hk]
  · simp only [setTheme, lookup_set, if_true]
  · intro k hk; simp only [setTheme, lookup_set, if_neg hk]

theorem setters_frame_witness :
    List.lookup "GRUB_THEME".toList (setDefaultEntry grubWithSettings "Other".toList).settings =
      List.lookup "GRUB_THEME".toList grubWithSettings.settings :=
  (setters_frame grubWithSettings "Other".toList [] [] 0).1.2.2.2.2 "GRUB_THEME".toList
    (by decide)

/-- C22. `getGfxmode` returns `auto` when `GRUB_GFXMODE` is absent from the
settings or its value is empty, and the stored value unchanged otherwise; after
`setGfxmode` with a non-empty `m` it returns `m`. -/
theorem getGfxmode_default (grub : Grub2) (m : Str) :
    (List.lookup "GRUB_GFXMODE".toList grub.settings = none → getGfxmode grub = "auto".toList) ∧
    (grub.settings.get "GRUB_GFXMODE".toList = [] → getGfxmode grub = "auto".toList) ∧
    (grub.settings.get "GRUB_GFXMODE".toList ≠ [] →
      getGfxmode grub = grub.settings.get "GRUB_GFXMODE".toList) ∧
    (m ≠ [] → getGfxmode (setGfxmode grub m) = m) := by
  have hempty : grub.settings.get "GRUB_GFXMODE".toList = [] →
      getGfxmode grub = "auto".toList := by
    intro h
    unfold getGfxmode
    rw [if_pos ((byteLen_eq_zero_iff _).2 h)]
  refine ⟨fun h => hempty (get_of_lookup_none h), hempty, ?_, ?_⟩
  · intro h
    unfold getGfxmode
    rw [if_neg (fun hb => h ((byteLen_eq_zero_iff _).1 hb))]
  · intro h
    have hg : (setGfxmode grub m).settings.get "GRUB_GFXMODE".toList = m := by
      apply get_of_lookup
      simp only [setGfxmode, lookup_set, if_true]
    unfold getGfxmode
    rw [hg, if_neg (fun hb => h ((byteLen_eq_zero_iff _).1 hb))]

theorem getGfxmode_default_witness :
    getGfxmode (setGfxmode grubWithSettings "1024x768".toList) = "1024x768".toList :=
  (getGfxmode_default grubWithSettings "1024x768".toList).2.2.2 (by decide)

/-- C23. A call of `getDefaultEntry` leaves the state as it was, a second call
right after the first returns the same string and again leaves the state as it
was, and two states with the same entry collection and the same settings map
give the same string, whatever their other fields. -/
theorem getDefaultEntry_pure (H : Helpers) (grub grub' : Grub2) :
    (getDefaultEntryCall H grub).1 = grub ∧
    (getDefaultEntryCall H (getDefaultEntryCall H grub).1).2 = (getDefaultEntryCall H grub).2 ∧
    (getDefaultEntryCall H (getDefaultEntryCall H grub).1).1 = grub ∧
    (grub.entries = grub'.entries → grub.settings = grub'.settings →
      getDefaultEntry H grub = getDefaultEntry H grub') := by
  refine ⟨rfl, rfl, rfl, ?_⟩
  intro he hs
  exact getDefaultEntry_congr H grub grub' he (by rw [hs])

theorem getDefaultEntry_pure_witness :
    getDefaultEntry Helpers.sample grubWithSettings =
      getDefaultEntry Helpers.sample { grubWithSettings with DefaultEntry := [], Timeout := 3 } :=
  (getDefaultEntry_pure Helpers.sample grubWithSettings
    { grubWithSettings with DefaultEntry := [], Timeout := 3 }).2.2.2 rfl rfl

/-- C28. For every state and every 32-bit integer `n`, negative values and the
sentinel `-2` included, `getTimeout` evaluated after `setTimeout n` returns
`n`. -/
theorem getTimeout_setTimeout (grub : Grub2) (n : Int)
    (h1 : -2147483648 ≤ n) (h2 : n < 2147483648) :
    getTimeout (setTimeout grub n) = n := by
  by_cases hn : n = -2
  · subst hn
    have hg : (setTimeout grub (-2)).settings.get "GRUB_TIMEOUT".toList = [] := by
      apply get_of_lookup
      rw [setTimeout_lookup, if_pos rfl]
      rfl
    unfold getTimeout
    rw [if_pos ((byteLen_eq_zero_iff _).2 hg)]
    rfl
  · apply getTimeout_FormatInt _ _ h1 h2
    apply get_of_lookup
    rw [setTimeout_lookup, if_pos rfl]
    have : ¬ n = _GRUB_TIMEOUT_DISABLE := hn
    rw [if_neg this]

theorem getTimeout_setTimeout_witness :
    getTimeout (setTimeout grubWithSettings (-1)) = -1 :=
  getTimeout_setTimeout grubWithSettings (-1) (by decide) (by decide)

/-- C29. For every entry collection and settings map, the string returned by
`getDefaultEntry` is one of the simple titles when there is at least one, and
is the empty string when there is none. -/
theorem getDefaultEntry_selectable (H : Helpers) (grub : Grub2) :
    (H.GetSimpleEntryTitles grub.entries ≠ [] →
      getDefaultEntry H grub ∈ H.GetSimpleEntryTitles grub.entries) ∧
    (H.GetSimpleEntryTitles grub.entries = [] → getDefaultEntry H grub = []) := by
  constructor
  · intro hne
    by_cases hd : getDefaultEntry H grub = []
    · -- the empty string is returned only as a simple title
      rw [getDefaultEntry_unfold] at hd ⊢
      have hfirst : firstSimple (H.GetSimpleEntryTitles grub.entries) ∈
          H.GetSimpleEntryTitles grub.entries := by
        cases hs : H.GetSimpleEntryTitles grub.entries with
        | nil => exact absurd hs hne
        | cons t ts => exact List.mem_cons_self _ _
      by_cases c1 : grub.settings.get "GRUB_DEFAULT".toList = []
      · rw [if_pos c1]; exact hfirst
      · rw [if_neg c1]
        by_cases c2 : grub.settings.get "GRUB_DEFAULT".toList ∈
            H.GetSimpleEntryTitles grub.entries
        · rw [if_pos c2]; exact c2
        · rw [if_neg c2]
          by_cases c3 : grub.settings.get "GRUB_DEFAULT".toList ∈ (getEntryTitles H grub).1
          · rw [if_pos c3]; exact hfirst
          · rw [if_neg c3]
            cases hp : ParseInt (grub.settings.get "GRUB_DEFAULT".toList) with
            | none => exact hfirst
            | some i =>
              simp only []
              by_cases c4 : 0 ≤ i ∧ i.toNat < (H.GetSimpleEntryTitles grub.entries).length
              · rw [if_pos c4, List.getElem?_eq_getElem c4.2]
                exact List.getElem_mem _
              · rw [if_neg c4]; exact hfirst
    · exact getDefaultEntry_mem_simple H grub hd
  · intro hs
    by_contra hd
    have := getDefaultEntry_mem_simple H grub hd
    rw [hs] at this
    cases this

theorem getDefaultEntry_selectable_witness :
    getDefaultEntry Helpers.sample grubNestedDefault ∈
      Helpers.sample.GetSimpleEntryTitles grubNestedDefault.entries :=
  (getDefaultEntry_selectable Helpers.sample grubNestedDefault).1 (by decide)

/-- C24, the code at the failing input. The menu `menuEmptyTitle` parses into
two top-level menu entries, titled `A` and the empty string; on the defaults
text `GRUB_DEFAULT=1`, `parseSettings` returns normally and its
`DefaultEntry` property is the empty title of the entry at index 1, which it
writes back under `GRUB_DEFAULT`; `getDefaultEntry` evaluated on the resulting
state reads that empty value as unset and returns `A`, not the `DefaultEntry`
property. -/
theorem parseSettings_empty_title_diverges :
    (parseEntries Grub2.empty menuEmptyTitle).2 = .nil ∧
    (parseEntries Grub2.empty menuEmptyTitle).1.entries =
      [⟨MENUENTRY, "A".toList, 0, none⟩, ⟨MENUENTRY, [], 1, none⟩] ∧
    (parseSettings Helpers.sample (parseEntries Grub2.empty menuEmptyTitle).1
      defaultsIndexOne).2 = .nil ∧
    (parseSettings Helpers.sample (parseEntries Grub2.empty menuEmptyTitle).1
      defaultsIndexOne).1.DefaultEntry = [] ∧
    getDefaultEntry Helpers.sample
      (parseSettings Helpers.sample (parseEntries Grub2.empty menuEmptyTitle).1
        defaultsIndexOne).1 = "A".toList := by
  decide

theorem stackOK_init (grub : Grub2) : StackOK (Scan.init grub) := ⟨rfl, rfl⟩

theorem head?_dropLast {α : Type} (l : List α) (h : 2 ≤ l.length) :
    l.dropLast.head? = l.head? := by
  match l, h with
  | a :: b :: t, _ => simp [List.dropLast]

theorem head?_append_of_ne {α : Type} (l m : List α) (h : l ≠ []) :
    (l ++ m).head? = l.head? := by
  cases l with
  | nil => exact absurd rfl h
  | cons a t => rfl

theorem stackOK_scanLine {s : Scan} (h : StackOK s) (text : Str) :
    (scanLine s text).2 ≠ some .panic ∧ StackOK (scanLine s text).1 := by
  have hne : s.parentMenus ≠ [] := by
    intro he
    have := h.1
    rw [he] at this
    simp at this
  rcases scanLine_cases s text with c | c | c | c | c | c | c
  · obtain ⟨_, _, e, _, he⟩ := c
    rw [he]
    exact ⟨by simp, h⟩
  · have := c.2.2.2.1
    rw [List.getLast?_eq_none_iff] at this
    exact absurd this hne
  · obtain ⟨_, _, _, parent, _, he⟩ := c
    rw [he]
    refine ⟨by simp, ?_⟩
    cases kindOf (trimSpace text) with
    | MENUENTRY => exact h
    | SUBMENU =>
      refine ⟨?_, ?_⟩
      · show (s.parentMenus ++ [some s.grub.entries.length]).length = s.level + 1 + 1
        simp [h.1]
      · show (s.parentMenus ++ [some s.grub.entries.length]).head? = some none
        rw [head?_append_of_ne _ _ hne]
        exact h.2
  · rw [c.2.2.2]
    exact ⟨by simp, h⟩
  · exact absurd c.2.2.2.2.1 hne
  · obtain ⟨_, _, _, hl, _, he⟩ := c
    rw [he]
    refine ⟨by simp, ?_, ?_⟩
    · show s.parentMenus.dropLast.length = s.level - 1 + 1
      rw [List.length_dropLast, h.1]
      omega
    · show s.parentMenus.dropLast.head? = some none
      rw [head?_dropLast _ (by rw [h.1]; omega)]
      exact h.2
  · rw [c.2.2]
    exact ⟨by simp, h⟩

theorem stackOK_scanLoop : ∀ (raws : List Str) (s : Scan), StackOK s →
    (scanLoop raws s).2 ≠ .panic ∧ StackOK (scanLoop raws s).1 := by
  intro raws
  induction raws with
  | nil => intro s h; exact ⟨by simp [scanLoop], h⟩
  | cons raw rest ih =>
    intro s h
    cases hfit : tooLong raw with
    | true =>
      rw [scanLoop_cons_tooLong hfit]
      exact ⟨by simp, h⟩
    | false =>
      obtain ⟨hp, hs⟩ := stackOK_scanLine h (dropCR raw)
      rcases hsl : scanLine s (dropCR raw) with ⟨s1, _ | r⟩
      · rw [scanLoop_cons_good hfit hsl]
        rw [hsl] at hs
        exact ih s1 hs
      · rw [scanLoop_cons_stop hfit hsl]
        rw [hsl] at hp hs
        refine ⟨?_, hs⟩
        intro hr
        simp only at hr
        subst hr
        exact hp rfl

/-- C30. For every menu text, `parseEntries` ends without a failed access, and
after any number `k` of lines the scan has not failed either, the parent stack
has `level + 1` elements, its bottom element is `nil` and it has a top
element. The level is a natural number, so it is never negative; a closing
brace that would lower it below zero is covered by the guard `level > 0`. -/
theorem parseEntries_never_panics (grub : Grub2) (text : Str) :
    (parseEntries grub text).2 ≠ .panic ∧
    ∀ k : Nat,
      (scanLoop ((rawLines text).take k) (Scan.init grub)).2 ≠ .panic ∧
      (scanLoop ((rawLines text).take k) (Scan.init grub)).1.parentMenus.length =
        (scanLoop ((rawLines text).take k) (Scan.init grub)).1.level + 1 ∧
      (scanLoop ((rawLines text).take k) (Scan.init grub)).1.parentMenus.head? = some none ∧
      (scanLoop ((rawLines text).take k) (Scan.init grub)).1.parentMenus.getLast? ≠ none :=
  ⟨(stackOK_scanLoop (rawLines text) (Scan.init grub) (stackOK_init grub)).1,
    fun k =>
      have h := stackOK_scanLoop ((rawLines text).take k) (Scan.init grub) (stackOK_init grub)
      ⟨h.1, h.2.1, h.2.2, by
        intro hl
        rw [List.getLast?_eq_none_iff] at hl
        have := h.2.1
        rw [hl] at this
        simp at this⟩⟩

theorem rawLines_ne_nil : ∀ (t : Str), t ≠ [] → rawLines t ≠ [] := by
  intro t ht
  cases t with
  | nil => exact absurd rfl ht
  | cons c cs =>
    rw [rawLines]
    split_ifs
    · simp
    · cases rawLines cs <;> simp

theorem rawLines_append_lines : ∀ (a b : Str), (a = [] ∨ a.getLast? = some '\n') →
    rawLines (a ++ b) = rawLines a ++ rawLines b := by
  intro a
  induction a with
  | nil => intro b _; rfl
  | cons c cs ih =>
    intro b h
    have hlast : (c :: cs).getLast? = some '\n' := by
      rcases h with h | h
      · cases h
      · exact h
    by_cases hcs : cs = []
    · subst hcs
      simp only [List.getLast?_singleton, Option.some.injEq] at hlast
      subst hlast
      simp [rawLines]
    · have hl : cs.getLast? = some '\n' := by
        cases cs with
        | nil => exact absurd rfl hcs
        | cons d ds =>
          rw [List.getLast?_cons_cons] at hlast
          exact hlast
      have e := ih b (Or.inr hl)
      have hne := rawLines_ne_nil cs hcs
      rw [List.cons_append]
      by_cases hc : c = '\n'
      · rw [rawLines, rawLines, if_pos hc, if_pos hc, e]
        rfl
      · rw [rawLines, if_neg hc, e]
        conv_rhs => rw [rawLines, if_neg hc]
        cases hr : rawLines cs with
        | nil => exact absurd hr hne
        | cons l ls => rfl

theorem scanLoop_append : ∀ (xs ys : List Str) (s s1 : Scan),
    scanLoop xs s = (s1, .nil) → scanLoop (xs ++ ys) s = scanLoop ys s1 := by
  intro xs
  induction xs with
  | nil =>
    intro ys s s1 h
    simp only [scanLoop, Prod.mk.injEq, and_true] at h
    subst h
    rfl
  | cons raw rest ih =>
    intro ys s s1 h
    cases hfit : tooLong raw with
    | true =>
      rw [scanLoop_cons_tooLong hfit] at h
      simp at h
    | false =>
      rcases hsl : scanLine s (dropCR raw) with ⟨s2, _ | r⟩
      · rw [scanLoop_cons_good hfit hsl] at h
        rw [List.cons_append, scanLoop_cons_good hfit hsl]
        exact ih ys s2 s1 h
      · rw [scanLoop_cons_stop hfit hsl] at h
        rw [List.cons_append, scanLoop_cons_stop hfit hsl]
        simp only [Prod.mk.injEq] at h
        obtain ⟨h1, h2⟩ := h
        subst h1 h2
        -- the scan of the first part did not stop: `r` is not `nil` here
        exact absurd hsl (by
          intro hsl
          rcases scanLine_cases s (dropCR raw) with c | c | c | c | c | c | c
          · obtain ⟨_, _, e, _, he⟩ := c
            rw [he] at hsl; simp at hsl
          · rw [c.2.2.2.2] at hsl; simp at hsl
          · obtain ⟨_, _, _, p, _, he⟩ := c
            rw [he] at hsl; simp at hsl
          · rw [c.2.2.2] at hsl; simp at hsl
          · rw [c.2.2.2.2.2] at hsl; simp at hsl
          · rw [c.2.2.2.2.2] at hsl; simp at hsl
          · rw [c.2.2] at hsl; simp at hsl)

theorem scanLine_stray_brace (s : Scan) (text : Str) (ht : trimSpace text = "\x7d".toList)
    (hl : s.level = 0) (hb : s.inMenuEntry = false) : scanLine s text = (s, none) := by
  have hd : isDirective (trimSpace text) = false := by rw [ht]; decide
  rcases scanLine_cases s text with c | c | c | c | c | c | c
  · rw [hd] at c; exact absurd c.1 (by simp)
  · rw [hd] at c; exact absurd c.1 (by simp)
  · rw [hd] at c; exact absurd c.1 (by simp)
  · rw [hb] at c; exact absurd c.2.2.1 (by simp)
  · rw [hl] at c; exact absurd c.2.2.2.1 (by simp)
  · rw [hl] at c; exact absurd c.2.2.2.1 (by simp)
  · exact c.2.2

theorem scanLine_ignored (s : Scan) (text : Str) (hk : keepLine text = false) :
    scanLine s (dropCR text) = (s, none) := by
  unfold keepLine at hk
  simp only [Bool.or_eq_false_iff, decide_eq_false_iff_not] at hk
  obtain ⟨hd, hc⟩ := hk
  rw [← trimSpace_dropCR] at hd hc
  rcases scanLine_cases s (dropCR text) with c | c | c | c | c | c | c
  · rw [hd] at c; exact absurd c.1 (by simp)
  · rw [hd] at c; exact absurd c.1 (by simp)
  · rw [hd] at c; exact absurd c.1 (by simp)
  · exact absurd c.2.1 hc
  · exact absurd c.2.1 hc
  · exact absurd c.2.1 hc
  · exact c.2.2

theorem scanLoop_filter : ∀ (raws : List Str) (s : Scan),
    (∀ raw ∈ raws, keepLine raw = false → tooLong raw = false) →
    scanLoop (raws.filter keepLine) s = scanLoop raws s := by
  intro raws
  induction raws with
  | nil => intro s _; rfl
  | cons raw rest ih =>
    intro s h
    have hrest : ∀ r ∈ rest, keepLine r = false → tooLong r = false :=
      fun r hr => h r (List.mem_cons_of_mem _ hr)
    cases hk : keepLine raw with
    | false =>
      rw [List.filter_cons_of_neg (by simp [hk]),
        scanLoop_cons_good (h raw (List.mem_cons_self _ _) hk) (scanLine_ignored s raw hk)]
      exact ih s hrest
    | true =>
      rw [List.filter_cons_of_pos hk]
      cases hfit : tooLong raw with
      | true => rw [scanLoop_cons_tooLong hfit, scanLoop_cons_tooLong hfit]
      | false =>
        rcases hsl : scanLine s (dropCR raw) with ⟨s2, _ | r⟩
        · rw [scanLoop_cons_good hfit hsl, scanLoop_cons_good hfit hsl]
          exact ih s2 hrest
        · rw [scanLoop_cons_stop hfit hsl, scanLoop_cons_stop hfit hsl]

theorem rawLines_reduceText (text : Str) :
    rawLines (reduceText text) = (rawLines text).filter keepLine := by
  unfold reduceText
  apply rawLines_flatten_lines
  intro x hx
  exact rawLines_no_newline text x (List.mem_filter.1 hx).1

theorem parseEntries_eq_scanLoop (grub : Grub2) (text : Str) :
    parseEntries grub text =
      ((scanLoop (rawLines text) (Scan.init grub)).1.grub,
        (scanLoop (rawLines text) (Scan.init grub)).2) := by
  rfl

theorem keepLine_xs (R : Str) (hR : R ≠ []) (hx : ∀ c ∈ R, c = 'x') : keepLine R = false := by
  obtain ⟨a, ha⟩ : ∃ a, R.head? = some a := by
    cases R with
    | nil => exact absurd rfl hR
    | cons c cs => exact ⟨c, rfl⟩
  obtain ⟨b, hb⟩ : ∃ b, R.getLast? = some b := by
    cases h : R.getLast? with
    | none => rw [List.getLast?_eq_none_iff] at h; exact absurd h hR
    | some b => exact ⟨b, rfl⟩
  have hax : a = 'x' := hx a (List.mem_of_mem_head? ha)
  have hbx : b = 'x' := hx b (List.mem_of_mem_getLast? hb)
  subst hax hbx
  have ht : trimSpace R = R := trimSpace_id R 'x' 'x' ha hb (by decide) (by decide)
  unfold keepLine
  rw [ht]
  cases R with
  | nil => exact absurd rfl hR
  | cons c cs =>
    simp only [List.head?_cons, Option.some.injEq] at ha
    subst ha
    simp [isDirective, isMenuentryLine, isSubmenuLine, hasPrefix, String.toList,
      List.isPrefixOf]

theorem reduce_long (R : Str) (hR : R ≠ []) (hx : ∀ c ∈ R, c = 'x')
    (hraw : rawLines R = [R]) (hlong : tooLong R = true) : ReduceChanges R := by
  constructor
  · rw [parseEntries_eq_scanLoop, hraw, scanLoop_cons_tooLong hlong]
  · rw [parseEntries_eq_scanLoop, rawLines_reduceText, hraw,
      List.filter_cons_of_neg (by simp [keepLine_xs R hR hx])]
    rfl

theorem reduceChanges_long : ReduceChanges menuLongLine :=
  reduce_long _ (by
      intro h
      have := congrArg List.length h
      rw [menuLongLine, List.length_replicate] at this
      exact absurd this (by decide))
    (fun c hc => List.eq_of_mem_replicate hc) (rawLines_replicate 65535) tooLong_replicate

/-- C25, counterexample. The menu text of one line of 65536 characters `x`
holds no directive and no closing brace: `parseEntries` fails on it with
`ErrTooLong`, and succeeds on the reduced text, from which that line is
deleted. -/
theorem reduceText_long_line_counterexample :
    (parseEntries Grub2.empty menuLongLine).2 = .error .errTooLong ∧
    (parseEntries Grub2.empty (reduceText menuLongLine)).2 = .nil :=
  reduceChanges_long

/-- C25, amended. For every state and every menu text whose lines to delete
(those that after trimming neither begin with `menuentry ` or `submenu ` nor
equal the closing brace) are each shorter than the scanner buffer,
`parseEntries` gives the same outcome and the same state, entry collection
included, on the reduced text as on the original. -/
theorem parseEntries_reduceText (grub : Grub2) (text : Str)
    (hfit : ∀ raw ∈ rawLines text, keepLine raw = false → tooLong raw = false) :
    parseEntries grub (reduceText text) = parseEntries grub text := by
  rw [parseEntries_eq_scanLoop, parseEntries_eq_scanLoop, rawLines_reduceText,
    scanLoop_filter _ _ hfit]

theorem parseEntries_reduceText_witness :
    parseEntries Grub2.empty (reduceText menuNested) = parseEntries Grub2.empty menuNested :=
  parseEntries_reduceText Grub2.empty menuNested (by decide)

/-- C26. When the scan of the lines of `a` ends normally at nesting level 0
and outside a menuentry body, `parseEntries` gives the same result on the text
with a closing-brace line inserted after `a` as on the text without it, and
the step on that line leaves the scan state, level and parent stack included,
as it was, with no error. -/
theorem parseEntries_stray_brace (grub : Grub2) (a b : Str) (s : Scan)
    (ha : a = [] ∨ a.getLast? = some '\n')
    (hs : scanLoop (rawLines a) (Scan.init grub) = (s, .nil))
    (hl : s.level = 0) (hb : s.inMenuEntry = false) :
    parseEntries grub (a ++ ("\x7d\n".toList ++ b)) = parseEntries grub (a ++ b) ∧
    scanLine s "\x7d".toList = (s, none) := by
  have hline : scanLine s "\x7d".toList = (s, none) :=
    scanLine_stray_brace s _ (by decide) hl hb
  refine ⟨?_, hline⟩
  have e : "\x7d\n".toList ++ b = "\x7d".toList ++ '\n' :: b := rfl
  rw [parseEntries_eq_scanLoop, parseEntries_eq_scanLoop, rawLines_append_lines _ _ ha,
    rawLines_append_lines _ _ ha, e, rawLines_append_newline _ _ (by decide),
    scanLoop_append _ _ _ _ hs, scanLoop_append _ _ _ _ hs,
    scanLoop_cons_good (by decide) (show scanLine s (dropCR "\x7d".toList) = (s, none) from hline)]

theorem parseEntries_stray_brace_witness :
    parseEntries Grub2.empty menuStrayBrace =
      parseEntries Grub2.empty "menuentry 'A' \x7b\n\x7d\nmenuentry 'B' \x7b\n\x7d\n".toList :=
  (parseEntries_stray_brace Grub2.empty "menuentry 'A' \x7b\n\x7d\n".toList
    "menuentry 'B' \x7b\n\x7d\n".toList
    (scanLoop (rawLines "menuentry 'A' \x7b\n\x7d\n".toList) (Scan.init Grub2.empty)).1
    (Or.inr (by decide)) (Prod.ext rfl (by decide)) (by decide) (by decide)).1

theorem push_entries (s : Scan) (k : EntryType) (t : Str) (p : Option Nat) :
    (s.push k t p).grub.entries = s.grub.entries ++ [⟨k, t, s.numCount s.level, p⟩] := by
  cases k <;> rfl

theorem trimSpace_head (s : Str) (c : Char) (h : (trimSpace s).head? = some c) :
    isSpace c = false := by
  unfold trimSpace trimLeft at h
  cases hl : s.dropWhile isSpace with
  | nil => rw [hl] at h; simp at h
  | cons a l =>
    have ha : isSpace a = false := by
      have := List.head_dropWhile_not isSpace s (by rw [hl]; simp)
      simp only [hl, List.head_cons] at this
      simpa using this
    rw [hl] at h
    have hp : List.rdropWhile isSpace (a :: l) <+: a :: l := List.rdropWhile_prefix _ _
    cases hr : List.rdropWhile isSpace (a :: l) with
    | nil => rw [hr] at h; simp at h
    | cons b m =>
      rw [hr] at h hp
      simp only [List.head?_cons, Option.some.injEq] at h
      subst h
      obtain ⟨x, hx⟩ := hp
      simp only [List.cons_append, List.cons.injEq] at hx
      rw [hx.1]
      exact ha

theorem dropWhile_space_trimSpace (s : Str) :
    (trimSpace s).dropWhile (fun c => c == ' ') = trimSpace s := by
  cases hl : trimSpace s with
  | nil => rfl
  | cons a l =>
    have ha : isSpace a = false := trimSpace_head s a (by rw [hl]; rfl)
    have : a ≠ ' ' := by
      intro e
      subst e
      exact absurd ha (by decide)
    simp [List.dropWhile_cons, this]

theorem stripPrefix_some : ∀ (p s r : Str), stripPrefix p s = some r → s = p ++ r := by
  intro p
  induction p with
  | nil => intro s r h; simp only [stripPrefix, Option.some.injEq] at h; simp [h]
  | cons a p ih =>
    intro s r h
    cases s with
    | nil => simp [stripPrefix] at h
    | cons b s =>
      simp only [stripPrefix] at h
      split_ifs at h with hab
      rw [ih s r h, hab]
      rfl

theorem matchKeyword_some (s r : Str) (h : matchKeyword s = some r) :
    s = "menuentry".toList ++ r ∨ s = "submenu".toList ++ r := by
  unfold matchKeyword at h
  cases h1 : stripPrefix "menuentry".toList s with
  | some r1 =>
    rw [h1] at h
    simp only [Option.some.injEq] at h
    subst h
    exact Or.inl (stripPrefix_some _ _ _ h1)
  | none =>
    rw [h1] at h
    exact Or.inr (stripPrefix_some _ _ _ h)

theorem matchEntryRegexp_trimmed (q : Char) (s t : Str)
    (h : matchEntryRegexp q (trimSpace s) = some t) :
    ∃ kw more rest, (kw = "menuentry".toList ∨ kw = "submenu".toList) ∧
      trimSpace s = kw ++ ' ' :: more ∧
      more.dropWhile (fun c => c == ' ') = q :: rest ∧ q ∈ rest ∧ '\n' ∉ rest ∧
      t = rest.takeWhile (fun x => x != q) := by
  unfold matchEntryRegexp at h
  rw [dropWhile_space_trimSpace] at h
  cases h1 : matchKeyword (trimSpace s) with
  | none => rw [h1] at h; simp at h
  | some afterKw =>
    rw [h1] at h
    simp only [] at h
    have hk := matchKeyword_some _ _ h1
    cases afterKw with
    | nil => simp at h
    | cons c more =>
      by_cases hc : c = ' '
      · subst hc
        simp only [] at h
        cases h2 : more.dropWhile (fun c => c == ' ') with
        | nil => rw [h2] at h; simp at h
        | cons d rest =>
          rw [h2] at h
          simp only [] at h
          split_ifs at h with hd
          obtain ⟨hd1, hd2, hd3⟩ := hd
          subst hd1
          simp only [Option.some.injEq] at h
          rcases hk with hk | hk
          · exact ⟨_, more, rest, Or.inl rfl, hk, h2, hd2, hd3, h.symm⟩
          · exact ⟨_, more, rest, Or.inr rfl, hk, h2, hd2, hd3, h.symm⟩
      · exfalso
        revert h
        split
        · rename_i heq
          simp only [List.cons.injEq] at heq
          exact absurd heq.1 hc
        · simp

theorem matchEntryRegexp_shape (q : Char) (kw more rest : Str)
    (hk : kw = "menuentry".toList ∨ kw = "submenu".toList)
    (hm : more.dropWhile (fun c => c == ' ') = q :: rest) (q' : Char) :
    matchEntryRegexp q' (kw ++ ' ' :: more) =
      if q = q' ∧ q' ∈ rest ∧ '\n' ∉ rest then some (rest.takeWhile (fun x => x != q'))
      else none := by
  have hdw : List.dropWhile (fun c => c == ' ') (kw ++ ' ' :: more) = kw ++ ' ' :: more := by
    rcases hk with rfl | rfl
    · simp [String.toList, List.dropWhile_cons]
    · simp [String.toList, List.dropWhile_cons]
  have hkw : matchKeyword (kw ++ ' ' :: more) = some (' ' :: more) := by
    rcases hk with rfl | rfl
    · simp [matchKeyword, stripPrefix, String.toList]
    · simp [matchKeyword, stripPrefix, String.toList]
  unfold matchEntryRegexp
  rw [hdw, hkw]
  simp only [hm]

theorem parseTitle_of_match (q : Char) (hq : q = '\'' ∨ q = '"') (s t : Str)
    (h : matchEntryRegexp q (trimSpace s) = some t) :
    parseTitle (trimSpace s) = (t, true) ∧ isDirective (trimSpace s) = true := by
  obtain ⟨kw, more, rest, hk, hs, hm, hq1, hq2, ht⟩ := matchEntryRegexp_trimmed q s t h
  rw [hs]
  constructor
  · unfold parseTitle
    simp only [trimLeft_keyword kw hk, _ENTRY_REGEXP_1, _ENTRY_REGEXP_2]
    rcases hq with rfl | rfl
    · rw [matchEntryRegexp_shape _ kw more rest hk hm, if_pos ⟨rfl, hq1, hq2⟩, ht]
    · rw [matchEntryRegexp_shape _ kw more rest hk hm, if_neg (by simp),
        matchEntryRegexp_shape _ kw more rest hk hm, if_pos ⟨rfl, hq1, hq2⟩, ht]
  · rcases hk with rfl | rfl
    · simp [isDirective, isMenuentryLine, hasPrefix, String.toList, List.isPrefixOf]
    · simp [isDirective, isMenuentryLine, isSubmenuLine, hasPrefix, String.toList,
        List.isPrefixOf]

/-- C27, counterexample. The line `menuentry<TAB>'Ubuntu' {` matches the
pattern of the specification with second group `Ubuntu`, and `parseEntries`
on it succeeds with an empty entry collection: a tab after the keyword is not
accepted. -/
theorem tab_after_keyword_counterexample :
    matchEntrySpec '\'' menuTabbed = some "Ubuntu".toList ∧
    (parseEntries Grub2.empty menuTabbed).2 = .nil ∧
    (parseEntries Grub2.empty menuTabbed).1.entries = [] := by
  decide

/-- C27, amended. At every point reached by the scan outside a menuentry body,
a line whose trimmed form matches `^ *(menuentry|submenu) +q(.*?)q.*$`, `q`
being the single or the double quote, with second group `t`, is taken as a
directive: the step reports no error and appends one entry with title `t`, the
kind of the keyword, the sibling counter of the level and the top of the
parent stack. Any white space before the keyword is removed by trimming;
between keyword and quote the pattern takes spaces only. -/
theorem scanLine_recognises_directive (grub : Grub2) (pre : List Str) (text : Str)
    (q : Char) (t : Str) (hq : q = '\'' ∨ q = '"')
    (hm : matchEntryRegexp q (trimSpace text) = some t)
    (hb : (scanLoop pre (Scan.init grub)).1.inMenuEntry = false) :
    ∃ s1 parent,
      scanLine (scanLoop pre (Scan.init grub)).1 text = (s1, none) ∧
      (scanLoop pre (Scan.init grub)).1.parentMenus.getLast? = some parent ∧
      s1.grub.entries = (scanLoop pre (Scan.init grub)).1.grub.entries ++
        [⟨kindOf (trimSpace text), t,
          (scanLoop pre (Scan.init grub)).1.numCount (scanLoop pre (Scan.init grub)).1.level,
          parent⟩] := by
  obtain ⟨hpt, hd⟩ := parseTitle_of_match q hq text t hm
  have hst := (stackOK_scanLoop pre (Scan.init grub) (stackOK_init grub)).2
  generalize (scanLoop pre (Scan.init grub)).1 = s at hb hst ⊢
  rcases scanLine_cases s text with c | c | c | c | c | c | c
  · rcases c.2.1 with h | h
    · rw [hb] at h; exact absurd h (by simp)
    · rw [hpt] at h; exact absurd h (by simp)
  · have := c.2.2.2.1
    rw [List.getLast?_eq_none_iff] at this
    have hl := hst.1
    rw [this] at hl
    simp at hl
  · obtain ⟨_, _, _, parent, hp, he⟩ := c
    refine ⟨_, parent, he, hp, ?_⟩
    rw [push_entries, hpt]
  · rw [hd] at c; exact absurd c.1 (by simp)
  · rw [hd] at c; exact absurd c.1 (by simp)
  · rw [hd] at c; exact absurd c.1 (by simp)
  · rw [hd] at c; exact absurd c.1 (by simp)

theorem scanLine_recognises_directive_witness :
    ∃ s1 parent,
      scanLine (scanLoop [] (Scan.init Grub2.empty)).1 lineIndented = (s1, none) ∧
      (scanLoop [] (Scan.init Grub2.empty)).1.parentMenus.getLast? = some parent ∧
      s1.grub.entries = (scanLoop [] (Scan.init Grub2.empty)).1.grub.entries ++
        [⟨kindOf (trimSpace lineIndented), "Advanced options".toList,
          (scanLoop [] (Scan.init Grub2.empty)).1.numCount
            (scanLoop [] (Scan.init Grub2.empty)).1.level,
          parent⟩] :=
  scanLine_recognises_directive Grub2.empty [] lineIndented '"' "Advanced options".toList
    (Or.inr rfl) (by decide) (by decide)

end GrubModel
